import Mathlib

/-!
# Meal_Planner: meal-plan aggregate, grocery list and nutrition summaries

A shallow embedding of `src/models/MealPlan.js`, `src/models/Recipe.js`,
`src/utils/dateUtils.js`, the normalizer of `src/services/themealdbAPI.js`, the merge of
`src/routes/groceryLists.js`, the handlers of `src/routes/mealPlans.js` and the frontend
`extractGroceryList`, `checkPasswordStrength` and `handleSubmit` of `src/src/App.jsx`,
followed by theorems about them.

Modelling conventions

* A JavaScript `Date` is its time value, an integer number of milliseconds since
  the epoch; `Invalid Date` is not a value of the type.  `toISOString` follows
  ECMA-262 (`Day`, `DayFromYear`, `YearFromTime`, `MonthFromTime`, `DateFromTime`).
* Local time is UTC plus a constant offset `zone`, a parameter of every function that
  reads the local calendar: a zone without daylight-saving shifts.
* JavaScript numbers that the code adds and multiplies (nutrition fields,
  servings, counts) are integers; `undefined` fields are `Option`.
* Strings are sequences of code points.  The Unicode case conversions and the
  collation of the host are parameters (`JsRuntime`); `asciiRuntime` is the
  instance that agrees with every host on ASCII text.
* A plain object used as a dictionary (`const ingredientCount = {}`) keeps its own
  keys in insertion order, lists array-index keys first, and reads through to the
  properties it inherits from `Object.prototype`.
* Mongoose documents are the plain records the methods build.  The one setter the schema
  declares on what `addMeal` pushes, `trim` on an entry's `notes`, runs at the push and
  is part of `addMeal`; other schema-level casting is not modelled.  Validation runs when a
  document is saved: `save` checks the validators the schema declares (`enum`, `min`)
  before the pre-save hook and the write.
* A collection is the list of its documents; a `Map` is the list of its entries in
  insertion order.
* To state what the read-only methods leave unchanged they are also run on a heap of
  objects, a reference being a position in the heap: the plan document, its array of
  meals and its dates are objects, and so are the arrays, records and dates the methods
  create and mutate.
-/

namespace MealPlanner

/-! ## Dates -/

/-- A JavaScript `Date`: the time value in milliseconds since 1970-01-01T00:00:00Z. -/
structure Date where
  time : Int
deriving DecidableEq, Repr

/-- ECMA-262 `msPerDay`. -/
def msPerDay : Int := 86400000

/-- ECMA-262 `Day(t) = floor(t / msPerDay)`. -/
def Day (t : Int) : Int := t / msPerDay

/-- ECMA-262 `DayFromYear(y)`: the day number of January 1 of year `y`. -/
def DayFromYear (y : Int) : Int :=
  365 * (y - 1970) + (y - 1969) / 4 - (y - 1901) / 100 + (y - 1601) / 400

/-- ECMA-262 `YearFromTime`, on day numbers: the largest `y` with `DayFromYear y ≤ day`,
computed from the mean year length and corrected by at most one year. -/
def YearFromDay (day : Int) : Int :=
  let y0 := 1970 + (400 * day) / 146097
  if day < DayFromYear y0 then y0 - 1
  else if DayFromYear (y0 + 1) ≤ day then y0 + 1
  else y0

/-- ECMA-262 `InLeapYear`, as 0 or 1: `DaysInYear` is 366 exactly in leap years. -/
def InLeapYear (day : Int) : Int :=
  let y := YearFromDay day
  if DayFromYear (y + 1) - DayFromYear y = 366 then 1 else 0

/-- ECMA-262 `DayWithinYear`. -/
def DayWithinYear (day : Int) : Int := day - DayFromYear (YearFromDay day)

/-- The month, 0 = January .. 11 = December, of the day numbered `d` within its year
(`d = 0` on January 1), `l` being 1 in a leap year and 0 otherwise: the table of
ECMA-262 `MonthFromTime`. -/
def monthOfYearDay (d l : Int) : Int :=
  if d < 31 then 0
  else if d < 59 + l then 1
  else if d < 90 + l then 2
  else if d < 120 + l then 3
  else if d < 151 + l then 4
  else if d < 181 + l then 5
  else if d < 212 + l then 6
  else if d < 243 + l then 7
  else if d < 273 + l then 8
  else if d < 304 + l then 9
  else if d < 334 + l then 10
  else 11

/-- The day of the month, 1 .. 31, of the day numbered `d` within its year: the table
of ECMA-262 `DateFromTime`. -/
def dateOfYearDay (d l : Int) : Int :=
  if d < 31 then d + 1
  else if d < 59 + l then d - 30
  else if d < 90 + l then d - 58 - l
  else if d < 120 + l then d - 89 - l
  else if d < 151 + l then d - 119 - l
  else if d < 181 + l then d - 150 - l
  else if d < 212 + l then d - 180 - l
  else if d < 243 + l then d - 211 - l
  else if d < 273 + l then d - 242 - l
  else if d < 304 + l then d - 272 - l
  else if d < 334 + l then d - 303 - l
  else d - 333 - l

/-- ECMA-262 `MonthFromTime`, on day numbers. -/
def MonthFromDay (day : Int) : Int := monthOfYearDay (DayWithinYear day) (InLeapYear day)

/-- ECMA-262 `DateFromTime`, on day numbers. -/
def DateFromDay (day : Int) : Int := dateOfYearDay (DayWithinYear day) (InLeapYear day)

/-- The last `width` decimal digits of `n`, most significant first. -/
def fixedDigits : Nat → Nat → List Char
  | 0, _ => []
  | w + 1, n => fixedDigits w (n / 10) ++ [Nat.digitChar (n % 10)]

/-- The decimal numeral of `n` padded with zeros to at least `width` digits
(`String.prototype.padStart(width, '0')` of the numeral). -/
def padDigits (width n : Nat) : List Char :=
  if n < 10 ^ width then fixedDigits width n else Nat.toDigits 10 n

/-- The year part of `toISOString`: four digits for years 0 .. 9999, otherwise a sign
and six digits (ECMA-262 expanded years). -/
def isoYear (y : Int) : List Char :=
  if 0 ≤ y ∧ y ≤ 9999 then padDigits 4 y.toNat
  else if y < 0 then '-' :: padDigits 6 (-y).toNat
  else '+' :: padDigits 6 y.toNat

/-- The date part of `Date.prototype.toISOString()`, that is
`date.toISOString().split('T')[0]`: the UTC calendar day as `YYYY-MM-DD`. -/
def isoDate (day : Int) : String :=
  String.mk (isoYear (YearFromDay day) ++ '-' :: padDigits 2 (MonthFromDay day + 1).toNat
    ++ '-' :: padDigits 2 (DateFromDay day).toNat)

/-- The date key `date.toISOString().split('T')[0]` used by every method of the model
(`formatDateString` of `src/utils/dateUtils.js`). -/
def dateKey (d : Date) : String := isoDate (Day d.time)

/-! ## Strings and numbers of the host -/

/-- The built-ins of the JavaScript host that depend on Unicode tables:
`String.prototype.toLowerCase`, `String.prototype.toUpperCase` and
`String.prototype.localeCompare` (negative, zero or positive). -/
structure JsRuntime where
  toLowerCase : String → String
  toUpperCase : String → String
  localeCompare : String → String → Int

/-- Lower-casing of one ASCII letter; every other character is left as it is. -/
def asciiLower (c : Char) : Char :=
  if 65 ≤ c.toNat ∧ c.toNat ≤ 90 then Char.ofNat (c.toNat + 32) else c

/-- Upper-casing of one ASCII letter; every other character is left as it is. -/
def asciiUpper (c : Char) : Char :=
  if 97 ≤ c.toNat ∧ c.toNat ≤ 122 then Char.ofNat (c.toNat - 32) else c

/-- Code-point order of two character sequences, as -1, 0 or 1. -/
def compareChars : List Char → List Char → Int
  | [], [] => 0
  | [], _ :: _ => -1
  | _ :: _, [] => 1
  | a :: as, b :: bs =>
      if a.toNat < b.toNat then -1 else if b.toNat < a.toNat then 1 else compareChars as bs

/-- The host restricted to ASCII: case conversion of the letters A-Z / a-z and
code-point collation.  Every host agrees with it on lower- and upper-casing ASCII text. -/
def asciiRuntime : JsRuntime where
  toLowerCase := fun s => String.mk (s.data.map asciiLower)
  toUpperCase := fun s => String.mk (s.data.map asciiUpper)
  localeCompare := fun a b => compareChars a.data b.data

/-- ECMA-262 WhiteSpace and LineTerminator code points, the characters removed by
`String.prototype.trim`. -/
def isJsWhiteSpace (c : Char) : Bool :=
  let n := c.toNat
  n == 0x09 || n == 0x0A || n == 0x0B || n == 0x0C || n == 0x0D || n == 0x20 || n == 0xA0
    || n == 0x1680 || (0x2000 ≤ n && n ≤ 0x200A) || n == 0x2028 || n == 0x2029
    || n == 0x202F || n == 0x205F || n == 0x3000 || n == 0xFEFF

/-- The function `String.prototype.trim`. -/
def jsTrim (s : String) : String :=
  String.mk ((s.data.dropWhile isJsWhiteSpace).reverse.dropWhile isJsWhiteSpace).reverse

/-- The text of an integer-valued number in a template literal. -/
def numberToString (n : Int) : String :=
  if n < 0 then "-" ++ Nat.repr (-n).toNat else Nat.repr n.toNat

/-- The UTF-16 code units of a string, the sequence JavaScript compares and indexes. -/
def utf16 : List Char → List Nat
  | [] => []
  | c :: cs =>
      if c.toNat < 0x10000 then c.toNat :: utf16 cs
      else (0xD800 + (c.toNat - 0x10000) / 0x400) :: (0xDC00 + (c.toNat - 0x10000) % 0x400)
        :: utf16 cs

/-- Lexicographic `≤` on code-unit sequences. -/
def unitsLe : List Nat → List Nat → Bool
  | [], _ => true
  | _ :: _, [] => false
  | a :: as, b :: bs => if a < b then true else if b < a then false else unitsLe as bs

/-- The relational operator `a <= b` on two strings (`b >= a`). -/
def jsStrLe (a b : String) : Bool := unitsLe (utf16 a.data) (utf16 b.data)

/-- The expression `key.charAt(0).toUpperCase() + key.slice(1)`.  `charAt(0)` is the
first code unit: for a first character outside the Basic Multilingual Plane it is a
lone surrogate, which has no upper case, so the key comes back unchanged. -/
def capitalize (rt : JsRuntime) (key : String) : String :=
  match key.data with
  | [] => rt.toUpperCase "" ++ ""
  | c :: cs =>
      if c.toNat < 0x10000 then rt.toUpperCase (String.singleton c) ++ String.mk cs
      else key

/-! ## Plain objects used as dictionaries -/

/-- A value stored under a key of `ingredientCount`: a number, or the string obtained
when `+ 1` is applied to a function inherited from `Object.prototype` (its source
text followed by `1`), which is not the text of a number. -/
inductive Count where
  | num (n : Nat)
  | text
deriving DecidableEq, Repr

/-- The own enumerable string-keyed properties of an object created by `{}`, in order
of creation. -/
abbrev Dict := List (String × Count)

/-- The function-valued properties every `{}` inherits from `Object.prototype`. -/
def inheritedFunctions : List String :=
  ["constructor", "__defineGetter__", "__defineSetter__", "hasOwnProperty",
   "__lookupGetter__", "__lookupSetter__", "isPrototypeOf", "propertyIsEnumerable",
   "toString", "valueOf", "toLocaleString"]

/-- Own-property lookup. -/
def Dict.own (o : Dict) (key : String) : Option Count :=
  match o with
  | [] => none
  | (k, v) :: rest => if k = key then some v else Dict.own rest key

/-- Replacement of the value of an existing own property, keeping its position. -/
def Dict.replace (o : Dict) (key : String) (v : Count) : Dict :=
  match o with
  | [] => []
  | (k, w) :: rest => if k = key then (k, v) :: rest else (k, w) :: Dict.replace rest key v

/-- The statement `obj[key] = (obj[key] || 0) + 1`.
* own number `n`: becomes `n + 1`; own string: stays a string (`s + 1` appends);
* `__proto__`, not own: the getter yields `Object.prototype`, `+ 1` a string, and the
  inherited setter ignores a value that is not an object, so nothing is stored;
* an inherited function, not own: `f + 1` is a string, stored as a new own property;
* any other key, not own: `undefined || 0` gives 0, so 1 is stored as a new property. -/
def Dict.increment (o : Dict) (key : String) : Dict :=
  match Dict.own o key with
  | some (Count.num n) => Dict.replace o key (Count.num (n + 1))
  | some Count.text => Dict.replace o key Count.text
  | none =>
      if key = "__proto__" then o
      else if key ∈ inheritedFunctions then o ++ [(key, Count.text)]
      else o ++ [(key, Count.num 1)]

/-- The value of a decimal digit string, most significant digit first. -/
def digitsValue (cs : List Char) : Nat :=
  cs.foldl (fun acc c => 10 * acc + (c.toNat - 48)) 0

/-- ECMA-262 array index: the canonical decimal numeral of an integer in
`0 .. 2^32 - 2`; such keys are listed first by `Object.keys`, in numeric order. -/
def arrayIndex? (key : String) : Option Nat :=
  match key.data with
  | [] => none
  | c :: cs =>
      if (c :: cs).all (fun d => 48 ≤ d.toNat && d.toNat ≤ 57)
          && (c != '0' || cs.isEmpty) && (c :: cs).length ≤ 10
          && digitsValue (c :: cs) ≤ 4294967294
      then some (digitsValue (c :: cs)) else none

/-- Insertion of an entry into a list ordered by array index. -/
def insertByIndex (e : Nat × String × Count) : List (Nat × String × Count) →
    List (Nat × String × Count)
  | [] => [e]
  | x :: xs => if e.1 ≤ x.1 then e :: x :: xs else x :: insertByIndex e xs

/-- The own entries whose key is an array index, in ascending numeric order. -/
def indexEntries (o : Dict) : List (Nat × String × Count) :=
  o.foldr (fun kv acc =>
    match arrayIndex? kv.1 with
    | some i => insertByIndex (i, kv.1, kv.2) acc
    | none => acc) []

/-- The entries in `Object.keys` / `Object.entries` order (OrdinaryOwnPropertyKeys):
array-index keys ascending, then the other keys in order of creation. -/
def Dict.entries (o : Dict) : List (String × Count) :=
  (indexEntries o).map (fun e => e.2) ++ o.filter (fun kv => (arrayIndex? kv.1).isNone)

/-- The comparison `count > 1`: a string that is not a numeral converts to NaN, and
every comparison with NaN is false. -/
def Count.gtOne : Count → Bool
  | Count.num n => decide (1 < n)
  | Count.text => false

/-- The text of a count inside a template literal; for a string count the text is the
string itself, whose exact spelling is that of the host's function source text. -/
def Count.render : Count → String
  | Count.num n => Nat.repr n
  | Count.text => "function () { [native code] }1"

/-! ## Data model (`src/models/MealPlan.js`, `src/models/Recipe.js`) -/

/-- The `nutrition` sub-document; a field that is absent is `none`. -/
structure Nutrition where
  calories : Option Int
  protein : Option Int
  fat : Option Int
  carbs : Option Int
deriving DecidableEq, Repr

/-- The expression `x || 0` on an optional number. -/
def orZero (x : Option Int) : Int := x.getD 0

/-- The literal `{ calories: 0, protein: 0, fat: 0, carbs: 0 }`. -/
def Nutrition.zero : Nutrition := ⟨some 0, some 0, some 0, some 0⟩

/-- An element of `detailedIngredients`. -/
structure DetailedIngredient where
  name : String
  amount : Option String
  unit : Option String
deriving DecidableEq, Repr

/-- The fields of a recipe read by `addMeal`.  `ingredients` has schema type Mixed:
`some l` is an array of strings, `none` any value that is not an array.
`hasGetSimpleIngredients` tells whether the object carries the method
`getSimpleIngredients` (every Recipe document does). -/
structure Recipe where
  id : String
  title : String
  image : String
  ingredients : Option (List String)
  detailedIngredients : List DetailedIngredient
  nutrition : Option Nutrition
  category : String
  area : String
  hasGetSimpleIngredients : Bool
deriving DecidableEq, Repr

/-- The field `recipeSnapshot` of a meal entry. -/
structure RecipeSnapshot where
  title : String
  image : String
  ingredients : Option (List String)
  nutrition : Option Nutrition
  category : String
  area : String
deriving DecidableEq, Repr

/-- An element of `meals` (`mealEntrySchema`). -/
structure MealEntry where
  date : Date
  dateString : String
  mealType : String
  recipe : String
  recipeSnapshot : Option RecipeSnapshot
  servings : Int
  notes : String
deriving DecidableEq, Repr

/-- The meal plan document (`mealPlanSchema`). -/
structure MealPlan where
  userId : String
  meals : List MealEntry
  weekStartDate : Date
  weekEndDate : Date
  weekId : String
  isActive : Bool
  notes : String
  totalCalories : Int
  totalCost : Int
  shoppingListGenerated : Bool
  lastShoppingListDate : Option Date
deriving DecidableEq, Repr

/-- JavaScript truthiness of an optional string: present and not empty. -/
def truthy (s : Option String) : Bool :=
  match s with
  | some x => x != ""
  | none => false

/-- The method `Recipe.getSimpleIngredients` (`src/models/Recipe.js`). -/
def getSimpleIngredients (r : Recipe) : List String :=
  match r.ingredients with
  | some l => l
  | none =>
      if r.detailedIngredients.length > 0 then
        r.detailedIngredients.map (fun ing =>
          if truthy ing.amount && truthy ing.unit
          then ing.amount.getD "" ++ " " ++ ing.unit.getD "" ++ " " ++ ing.name
          else ing.name)
      else []

/-- The method `updateTotals`. -/
def updateTotals (p : MealPlan) : MealPlan :=
  let totalCalories := p.meals.foldl (fun total meal =>
    match meal.recipeSnapshot with
    | some snap =>
        match snap.nutrition with
        | some nutrition => total + orZero nutrition.calories * meal.servings
        | none => total
    | none => total) 0
  { p with totalCalories := totalCalories }

/-- The method `addMeal(date, mealType, recipe, servings, notes)`.  The entry is pushed
onto the document array `meals`, which applies the setter the schema declares on an
entry's `notes` (`trim: true`): the notes are stored trimmed. -/
def addMeal (p : MealPlan) (date : Date) (mealType : String) (recipe : Recipe)
    (servings : Int) (notes : String) : MealPlan :=
  let dateString := dateKey date
  let kept := p.meals.filter (fun meal =>
    !(meal.dateString == dateString && meal.mealType == mealType))
  let recipeSnapshot : RecipeSnapshot :=
    { title := recipe.title
      image := recipe.image
      ingredients :=
        if recipe.hasGetSimpleIngredients then some (getSimpleIngredients recipe)
        else recipe.ingredients
      nutrition := some (recipe.nutrition.getD Nutrition.zero)
      category := recipe.category
      area := recipe.area }
  updateTotals { p with meals := kept ++ [
    { date := date
      dateString := dateString
      mealType := mealType
      recipe := recipe.id
      recipeSnapshot := some recipeSnapshot
      servings := servings
      notes := jsTrim notes }] }

/-- The method `removeMeal(date, mealType)`. -/
def removeMeal (p : MealPlan) (date : Date) (mealType : String) : MealPlan :=
  let dateString := dateKey date
  updateTotals { p with meals := p.meals.filter (fun meal =>
    !(meal.dateString == dateString && meal.mealType == mealType)) }

/-- The entries `getGroceryList` works on (its local `mealsToInclude`): those whose
`dateString` lies between the two date keys in string order when both bounds are
given, every entry otherwise. -/
def mealsToInclude (p : MealPlan) (startDate endDate : Option Date) : List MealEntry :=
  match startDate, endDate with
  | some s, some e =>
      p.meals.filter (fun meal =>
        jsStrLe (dateKey s) meal.dateString && jsStrLe meal.dateString (dateKey e))
  | _, _ => p.meals

/-- The ingredient strings pushed for one entry: each one followed by ` (x<servings>)`
when the servings exceed 1. -/
def entryIngredients (meal : MealEntry) : List String :=
  match meal.recipeSnapshot with
  | some snap =>
      match snap.ingredients with
      | some ingredients =>
          ingredients.map (fun ingredient =>
            if meal.servings > 1
            then ingredient ++ " (x" ++ numberToString meal.servings ++ ")"
            else ingredient)
      | none => []
  | none => []

/-- The local `allIngredients` of `getGroceryList` after the loop over the entries. -/
def allIngredients (meals : List MealEntry) : List String :=
  meals.foldl (fun acc meal => acc ++ entryIngredients meal) []

/-- The loop `items.forEach(item => { const key = f(item); obj[key] = (obj[key] || 0) + 1 })`
on a fresh `{}`. -/
def countKeys (f : String → String) (items : List String) : Dict :=
  items.foldl (fun o item => Dict.increment o (f item)) []

/-- The dedup key of the backend: `item.toLowerCase().trim()`. -/
def groceryKey (rt : JsRuntime) (item : String) : String := jsTrim (rt.toLowerCase item)

/-- The line of the backend for one key and its count. -/
def groceryLine (rt : JsRuntime) (kv : String × Count) : String :=
  let name := capitalize rt kv.1
  if kv.2.gtOne then name ++ " (needed " ++ kv.2.render ++ " times)" else name

/-- The method `getGroceryList(startDate, endDate)`; an omitted bound is `null`. -/
def getGroceryList (rt : JsRuntime) (p : MealPlan) (startDate endDate : Option Date) :
    List String :=
  let ingredientCount :=
    countKeys (groceryKey rt) (allIngredients (mealsToInclude p startDate endDate))
  (Dict.entries ingredientCount).map (groceryLine rt)

/-- The record `{ calories, protein, fat, carbs }` returned by `getNutritionByDate`. -/
structure NutritionTotals where
  calories : Int
  protein : Int
  fat : Int
  carbs : Int
deriving DecidableEq, Repr

/-- The method `getNutritionByDate(date)`; an omitted date is `null`. -/
def getNutritionByDate (p : MealPlan) (date : Option Date) : NutritionTotals :=
  let mealsToAnalyze : List MealEntry :=
    match date with
    | some d => p.meals.filter (fun meal => meal.dateString == dateKey d)
    | none => p.meals
  mealsToAnalyze.foldl (fun (nutrition : NutritionTotals) meal =>
    match meal.recipeSnapshot with
    | some snap =>
        match snap.nutrition with
        | some mealNutrition =>
            { calories := nutrition.calories + orZero mealNutrition.calories * meal.servings
              protein := nutrition.protein + orZero mealNutrition.protein * meal.servings
              fat := nutrition.fat + orZero mealNutrition.fat * meal.servings
              carbs := nutrition.carbs + orZero mealNutrition.carbs * meal.servings }
        | none => nutrition
    | none => nutrition) { calories := 0, protein := 0, fat := 0, carbs := 0 }

/-! ## The frontend grocery list (`extractGroceryList`, `src/src/App.jsx`) -/

/-- A value found in an `ingredients` field of a calendar meal. -/
inductive IngredientsValue where
  /-- The values `undefined`, `null`, or any other falsy value that is not a string. -/
  | absent
  /-- An array; an element that is not a string is `none`. -/
  | array (items : List (Option String))
  /-- A string. -/
  | text (s : String)
  /-- A truthy value that is neither an array nor a string. -/
  | object
deriving DecidableEq, Repr

/-- A recipe placed in a calendar slot: `meal.ingredients` and `meal.recipe?.ingredients`. -/
structure CalendarMeal where
  ingredients : IngredientsValue
  recipeIngredients : IngredientsValue
deriving DecidableEq, Repr

/-- One day of the calendar: its date and `Object.values(dayData.meals || {})`, a slot
holding `null` being `none`. -/
structure DayData where
  date : Date
  meals : List (Option CalendarMeal)
deriving DecidableEq, Repr

/-- The argument `dateRange`; a bound that is missing or falsy is `none`. -/
structure DateRange where
  start : Option Date
  stop : Option Date
deriving DecidableEq, Repr

/-- JavaScript truthiness of an `ingredients` value. -/
def IngredientsValue.truthy : IngredientsValue → Bool
  | IngredientsValue.absent => false
  | IngredientsValue.array _ => true
  | IngredientsValue.text s => s != ""
  | IngredientsValue.object => true

/-- The expression `meal.ingredients || meal.recipe?.ingredients || []`. -/
def mealIngredients (meal : CalendarMeal) : IngredientsValue :=
  if meal.ingredients.truthy then meal.ingredients
  else if meal.recipeIngredients.truthy then meal.recipeIngredients
  else IngredientsValue.array []

/-- The pieces of `s.split(/[,;\n]/)`; `cur` is the piece being read, reversed. -/
def splitDelims (cur : List Char) : List Char → List String
  | [] => [String.mk cur.reverse]
  | c :: cs =>
      if c = ',' ∨ c = ';' ∨ c = '\n' then String.mk cur.reverse :: splitDelims [] cs
      else splitDelims (c :: cur) cs

/-- What one filled slot pushes onto `allIngredients`. -/
def collectMeal (meal : CalendarMeal) : List (Option String) :=
  match mealIngredients meal with
  | IngredientsValue.array items => if items.length > 0 then items else []
  | IngredientsValue.text s =>
      (((splitDelims [] s.data).map jsTrim).filter (fun item => item.length > 0)).map some
  | _ => []

/-- Local midnight of the local calendar day of `t` (`setHours(0, 0, 0, 0)`), for a
zone whose local time is UTC plus `zone` milliseconds. -/
def startOfLocalDay (zone t : Int) : Int := (t + zone) / msPerDay * msPerDay - zone

/-- The test that makes `extractGroceryList` skip a day: a range with both bounds is
given and the day's local midnight is before the local midnight of `start` or after
the last millisecond of the local day of `stop`. -/
def skipDay (zone : Int) (dayData : DayData) (dateRange : Option DateRange) : Bool :=
  match dateRange with
  | some r =>
      match r.start, r.stop with
      | some s, some e =>
          let dayDate := startOfLocalDay zone dayData.date.time
          let startDate := startOfLocalDay zone s.time
          let endDate := startOfLocalDay zone e.time + msPerDay - 1
          decide (dayDate < startDate) || decide (dayDate > endDate)
      | _, _ => false
  | none => false

/-- The locals `allIngredients` and `mealCount` after the loop over the days. -/
def collectCalendar (zone : Int) (mealPlan : List DayData) (dateRange : Option DateRange) :
    List (Option String) × Nat :=
  mealPlan.foldl (fun acc dayData =>
    if skipDay zone dayData dateRange then acc
    else dayData.meals.foldl (fun acc meal =>
      match meal with
      | some m => (acc.1 ++ collectMeal m, acc.2 + 1)
      | none => acc) acc) ([], 0)

/-- The local `cleanIngredients`: the string items that are not blank, trimmed. -/
def cleanIngredients (items : List (Option String)) : List String :=
  items.filterMap (fun item =>
    match item with
    | some s => if s != "" && (jsTrim s).length > 0 then some (jsTrim s) else none
    | none => none)

/-- Stable insertion into a list sorted by the comparator `a.localeCompare(b)`. -/
def insertByLocale (rt : JsRuntime) (e : String × Count) : List (String × Count) →
    List (String × Count)
  | [] => [e]
  | x :: xs =>
      if rt.localeCompare e.1 x.1 ≤ 0 then e :: x :: xs else x :: insertByLocale rt e xs

/-- The call `.sort(([a], [b]) => a.localeCompare(b))`, a stable sort. -/
def sortByLocale (rt : JsRuntime) (es : List (String × Count)) : List (String × Count) :=
  es.foldr (insertByLocale rt) []

/-- The line of the frontend for one key and its count. -/
def calendarLine (rt : JsRuntime) (kv : String × Count) : String :=
  let name := capitalize rt kv.1
  if kv.2.gtOne then name ++ " (x" ++ kv.2.render ++ ")" else name

/-- The placeholder returned when no meal slot was processed. -/
def noMealsMessage : String :=
  "No meals planned yet. Add some recipes to generate a grocery list!"

/-- The placeholder returned when meals were processed but gave no ingredient. -/
def noIngredientsMessage : String :=
  "No ingredients found in planned meals. The recipes might not have ingredient data."

/-- The function `extractGroceryList(mealPlan, dateRange)` of the frontend; `mealPlan` is
`Object.values(mealPlan)`, the days of the calendar in key order, and `zone` the
offset of the browser's local time. -/
def extractGroceryList (rt : JsRuntime) (zone : Int) (mealPlan : List DayData)
    (dateRange : Option DateRange) : List String :=
  let collected := collectCalendar zone mealPlan dateRange
  let clean := cleanIngredients collected.1
  if clean.length = 0 then
    if collected.2 = 0 then [noMealsMessage] else [noIngredientsMessage]
  else
    let ingredientCount := countKeys rt.toLowerCase clean
    (sortByLocale rt (Dict.entries ingredientCount)).map (calendarLine rt)

/-! ## Sequences of mutations -/

/-- One call of a mutating method. -/
inductive Op where
  | add (date : Date) (mealType : String) (recipe : Recipe) (servings : Int) (notes : String)
  | remove (date : Date) (mealType : String)
deriving DecidableEq, Repr

/-- The effect of one call. -/
def Op.apply (p : MealPlan) : Op → MealPlan
  | Op.add d t r s n => addMeal p d t r s n
  | Op.remove d t => removeMeal p d t

/-- The effect of a sequence of calls, first call first. -/
def runOps (p : MealPlan) (ops : List Op) : MealPlan := ops.foldl Op.apply p

/-- The plan built by `findOrCreateWeekPlan` when none exists: no meals, schema
defaults for every field it does not set. -/
def newPlan (userId : String) (weekStartDate weekEndDate : Date) (weekId : String) :
    MealPlan :=
  { userId := userId, meals := [], weekStartDate := weekStartDate,
    weekEndDate := weekEndDate, weekId := weekId, isActive := true, notes := "",
    totalCalories := 0, totalCost := 0, shoppingListGenerated := false,
    lastShoppingListDate := none }

/-! ## Vocabulary of the specification -/

/-- The amount one entry contributes to a nutrition field: the snapshot's value of the
field times the servings, a missing snapshot, nutrition record or field counting as 0. -/
def entryField (field : Nutrition → Option Int) (m : MealEntry) : Int :=
  match m.recipeSnapshot with
  | some snap =>
      match snap.nutrition with
      | some n => (field n).getD 0 * m.servings
      | none => 0
  | none => 0

/-- The calories one entry contributes: `nutrition.calories × servings`. -/
def entryCalories (m : MealEntry) : Int := entryField Nutrition.calories m

/-- The slot of an entry: its date key and meal type. -/
def slot (m : MealEntry) : String × String := (m.dateString, m.mealType)

/-- The value the counting loop leaves under `key` once it has seen the keys `ks`:
nothing for a key that did not occur and for `__proto__`, a string for an inherited
function name, the number of occurrences for every other key. -/
def countedValue (ks : List String) (key : String) : Option Count :=
  if key ∈ ks ∧ key ≠ "__proto__" then
    some (if key ∈ inheritedFunctions then Count.text else Count.num (ks.count key))
  else none

/-- The line the specification asks for a key that occurs `n` times: the capitalized
key, followed by ` (needed n times)` when `n > 1`. -/
def neededLine (rt : JsRuntime) (key : String) (n : Nat) : String :=
  capitalize rt key ++ (if n > 1 then " (needed " ++ Nat.repr n ++ " times)" else "")

/-- The UTC calendar day of a date has a year of four digits, 0000 .. 9999, so that its
date key has the form YYYY-MM-DD. -/
def FourDigitYear (d : Date) : Prop :=
  0 ≤ YearFromDay (Day d.time) ∧ YearFromDay (Day d.time) ≤ 9999

instance : DecidablePred FourDigitYear :=
  fun d => inferInstanceAs (Decidable (0 ≤ YearFromDay (Day d.time) ∧
    YearFromDay (Day d.time) ≤ 9999))

/-- The recipe of scenario 2: "Tacos", 400 calories. -/
def tacos : Recipe :=
  { id := "r-tacos", title := "Tacos", image := "", ingredients := some ["Tortilla", "Beef"],
    detailedIngredients := [], nutrition := some ⟨some 400, some 25, some 20, some 30⟩,
    category := "Beef", area := "Mexican", hasGetSimpleIngredients := true }

/-- Midnight UTC of 2024-01-01. -/
def jan1 : Date := ⟨1704067200000⟩

/-- Midnight UTC of 2024-01-02. -/
def jan2 : Date := ⟨1704153600000⟩

/-- A fresh plan for the week of Sunday 2023-12-31 to Saturday 2024-01-06. -/
def emptyPlan : MealPlan := newPlan "user-1" ⟨1703980800000⟩ ⟨1704499200000⟩ "2023-53"

/-- The calls of scenario 2. -/
def scenario2 : List Op :=
  [Op.add jan1 "Dinner" tacos 2 "", Op.add jan2 "Dinner" tacos 1 ""]

/-- A recipe whose only ingredient is "Egg". -/
def eggRecipe : Recipe :=
  { id := "r-egg", title := "Boiled egg", image := "", ingredients := some ["Egg"],
    detailedIngredients := [], nutrition := none, category := "Breakfast", area := "",
    hasGetSimpleIngredients := true }

/-- The plan of scenario 3: two meals containing "Egg", with servings 1 and 2. -/
def eggPlan : MealPlan :=
  runOps emptyPlan [Op.add jan1 "Breakfast" eggRecipe 1 "", Op.add jan2 "Breakfast" eggRecipe 2 ""]

/-- A plan with one meal that lists the ingredient "constructor" twice. -/
def constructorPlan : MealPlan :=
  runOps emptyPlan
    [Op.add jan1 "Dinner" { eggRecipe with ingredients := some ["constructor", "constructor"] }
      1 ""]

/-- A plan with one meal whose only ingredient is "__proto__". -/
def protoPlan : MealPlan :=
  runOps emptyPlan
    [Op.add jan1 "Dinner" { eggRecipe with ingredients := some ["__proto__"] } 1 ""]

/-- A recipe whose only ingredient is the given text. -/
def dish (name : String) : Recipe := { eggRecipe with id := name, ingredients := some [name] }

/-- A plan with one dinner on each of 2023-12-31, 2024-01-01 (12:00), 2024-01-02
(23:59:59.999) and 2024-01-03 (00:00), times in UTC. -/
def fourDayPlan : MealPlan :=
  runOps emptyPlan
    [Op.add ⟨1704067199999⟩ "Dinner" (dish "dec31 soup") 1 "",
     Op.add ⟨1704110400000⟩ "Dinner" (dish "jan1 rice") 1 "",
     Op.add ⟨1704239999999⟩ "Dinner" (dish "jan2 stew") 1 "",
     Op.add ⟨1704240000000⟩ "Dinner" (dish "jan3 cake") 1 ""]

/-- The instant 2024-01-01T18:00:00Z, later in its day than the dinner of that day. -/
def jan1Evening : Date := ⟨1704132000000⟩

/-- A calendar day with the three slots of `createWeekMealPlanStructure`, all `null`. -/
def emptyDay : DayData := { date := jan1, meals := [none, none, none] }

/-- A calendar with one filled slot whose only ingredient is "__proto__". -/
def protoCalendar : List DayData :=
  [{ date := jan1,
     meals := [none, some ⟨IngredientsValue.array [some "__proto__"], IngredientsValue.absent⟩,
       none] }]

/-! ## Local time and the date methods of the host -/

/-- ECMA-262 `LocalTime(t)`, for a zone whose local time is UTC plus the constant
offset `zone` (in milliseconds): a zone without daylight-saving shifts. -/
def LocalTime (zone t : Int) : Int := t + zone

/-- ECMA-262 `UTC(t)`, the inverse of `LocalTime`. -/
def UTC (zone t : Int) : Int := t - zone

/-- ECMA-262 `WeekDay`, on day numbers: 0 = Sunday .. 6 = Saturday. -/
def WeekDay (day : Int) : Int := (day + 4) % 7

/-- ECMA-262 `TimeWithinDay(t) = t modulo msPerDay`. -/
def TimeWithinDay (t : Int) : Int := t % msPerDay

/-- Leap-year flag of a year, 1 or 0 (`DaysInYear(y) = 366`). -/
def leapYear (y : Int) : Int := if DayFromYear (y + 1) - DayFromYear y = 366 then 1 else 0

/-- The number of the first day of month `m` (0 .. 11) within its year, `l` being the
leap-year flag. -/
def monthStart (m l : Int) : Int :=
  if m = 0 then 0
  else if m = 1 then 31
  else if m = 2 then 59 + l
  else if m = 3 then 90 + l
  else if m = 4 then 120 + l
  else if m = 5 then 151 + l
  else if m = 6 then 181 + l
  else if m = 7 then 212 + l
  else if m = 8 then 243 + l
  else if m = 9 then 273 + l
  else if m = 10 then 304 + l
  else 334 + l

/-- ECMA-262 `MakeDay(year, month, date)`: the day number of the given day of the
month, months and days out of range carrying into the neighbouring months and years. -/
def MakeDay (year month date : Int) : Int :=
  let ym := year + month / 12
  let mn := month % 12
  DayFromYear ym + monthStart mn (leapYear ym) + date - 1

/-- The method `Date.prototype.getFullYear()`. -/
def getFullYear (zone : Int) (d : Date) : Int := YearFromDay (Day (LocalTime zone d.time))

/-- The method `Date.prototype.getMonth()`. -/
def getMonth (zone : Int) (d : Date) : Int := MonthFromDay (Day (LocalTime zone d.time))

/-- The method `Date.prototype.getDate()`: the day of the month in local time. -/
def getDate (zone : Int) (d : Date) : Int := DateFromDay (Day (LocalTime zone d.time))

/-- The method `Date.prototype.getDay()`: the day of the week in local time. -/
def getDay (zone : Int) (d : Date) : Int := WeekDay (Day (LocalTime zone d.time))

/-- The method `Date.prototype.setDate(dt)`: the day of the month is replaced in
local time, year, month and time of day being kept; the result is the new date. -/
def setDate (zone : Int) (d : Date) (dt : Int) : Date :=
  let t := LocalTime zone d.time
  ⟨UTC zone (MakeDay (YearFromDay (Day t)) (MonthFromDay (Day t)) dt * msPerDay
    + TimeWithinDay t)⟩

/-- The constructor `new Date(year, monthIndex, day)`: local midnight of that day; a
year from 0 to 99 stands for 1900 + year. -/
def newDate (zone : Int) (year monthIndex day : Int) : Date :=
  let yr := if 0 ≤ year ∧ year ≤ 99 then 1900 + year else year
  ⟨UTC zone (MakeDay yr monthIndex day * msPerDay)⟩

/-- The function `Math.ceil(a / b)` for integers `a` and `b > 0`. -/
def ceilDiv (a b : Int) : Int := -((-a) / b)

/-- The method `String.prototype.padStart(width, fill)` for a one-character `fill`. -/
def padStart (width : Nat) (fill : Char) (s : String) : String :=
  String.mk (List.replicate (width - (utf16 s.data).length) fill ++ s.data)

/-! ## Week utilities (`src/utils/dateUtils.js`, `src/models/MealPlan.js`) -/

/-- The function `getWeekStart(date)` of `src/utils/dateUtils.js`. -/
def getWeekStart (zone : Int) (date : Date) : Date :=
  let d := date
  let day := getDay zone d
  let diff := getDate zone d - day
  setDate zone d diff

/-- The function `formatDateString(date)` of `src/utils/dateUtils.js`. -/
def formatDateString (date : Date) : String := isoDate (Day date.time)

/-- The value of a character as a decimal digit, if it is one. -/
def digit? (c : Char) : Option Int :=
  if 48 ≤ c.toNat ∧ c.toNat ≤ 57 then some ((c.toNat : Int) - 48) else none

/-- The function `parseDate(dateString)` of `src/utils/dateUtils.js`, that is
`new Date(dateString + 'T00:00:00.000Z')`, for a `dateString` of the form YYYY-MM-DD:
the date-time format of ECMA-262, read as Node does (a month from 01 to 12, a day from
01 to 31, a day past the end of the month carrying into the next).  `none` stands for
`Invalid Date` and for every string of another form, which the model does not read. -/
def parseDate (dateString : String) : Option Date :=
  match dateString.data with
  | [y1, y2, y3, y4, s1, m1, m2, s2, d1, d2] =>
      match digit? y1, digit? y2, digit? y3, digit? y4, digit? m1, digit? m2, digit? d1,
        digit? d2 with
      | some a, some b, some c, some d, some e, some f, some g, some h =>
          let year := 1000 * a + 100 * b + 10 * c + d
          let month := 10 * e + f
          let day := 10 * g + h
          if s1 = '-' ∧ s2 = '-' ∧ 1 ≤ month ∧ month ≤ 12 ∧ 1 ≤ day ∧ day ≤ 31 then
            some ⟨MakeDay year (month - 1) day * msPerDay⟩
          else none
      | _, _, _, _, _, _, _, _ => none
  | _ => none

/-- The static method `generateWeekId(date)` of `src/models/MealPlan.js`. -/
def generateWeekId (zone : Int) (date : Date) : String :=
  let year := getFullYear zone date
  let start := newDate zone year 0 1
  let days := (date.time - start.time) / (24 * 60 * 60 * 1000)
  let weekNumber := ceilDiv (getDay zone date + 1 + days) 7
  numberToString year ++ "-" ++ padStart 2 '0' (numberToString weekNumber)

/-- The week number computed inside `generateWeekId(date)`. -/
def generatedWeekNumber (zone : Int) (date : Date) : Int :=
  let year := getFullYear zone date
  let start := newDate zone year 0 1
  let days := (date.time - start.time) / (24 * 60 * 60 * 1000)
  ceilDiv (getDay zone date + 1 + days) 7

/-- The virtual `weekNumber` of `src/models/MealPlan.js`:
`Math.ceil((((start - oneJan) / 86400000) + oneJan.getDay() + 1) / 7)`; the quotient by
86400000 is not rounded, so the whole is the ceiling of one rational number. -/
def weekNumber (zone : Int) (p : MealPlan) : Int :=
  let start := p.weekStartDate
  let oneJan := newDate zone (getFullYear zone start) 0 1
  ceilDiv ((start.time - oneJan.time) + (getDay zone oneJan + 1) * 86400000) (7 * 86400000)

/-- An element of `dailyNutrition`. -/
structure DailyNutrition where
  date : Date
  dateString : String
  nutrition : NutritionTotals
deriving DecidableEq, Repr

/-- The record returned by `getWeeklyNutritionSummary`. -/
structure WeeklySummary where
  dailyNutrition : List DailyNutrition
  weeklyTotal : NutritionTotals
deriving DecidableEq, Repr

/-- The method `getWeeklyNutritionSummary()`: the loop pushes a copy of `current` and
moves `current` one day on (`current.setDate(current.getDate() + 1)`), seven times. -/
def getWeeklyNutritionSummary (zone : Int) (p : MealPlan) : WeeklySummary :=
  let loop := (List.range 7).foldl (fun (state : List Date × Date) _ =>
    (state.1 ++ [state.2], setDate zone state.2 (getDate zone state.2 + 1)))
    ([], p.weekStartDate)
  let weekDates := loop.1
  let dailyNutrition := weekDates.map (fun date =>
    { date := date
      dateString := dateKey date
      nutrition := getNutritionByDate p (some date) : DailyNutrition })
  let weeklyTotal := getNutritionByDate p none
  { dailyNutrition := dailyNutrition, weeklyTotal := weeklyTotal }

/-! ## The recipe normalizer (`src/models/Recipe.js`, `src/services/themealdbAPI.js`) -/

/-- A meal object of TheMealDB: the indexed fields `strIngredient<i>` and
`strMeasure<i>` and the text fields the normalizers read.  A field that is missing or
`null` is `none`. -/
structure MealData where
  idMeal : Option String
  strMeal : Option String
  strCategory : Option String
  strArea : Option String
  strInstructions : Option String
  strMealThumb : Option String
  strTags : Option String
  strYoutube : Option String
  strSource : Option String
  strIngredient : Nat → Option String
  strMeasure : Nat → Option String

/-- The body of the loop of `parseIngredients` for index `i`: the array after the
conditional push. -/
def pushIngredient (meal : MealData) (ingredients : List String) (i : Nat) : List String :=
  match meal.strIngredient i with
  | some ingredient =>
      if ingredient != "" && jsTrim ingredient != "" then
        let ingredientStr :=
          match meal.strMeasure i with
          | some measure =>
              if measure != "" && jsTrim measure != "" then
                jsTrim measure ++ " " ++ jsTrim ingredient
              else jsTrim ingredient
          | none => jsTrim ingredient
        ingredients ++ [ingredientStr]
      else ingredients
  | none => ingredients

/-- The helper `parseIngredients(meal)` inside `createFromTheMealDB`
(`src/models/Recipe.js`): `for (let i = 1; i <= 20; i++)`. -/
def parseIngredients (meal : MealData) : List String :=
  (List.range' 1 20).foldl (pushIngredient meal) []

/-- The method `parseIngredients(meal)` of `src/services/themealdbAPI.js`, the same loop. -/
def serviceParseIngredients (meal : MealData) : List String :=
  (List.range' 1 20).foldl (fun ingredients i =>
    match meal.strIngredient i with
    | some ingredient =>
        if ingredient != "" && jsTrim ingredient != "" then
          ingredients ++ [
            match meal.strMeasure i with
            | some measure =>
                if measure != "" && jsTrim measure != "" then
                  jsTrim measure ++ " " ++ jsTrim ingredient
                else jsTrim ingredient
            | none => jsTrim ingredient]
        else ingredients
    | none => ingredients) []

/-- The pieces of `s.split(',')`; `cur` is the piece being read, reversed. -/
def splitComma (cur : List Char) : List Char → List String
  | [] => [String.mk cur.reverse]
  | c :: cs =>
      if c = ',' then String.mk cur.reverse :: splitComma [] cs
      else splitComma (c :: cur) cs

/-- The expression `strTags.split(',').map(tag => tag.trim())`. -/
def tagTokens (strTags : String) : List String :=
  (splitComma [] strTags.data).map jsTrim

/-- The allow-list of diet tags in `createFromTheMealDB`. -/
def dietAllowList : List String :=
  ["Vegetarian", "Vegan", "Gluten-Free", "Keto", "Low-Carb", "High-Protein"]

/-- The local `diet` of `createFromTheMealDB` (`src/models/Recipe.js`). -/
def createFromTheMealDB_diet (mealData : MealData) : List String :=
  let diet : List String := []
  let diet := if mealData.strCategory = some "Vegetarian" then diet ++ ["Vegetarian"] else diet
  let diet := if mealData.strCategory = some "Vegan" then diet ++ ["Vegan"] else diet
  match mealData.strTags with
  | some strTags =>
      if strTags != "" then
        (tagTokens strTags).foldl (fun diet tag =>
          if dietAllowList.contains tag then
            if !diet.contains tag then diet ++ [tag] else diet
          else diet) diet
      else diet
  | none => diet

/-- The method `Array.prototype.join(sep)` on an array of strings. -/
def jsJoin (sep : String) : List String → String
  | [] => ""
  | [x] => x
  | x :: y :: rest => x ++ sep ++ jsJoin sep (y :: rest)

/-- Whether `needle` starts the character sequence `hay`. -/
def startsWithChars : List Char → List Char → Bool
  | _, [] => true
  | [], _ :: _ => false
  | h :: hs, n :: ns => h == n && startsWithChars hs ns

/-- Whether `needle` occurs in the character sequence `hay`. -/
def includesChars (hay needle : List Char) : Bool :=
  match hay with
  | [] => needle.isEmpty
  | c :: cs => startsWithChars (c :: cs) needle || includesChars cs needle

/-- The method `String.prototype.includes(needle)`. -/
def jsIncludes (hay needle : String) : Bool := includesChars hay.data needle.data

/-- The function `Math.round` on a number that is an integer. -/
def mathRound (x : Int) : Int := x

/-- The statements `baseCalories += calories; baseProtein += protein; baseFat += fat;
baseCarbs += carbs` on the four running values; a value that a branch of the source
does not touch is increased by 0. -/
def increase (base : NutritionTotals) (calories protein fat carbs : Int) : NutritionTotals :=
  { calories := base.calories + calories, protein := base.protein + protein,
    fat := base.fat + fat, carbs := base.carbs + carbs }

/-- The helper `estimateNutrition(ingredients, category)` inside `createFromTheMealDB`
(`src/models/Recipe.js`). -/
def estimateNutrition (rt : JsRuntime) (ingredients : List String)
    (category : Option String) : NutritionTotals :=
  let base : NutritionTotals := { calories := 300, protein := 15, fat := 10, carbs := 30 }
  let base : NutritionTotals :=
    if category = some "Chicken" then increase base 150 20 5 0
    else if category = some "Beef" then increase base 200 25 10 0
    else if category = some "Seafood" then increase base 100 25 3 0
    else if category = some "Vegetarian" ∨ category = some "Vegan" then increase base 50 5 0 20
    else if category = some "Dessert" then increase base 250 0 15 40
    else if category = some "Pasta" then increase base 200 0 0 50
    else base
  let ingredientText := rt.toLowerCase (jsJoin " " ingredients)
  let base : NutritionTotals :=
    if jsIncludes ingredientText "cheese" then increase base 80 5 6 0 else base
  let base : NutritionTotals :=
    if jsIncludes ingredientText "oil" || jsIncludes ingredientText "butter" then
      increase base 100 0 11 0
    else base
  let base : NutritionTotals :=
    if jsIncludes ingredientText "rice" || jsIncludes ingredientText "pasta" then
      increase base 150 0 0 30
    else base
  { calories := mathRound base.calories
    protein := mathRound base.protein
    fat := mathRound base.fat
    carbs := mathRound base.carbs }

/-- The method `estimateNutrition(ingredients, category)` of
`src/services/themealdbAPI.js`, the same statements. -/
def serviceEstimateNutrition (rt : JsRuntime) (ingredients : List String)
    (category : Option String) : NutritionTotals :=
  let base : NutritionTotals := { calories := 300, protein := 15, fat := 10, carbs := 30 }
  let base : NutritionTotals :=
    if category = some "Chicken" then increase base 150 20 5 0
    else if category = some "Beef" then increase base 200 25 10 0
    else if category = some "Seafood" then increase base 100 25 3 0
    else if category = some "Vegetarian" ∨ category = some "Vegan" then increase base 50 5 0 20
    else if category = some "Dessert" then increase base 250 0 15 40
    else if category = some "Pasta" then increase base 200 0 0 50
    else base
  let ingredientText := rt.toLowerCase (jsJoin " " ingredients)
  let base : NutritionTotals :=
    if jsIncludes ingredientText "cheese" then increase base 80 5 6 0 else base
  let base : NutritionTotals :=
    if jsIncludes ingredientText "oil" || jsIncludes ingredientText "butter" then
      increase base 100 0 11 0
    else base
  let base : NutritionTotals :=
    if jsIncludes ingredientText "rice" || jsIncludes ingredientText "pasta" then
      increase base 150 0 0 30
    else base
  { calories := mathRound base.calories
    protein := mathRound base.protein
    fat := mathRound base.fat
    carbs := mathRound base.carbs }

/-! ## Vocabulary of the normalizer claims -/

/-- The string the specification emits for slot `i`, if any: the trimmed ingredient,
preceded by the trimmed measure and a space when the measure is not blank; nothing when
the ingredient is missing or blank. -/
def slotString (meal : MealData) (i : Nat) : Option String :=
  match meal.strIngredient i with
  | none => none
  | some ingredient =>
      if jsTrim ingredient = "" then none
      else
        match meal.strMeasure i with
        | none => some (jsTrim ingredient)
        | some measure =>
            if jsTrim measure = "" then some (jsTrim ingredient)
            else some (jsTrim measure ++ " " ++ jsTrim ingredient)

/-- The tokens kept by "each token that is not already in the list": the first
occurrence of every value that is not in `seen`. -/
def keepNew (seen : List String) : List String → List String
  | [] => []
  | x :: xs => if x ∈ seen then keepNew seen xs else x :: keepNew (seen ++ [x]) xs

/-- The diet tag a category contributes: itself when it is exactly "Vegetarian" or
exactly "Vegan". -/
def categoryDiet (category : Option String) : List String :=
  if category = some "Vegetarian" then ["Vegetarian"]
  else if category = some "Vegan" then ["Vegan"]
  else []

/-- The table of category adjustments (calories, protein, fat, carbs). -/
def categoryDelta (category : Option String) : NutritionTotals :=
  if category = some "Chicken" then ⟨150, 20, 5, 0⟩
  else if category = some "Beef" then ⟨200, 25, 10, 0⟩
  else if category = some "Seafood" then ⟨100, 25, 3, 0⟩
  else if category = some "Vegetarian" ∨ category = some "Vegan" then ⟨50, 5, 0, 20⟩
  else if category = some "Dessert" then ⟨250, 0, 15, 40⟩
  else if category = some "Pasta" then ⟨200, 0, 0, 50⟩
  else ⟨0, 0, 0, 0⟩

/-- Field-wise sum of two nutrition records. -/
def NutritionTotals.add (a b : NutritionTotals) : NutritionTotals :=
  ⟨a.calories + b.calories, a.protein + b.protein, a.fat + b.fat, a.carbs + b.carbs⟩

/-- A keyword adjustment: `delta` when the condition holds, nothing otherwise. -/
def keywordDelta (applies : Bool) (delta : NutritionTotals) : NutritionTotals :=
  if applies then delta else ⟨0, 0, 0, 0⟩

/-- The payload of scenario 1: ingredients at indices 1, 2 and 5 only. -/
def scenario1Meal : MealData :=
  { idMeal := some "52772", strMeal := some "Teriyaki Chicken", strCategory := some "Chicken",
    strArea := some "Japanese", strInstructions := none, strMealThumb := none,
    strTags := some "Meat, Keto,Vegan ,Keto,Spicy", strYoutube := none, strSource := none,
    strIngredient := fun i =>
      if i = 1 then some "soy sauce" else if i = 2 then some " rice " else if i = 3 then some ""
      else if i = 4 then some "  " else if i = 5 then some "chicken" else if i = 21 then some "salt"
      else none
    strMeasure := fun i =>
      if i = 1 then some "3/4 cup" else if i = 2 then some " " else if i = 5 then some "2 lb "
      else none }

/-- The trimmed comma-separated tokens of the tags field; none when the field is
missing or empty. -/
def payloadTags (mealData : MealData) : List String :=
  match mealData.strTags with
  | some strTags => if strTags = "" then [] else tagTokens strTags
  | none => []

/-- The base values of the estimate. -/
def baseNutrition : NutritionTotals := ⟨300, 15, 10, 30⟩

/-! ## Vocabulary of the week claims -/

/-- The week number the specification gives for a date:
`ceil((dayOfWeek(Jan1) + 1 + daysSinceJan1(date)) / 7)`, with Sunday = 0, January 1
being that of the date's local year and the days the whole days elapsed since then. -/
def specWeekNumber (zone : Int) (date : Date) : Int :=
  let oneJan := newDate zone (getFullYear zone date) 0 1
  ceilDiv (getDay zone oneJan + 1 + (date.time - oneJan.time) / msPerDay) 7

/-- Two dates lie in the same Sunday-to-Saturday week of the local calendar: their weeks
start on the same local day. -/
def SameWeek (zone : Int) (a b : Date) : Prop :=
  Day (LocalTime zone (getWeekStart zone a).time)
    = Day (LocalTime zone (getWeekStart zone b).time)

instance (zone : Int) (a b : Date) : Decidable (SameWeek zone a b) :=
  inferInstanceAs (Decidable (Day (LocalTime zone (getWeekStart zone a).time)
    = Day (LocalTime zone (getWeekStart zone b).time)))

/-- Sunday 2024-01-07, midnight UTC. -/
def jan7 : Date := ⟨1704585600000⟩

/-- Monday 2024-01-08, midnight UTC. -/
def jan8 : Date := ⟨1704672000000⟩

/-- Monday 2024-01-08 at 10:00 UTC. -/
def jan8Morning : Date := ⟨1704708000000⟩

/-- Monday 2024-01-08 at 15:00 UTC. -/
def jan8Afternoon : Date := ⟨1704726000000⟩

/-- Saturday 2016-12-31, midnight UTC: the last day of a leap year. -/
def dec31of2016 : Date := ⟨1483142400000⟩

/-- The number of days of month `m` (1 .. 12) of year `y` in the Gregorian calendar. -/
def daysInMonth (y m : Int) : Int :=
  if m = 2 then 28 + leapYear y
  else if m = 4 ∨ m = 6 ∨ m = 9 ∨ m = 11 then 30
  else 31

/-- The date string YYYY-MM-DD of year `y`, month `m` and day `d`, each zero-padded. -/
def ymdString (y m d : Nat) : String :=
  String.mk (fixedDigits 4 y ++ '-' :: (fixedDigits 2 m ++ '-' :: (fixedDigits 2 d ++ [])))

/-! ## Saving a plan: the validators of the schema and the store -/

/-- The `enum` of `mealType` in `mealEntrySchema`. -/
def mealTypeEnum : List String := ["Breakfast", "Lunch", "Dinner", "Snack"]

/-- The paths of one meal entry that fail the validators the schema declares on the
arguments of `addMeal`: `enum` on `mealType` and `min: 1` on `servings`. -/
def entryErrors (m : MealEntry) : List String :=
  (if mealTypeEnum.contains m.mealType then [] else ["mealType"])
    ++ (if m.servings < 1 then ["servings"] else [])

/-- The paths of a plan that fail validation: those of its entries, then `min: 0` on
`totalCalories` and on `totalCost`. -/
def validationErrors (p : MealPlan) : List String :=
  (p.meals.map entryErrors).flatten
    ++ (if p.totalCalories < 0 then ["totalCalories"] else [])
    ++ (if p.totalCost < 0 then ["totalCost"] else [])

/-- The call `mealPlan.save()`: the document is validated against the schema; a valid
document goes through the pre-save hook (`updateTotals`) and is written, an invalid one
is rejected with the failing paths and nothing is written. -/
def save (p : MealPlan) : Except (List String) MealPlan :=
  if validationErrors p = [] then Except.ok (updateTotals p)
  else Except.error (validationErrors p)

/-- The end of `POST /add-meal` once the plan is loaded:
`mealPlan.addMeal(mealDate, mealType, recipe, servings, notes); await mealPlan.save()`.
The result is the response (the saved plan, or the error caught by the route) and the
document the collection holds afterwards. -/
def addMealAndSave (stored : MealPlan) (date : Date) (mealType : String) (recipe : Recipe)
    (servings : Int) (notes : String) : Except (List String) MealPlan × MealPlan :=
  let mealPlan := addMeal stored date mealType recipe servings notes
  match save mealPlan with
  | Except.ok written => (Except.ok written, written)
  | Except.error e => (Except.error e, stored)

/-- The query `findOne({ userId, weekId })` on the documents of the collection. -/
def findOne (store : List MealPlan) (userId weekId : String) : Option MealPlan :=
  store.find? (fun p => p.userId == userId && p.weekId == weekId)

/-- The static method `findOrCreateWeekPlan(userId, weekStartDate)`: the plan it returns
and the collection afterwards.  A plan it creates has no meals and passes validation,
so `save` stores it as it is. -/
def findOrCreateWeekPlan (zone : Int) (store : List MealPlan) (userId : String)
    (weekStartDate : Date) : MealPlan × List MealPlan :=
  let weekEndDate := setDate zone weekStartDate (getDate zone weekStartDate + 6)
  let weekId := generateWeekId zone weekStartDate
  match findOne store userId weekId with
  | some mealPlan => (mealPlan, store)
  | none =>
      let mealPlan := newPlan userId weekStartDate weekEndDate weekId
      (mealPlan, store ++ [mealPlan])

/-! ## The structured grocery list (`src/routes/groceryLists.js`) -/

/-- A structured ingredient of a recipe in `weekData`; `amount`, `unit` and `category`
may be missing. -/
structure StructuredIngredient where
  name : String
  amount : Option String
  unit : Option String
  category : Option String
deriving DecidableEq, Repr

/-- An item of the merged list. -/
structure GroceryItem where
  name : String
  amount : Option String
  unit : Option String
  category : String
deriving DecidableEq, Repr

/-- A `Map` with string keys: its entries in insertion order.  Unlike a plain object it
has no inherited keys. -/
abbrev IngredientMap := List (String × GroceryItem)

/-- The method `Map.prototype.get`. -/
def IngredientMap.get (m : IngredientMap) (key : String) : Option GroceryItem :=
  match m with
  | [] => none
  | (k, v) :: rest => if k = key then some v else IngredientMap.get rest key

/-- The method `Map.prototype.has`. -/
def IngredientMap.has (m : IngredientMap) (key : String) : Bool :=
  (IngredientMap.get m key).isSome

/-- An assignment to a field of the object stored under an existing key: the entry keeps
its position. -/
def IngredientMap.update (m : IngredientMap) (key : String) (v : GroceryItem) :
    IngredientMap :=
  match m with
  | [] => []
  | (k, w) :: rest =>
      if k = key then (k, v) :: rest else (k, w) :: IngredientMap.update rest key v

/-- The body of `allIngredients.forEach(ingredient => ...)` in
`POST /generate-grocery-list`. -/
def mergeIngredient (rt : JsRuntime) (ingredientMap : IngredientMap)
    (ingredient : StructuredIngredient) : IngredientMap :=
  let key := jsTrim (rt.toLowerCase ingredient.name)
  if IngredientMap.has ingredientMap key then
    match IngredientMap.get ingredientMap key with
    | some existing =>
        if truthy existing.amount && truthy ingredient.amount then
          IngredientMap.update ingredientMap key
            { existing with
              amount := some (existing.amount.getD "" ++ " + " ++ ingredient.amount.getD "") }
        else ingredientMap
    | none => ingredientMap
  else
    ingredientMap ++ [(key,
      { name := ingredient.name
        amount := ingredient.amount
        unit := ingredient.unit
        category := if truthy ingredient.category then ingredient.category.getD "" else "Other" })]

/-- The merge of `POST /generate-grocery-list`: the `Map` after the loop, then
`Array.from(ingredientMap.values())`. -/
def mergeIngredients (rt : JsRuntime) (allIngredients : List StructuredIngredient) :
    List GroceryItem :=
  (allIngredients.foldl (mergeIngredient rt) []).map (fun kv => kv.2)

/-- A recipe placed in a slot of `weekData`; `ingredients` may be missing. -/
structure PlannedRecipe where
  ingredients : Option (List StructuredIngredient)

/-- The collection loop of `POST /generate-grocery-list`: for each day of `weekData`
(the values of the object, in order) and each of the four slot names, the ingredients
of the recipe in that slot, if any. -/
def collectWeekData (weekData : List (String → Option PlannedRecipe)) :
    List StructuredIngredient :=
  weekData.foldl (fun allIngredients meals =>
    ["Breakfast", "Lunch", "Dinner", "Snacks"].foldl (fun allIngredients mealType =>
      match meals mealType with
      | some recipe =>
          match recipe.ingredients with
          | some ingredients => allIngredients ++ ingredients
          | none => allIngredients
      | none => allIngredients) allIngredients) []

/-- The list returned by `POST /generate-grocery-list` for a `weekData`. -/
def generateGroceryList (rt : JsRuntime) (weekData : List (String → Option PlannedRecipe)) :
    List GroceryItem :=
  mergeIngredients rt (collectWeekData weekData)

/-! ## Password strength and registration (`src/src/App.jsx`) -/

/-- The record `checks` of `checkPasswordStrength`. -/
structure PasswordChecks where
  length : Bool
  uppercase : Bool
  lowercase : Bool
  number : Bool
  special : Bool
deriving DecidableEq, Repr

/-- The record returned by `checkPasswordStrength`. -/
structure PasswordStrength where
  checks : PasswordChecks
  score : Nat
  strong : Bool
deriving DecidableEq, Repr

/-- The characters of the class in the `special` check. -/
def specialCharacters : List Char := "!@#$%^&*(),.?\x22:\x7b\x7d|<>".data

/-- The function `checkPasswordStrength(password)`.  The four patterns are tested on
code units; none of their characters lies outside the Basic Multilingual Plane, so the
test on code points agrees. -/
def checkPasswordStrength (password : String) : PasswordStrength :=
  let checks : PasswordChecks :=
    { length := decide ((utf16 password.data).length ≥ 8)
      uppercase := password.data.any (fun c => decide ('A' ≤ c ∧ c ≤ 'Z'))
      lowercase := password.data.any (fun c => decide ('a' ≤ c ∧ c ≤ 'z'))
      number := password.data.any (fun c => decide ('0' ≤ c ∧ c ≤ '9'))
      special := password.data.any (fun c => specialCharacters.contains c) }
  let score :=
    ([checks.length, checks.uppercase, checks.lowercase, checks.number,
      checks.special].filter id).length
  { checks := checks, score := score, strong := decide (score ≥ 4) }

/-- What `handleSubmit` leaves on the screen: an error, or the account it stored. -/
inductive SubmitOutcome where
  | error (message : String)
  | registered (username password : String)
deriving DecidableEq, Repr

/-- The message shown when the password is not strong. -/
def weakPasswordMessage : String :=
  "Password must be at least 8 characters with uppercase, lowercase, number, and special character."

/-- The function `handleSubmit` of the registration form (`isLogin` false); `users` are
the own keys of the object read from local storage, which also answers for the keys it
inherits. -/
def handleSubmit (users : List String) (username password confirmPassword : String) :
    SubmitOutcome :=
  if username = "" ∨ password = "" then
    SubmitOutcome.error "Please enter both username and password."
  else if password ≠ confirmPassword then
    SubmitOutcome.error "Passwords do not match."
  else if !(checkPasswordStrength password).strong then
    SubmitOutcome.error weakPasswordMessage
  else if users.contains username || inheritedFunctions.contains username
      || username == "__proto__" then
    SubmitOutcome.error "Username already exists. Please choose a different username or login."
  else SubmitOutcome.registered username password

/-! ## The grocery list of a date range (`GET /grocery-list`, `src/routes/mealPlans.js`) -/

/-- The handler of `GET /grocery-list` once the plans that overlap the range are found:
the formatted lists of the plans are concatenated, then counted and formatted again. -/
def groceryListRoute (rt : JsRuntime) (mealPlans : List MealPlan) (start stop : Date) :
    List String :=
  let allIngredients := mealPlans.foldl (fun (all : List String) plan =>
    all ++ getGroceryList rt plan (some start) (some stop)) []
  let ingredientCount := countKeys (groceryKey rt) allIngredients
  (Dict.entries ingredientCount).map (groceryLine rt)

/-! ## The normalizer of the service (`convertToRecipe`, `src/services/themealdbAPI.js`) -/

/-- The allow-list of diet tags in `convertToRecipe`. -/
def serviceDietAllowList : List String := ["Vegetarian", "Vegan", "Gluten-Free", "Keto"]

/-- The local `diet` of `convertToRecipe`. -/
def convertToRecipe_diet (meal : MealData) : List String :=
  let diet : List String := []
  let diet := if meal.strCategory = some "Vegetarian" then diet ++ ["Vegetarian"] else diet
  let diet := if meal.strCategory = some "Vegan" then diet ++ ["Vegan"] else diet
  match meal.strTags with
  | some strTags =>
      if strTags != "" then
        (tagTokens strTags).foldl (fun diet tag =>
          if serviceDietAllowList.contains tag then
            if !diet.contains tag then diet ++ [tag] else diet
          else diet) diet
      else diet
  | none => diet

/-- The fields of a normalized recipe that the two normalizers compute. -/
structure NormalizedRecipe where
  ingredients : List String
  nutrition : NutritionTotals
  diet : List String
deriving DecidableEq, Repr

/-- The static method `createFromTheMealDB(mealData)` of `src/models/Recipe.js`, on the
three computed fields. -/
def createFromTheMealDB (rt : JsRuntime) (mealData : MealData) : NormalizedRecipe :=
  let ingredients := parseIngredients mealData
  { ingredients := ingredients
    nutrition := estimateNutrition rt ingredients mealData.strCategory
    diet := createFromTheMealDB_diet mealData }

/-- The method `convertToRecipe(meal)` of `src/services/themealdbAPI.js`, on the three
computed fields. -/
def convertToRecipe (rt : JsRuntime) (meal : MealData) : NormalizedRecipe :=
  let ingredients := serviceParseIngredients meal
  { ingredients := ingredients
    nutrition := serviceEstimateNutrition rt ingredients meal.strCategory
    diet := convertToRecipe_diet meal }

/-! ## The week of a date (`getWeekEnd`, `getWeekDates`, `createWeekMealPlanStructure`) -/

/-- The function `getWeekEnd(date)` of `src/utils/dateUtils.js`. -/
def getWeekEnd (zone : Int) (date : Date) : Date :=
  let weekStart := getWeekStart zone date
  setDate zone weekStart (getDate zone weekStart + 6)

/-- The function `getWeekDates(date)` of `src/utils/dateUtils.js`. -/
def getWeekDates (zone : Int) (date : Date) : List Date :=
  let weekStart := getWeekStart zone date
  (List.range 7).foldl (fun (dates : List Date) (i : Nat) =>
    dates ++ [setDate zone weekStart (getDate zone weekStart + (i : Int))]) []

/-- The function `getShortDayName(date)`:
`date.toLocaleDateString('en-US', { weekday: 'short' })`, the name of the local day of
the week. -/
def getShortDayName (zone : Int) (date : Date) : String :=
  ["Sun", "Mon", "Tue", "Wed", "Thu", "Fri", "Sat"].getD (getDay zone date).toNat ""

/-- The function `createDateKey(date)`. -/
def createDateKey (date : Date) : String := formatDateString date

/-- A value of the object built by `createWeekMealPlanStructure`, without `displayDate`
and `isToday` (a localized text and a comparison with the clock). -/
structure WeekDayEntry where
  date : Date
  dateString : String
  dayName : String
  meals : List (String × Option CalendarMeal)

/-- The assignment `obj[key] = value` on an object whose keys are date keys (never array
indices, never inherited setters): a new key goes last, an existing key keeps its place. -/
def setProperty (obj : List (String × WeekDayEntry)) (key : String) (value : WeekDayEntry) :
    List (String × WeekDayEntry) :=
  if obj.any (fun kv => kv.1 == key) then
    obj.map (fun kv => if kv.1 == key then (key, value) else kv)
  else obj ++ [(key, value)]

/-- The function `createWeekMealPlanStructure(weekStartDate)` of
`src/utils/dateUtils.js`. -/
def createWeekMealPlanStructure (zone : Int) (weekStartDate : Date) :
    List (String × WeekDayEntry) :=
  let dates := getWeekDates zone weekStartDate
  dates.foldl (fun mealPlan date =>
    let dateKey := createDateKey date
    setProperty mealPlan dateKey
      { date := date
        dateString := formatDateString date
        dayName := getShortDayName zone date
        meals := [("Breakfast", none), ("Lunch", none), ("Dinner", none)] }) []

/-! ## The read-only methods on the objects of the heap -/

/-- The document `this` as an object: its scalar fields by value, its array of meals and
its `Date` fields by reference. -/
structure PlanDocument where
  userId : String
  meals : Nat
  weekStartDate : Nat
  weekEndDate : Nat
  weekId : String
  isActive : Bool
  notes : String
  totalCalories : Int
  totalCost : Int
  shoppingListGenerated : Bool
  lastShoppingListDate : Option Nat
deriving DecidableEq, Repr

/-- An object of the heap: a plan document, an array of meal entries, a `Date`, an array
of strings, a plain object used as a dictionary, a nutrition record, or an array of
references to `Date` objects.  The methods below read the fields of a meal entry and
call nothing on it, so an entry is held by value in its array. -/
inductive HeapObject where
  | plan (doc : PlanDocument)
  | entries (meals : List MealEntry)
  | date (time : Int)
  | strings (items : List String)
  | counts (o : Dict)
  | totals (n : NutritionTotals)
  | references (refs : List Nat)
deriving DecidableEq, Repr

/-- The heap: the object with reference `r` is the element `r`. -/
abbrev Heap := List HeapObject

/-- The object a reference points to. -/
def Heap.read (h : Heap) (r : Nat) : Option HeapObject := h[r]?

/-- The creation of an object (`[]`, a literal, `new Date(..)`, the array returned by
`filter` or `map`): the heap with the new object, and its reference. -/
def Heap.alloc (h : Heap) (o : HeapObject) : Heap × Nat := (h ++ [o], h.length)

/-- A mutation of the object `r`: it is replaced by its new state. -/
def Heap.write (h : Heap) (r : Nat) (o : HeapObject) : Heap := h.set r o

/-- The elements of the array of meal entries `r`. -/
def Heap.entriesAt (h : Heap) (r : Nat) : List MealEntry :=
  match Heap.read h r with
  | some (HeapObject.entries meals) => meals
  | _ => []

/-- The time value of the `Date` object `r`. -/
def Heap.timeAt (h : Heap) (r : Nat) : Int :=
  match Heap.read h r with
  | some (HeapObject.date time) => time
  | _ => 0

/-- The elements of the array of strings `r`. -/
def Heap.stringsAt (h : Heap) (r : Nat) : List String :=
  match Heap.read h r with
  | some (HeapObject.strings items) => items
  | _ => []

/-- The own properties of the dictionary `r`. -/
def Heap.countsAt (h : Heap) (r : Nat) : Dict :=
  match Heap.read h r with
  | some (HeapObject.counts o) => o
  | _ => []

/-- The fields of the nutrition record `r`. -/
def Heap.totalsAt (h : Heap) (r : Nat) : NutritionTotals :=
  match Heap.read h r with
  | some (HeapObject.totals n) => n
  | _ => { calories := 0, protein := 0, fat := 0, carbs := 0 }

/-- The elements of the array of references `r`. -/
def Heap.referencesAt (h : Heap) (r : Nat) : List Nat :=
  match Heap.read h r with
  | some (HeapObject.references refs) => refs
  | _ => []

/-- The call `array.push(item)` on the array of strings `r`. -/
def Heap.pushString (h : Heap) (r : Nat) (item : String) : Heap :=
  Heap.write h r (HeapObject.strings (Heap.stringsAt h r ++ [item]))

/-- The call `array.push(ref)` on the array of references `r`. -/
def Heap.pushReference (h : Heap) (r : Nat) (ref : Nat) : Heap :=
  Heap.write h r (HeapObject.references (Heap.referencesAt h r ++ [ref]))

/-- The aggregate a plan document stands for: its fields, with the meals and the dates
read from the objects it refers to; `none` when `this` is not a plan document or one of
its references does not point to an object of the right kind. -/
def readPlan (h : Heap) (this : Nat) : Option MealPlan :=
  match Heap.read h this with
  | some (HeapObject.plan doc) =>
      match Heap.read h doc.meals, Heap.read h doc.weekStartDate,
        Heap.read h doc.weekEndDate with
      | some (HeapObject.entries meals), some (HeapObject.date weekStart),
        some (HeapObject.date weekEnd) =>
          match doc.lastShoppingListDate with
          | none =>
              some { userId := doc.userId, meals := meals, weekStartDate := ⟨weekStart⟩,
                     weekEndDate := ⟨weekEnd⟩, weekId := doc.weekId, isActive := doc.isActive,
                     notes := doc.notes, totalCalories := doc.totalCalories,
                     totalCost := doc.totalCost,
                     shoppingListGenerated := doc.shoppingListGenerated,
                     lastShoppingListDate := none }
          | some r =>
              match Heap.read h r with
              | some (HeapObject.date last) =>
                  some { userId := doc.userId, meals := meals, weekStartDate := ⟨weekStart⟩,
                         weekEndDate := ⟨weekEnd⟩, weekId := doc.weekId,
                         isActive := doc.isActive, notes := doc.notes,
                         totalCalories := doc.totalCalories, totalCost := doc.totalCost,
                         shoppingListGenerated := doc.shoppingListGenerated,
                         lastShoppingListDate := some ⟨last⟩ }
              | _ => none
      | _, _, _ => none
  | _ => none

/-- The callback of `mealsToInclude.forEach` in `getGroceryList`, `allIngredients` being
the reference of the local array: each ingredient of the snapshot is pushed, with the
servings suffix when the servings exceed 1. -/
def pushIngredients (h : Heap) (allIngredients : Nat) (meal : MealEntry) : Heap :=
  match meal.recipeSnapshot with
  | some snap =>
      match snap.ingredients with
      | some ingredients =>
          ingredients.foldl (fun h ingredient =>
            if meal.servings > 1 then
              Heap.pushString h allIngredients
                (ingredient ++ " (x" ++ numberToString meal.servings ++ ")")
            else Heap.pushString h allIngredients ingredient) h
      | none => h
  | none => h

/-- The callback of `allIngredients.forEach` in `getGroceryList`, `ingredientCount` being
the reference of the local object: `ingredientCount[key] = (ingredientCount[key] || 0) + 1`. -/
def countItem (rt : JsRuntime) (h : Heap) (ingredientCount : Nat) (item : String) : Heap :=
  Heap.write h ingredientCount
    (HeapObject.counts (Dict.increment (Heap.countsAt h ingredientCount) (groceryKey rt item)))

/-- The method `getGroceryList(startDate, endDate)` run on the heap, `this` being the
reference of the plan document: the heap after the call and the reference of the array
returned.  `mealsToInclude` starts as the reference `this.meals` itself; `filter` and
`map` create arrays, `allIngredients.push` and `ingredientCount[key] = ..` mutate the
objects of these two locals. -/
def getGroceryListRun (rt : JsRuntime) (h : Heap) (this : Nat) (startDate endDate : Option Date) :
    Heap × Nat :=
  match Heap.read h this with
  | some (HeapObject.plan doc) =>
      let mealsToInclude : Heap × Nat :=
        match startDate, endDate with
        | some s, some e =>
            Heap.alloc h (HeapObject.entries ((Heap.entriesAt h doc.meals).filter (fun meal =>
              jsStrLe (dateKey s) meal.dateString && jsStrLe meal.dateString (dateKey e))))
        | _, _ => (h, doc.meals)
      let allIngredients := Heap.alloc mealsToInclude.1 (HeapObject.strings [])
      let pushed := (Heap.entriesAt allIngredients.1 mealsToInclude.2).foldl
        (fun h meal => pushIngredients h allIngredients.2 meal) allIngredients.1
      let ingredientCount := Heap.alloc pushed (HeapObject.counts [])
      let counted := (Heap.stringsAt ingredientCount.1 allIngredients.2).foldl
        (fun h item => countItem rt h ingredientCount.2 item) ingredientCount.1
      Heap.alloc counted (HeapObject.strings
        ((Dict.entries (Heap.countsAt counted ingredientCount.2)).map (groceryLine rt)))
  | _ => (h, 0)

/-- The callback of `mealsToAnalyze.forEach` in `getNutritionByDate`, `nutrition` being
the reference of the local record: the four `+=` on its fields. -/
def addNutrition (h : Heap) (nutrition : Nat) (meal : MealEntry) : Heap :=
  match meal.recipeSnapshot with
  | some snap =>
      match snap.nutrition with
      | some mealNutrition =>
          let now := Heap.totalsAt h nutrition
          Heap.write h nutrition (HeapObject.totals
            { calories := now.calories + orZero mealNutrition.calories * meal.servings
              protein := now.protein + orZero mealNutrition.protein * meal.servings
              fat := now.fat + orZero mealNutrition.fat * meal.servings
              carbs := now.carbs + orZero mealNutrition.carbs * meal.servings })
      | none => h
  | none => h

/-- The method `getNutritionByDate(date)` run on the heap: the heap after the call and
the reference of the record returned.  `mealsToAnalyze` starts as the reference
`this.meals` itself; the four `+=` mutate the object of the local `nutrition`. -/
def getNutritionByDateRun (h : Heap) (this : Nat) (date : Option Date) : Heap × Nat :=
  match Heap.read h this with
  | some (HeapObject.plan doc) =>
      let mealsToAnalyze : Heap × Nat :=
        match date with
        | some d =>
            Heap.alloc h (HeapObject.entries ((Heap.entriesAt h doc.meals).filter (fun meal =>
              meal.dateString == dateKey d)))
        | none => (h, doc.meals)
      let nutrition := Heap.alloc mealsToAnalyze.1
        (HeapObject.totals { calories := 0, protein := 0, fat := 0, carbs := 0 })
      let summed := (Heap.entriesAt nutrition.1 mealsToAnalyze.2).foldl
        (fun h meal => addNutrition h nutrition.2 meal) nutrition.1
      (summed, nutrition.2)
  | _ => (h, 0)

/-- An element of `dailyNutrition` on the heap: the references of its `Date` and of its
nutrition record, and its date key. -/
structure DailyRecord where
  date : Nat
  dateString : String
  nutrition : Nat
deriving DecidableEq, Repr

/-- The body of the loop of `getWeeklyNutritionSummary`, `weekDates` and `current` being
the references of the two locals:
`weekDates.push(new Date(current)); current.setDate(current.getDate() + 1)`. -/
def pushWeekDate (zone : Int) (h : Heap) (weekDates current : Nat) : Heap :=
  let copy := Heap.alloc h (HeapObject.date (Heap.timeAt h current))
  let h := Heap.pushReference copy.1 weekDates copy.2
  let now : Date := ⟨Heap.timeAt h current⟩
  Heap.write h current (HeapObject.date (setDate zone now (getDate zone now + 1)).time)

/-- The callback of `weekDates.map` in `getWeeklyNutritionSummary`:
`({ date, dateString: .., nutrition: this.getNutritionByDate(date) })`, a call of the
method above. -/
def dailyRecord (this : Nat) (state : Heap × List DailyRecord) (date : Nat) :
    Heap × List DailyRecord :=
  let day : Date := ⟨Heap.timeAt state.1 date⟩
  let nutrition := getNutritionByDateRun state.1 this (some day)
  (nutrition.1, state.2 ++ [{ date := date, dateString := dateKey day,
                              nutrition := nutrition.2 }])

/-- The method `getWeeklyNutritionSummary()` run on the heap: the heap after the call,
the elements of `dailyNutrition` and the reference of `weeklyTotal`.  `current` is a
new `Date` made from `this.weekStartDate`; `weekDates.push` and `current.setDate`
mutate the objects of these two locals. -/
def getWeeklyNutritionSummaryRun (zone : Int) (h : Heap) (this : Nat) :
    Heap × List DailyRecord × Nat :=
  match Heap.read h this with
  | some (HeapObject.plan doc) =>
      let weekDates := Heap.alloc h (HeapObject.references [])
      let current := Heap.alloc weekDates.1
        (HeapObject.date (Heap.timeAt weekDates.1 doc.weekStartDate))
      let looped := (List.range 7).foldl
        (fun (h : Heap) _ => pushWeekDate zone h weekDates.2 current.2) current.1
      let daily := (Heap.referencesAt looped weekDates.2).foldl (dailyRecord this) (looped, [])
      let weeklyTotal := getNutritionByDateRun daily.1 this none
      (weeklyTotal.1, daily.2, weeklyTotal.2)
  | _ => (h, [], 0)

/-- Every object of the heap `h` is in the heap `g`, at the same reference and in the
same state. -/
def Heap.Extends (h g : Heap) : Prop := g.take h.length = h

instance (h g : Heap) : Decidable (Heap.Extends h g) :=
  inferInstanceAs (Decidable (g.take h.length = h))

/-- An element of `dailyNutrition` read from the heap. -/
def readDaily (h : Heap) (r : DailyRecord) : Option DailyNutrition :=
  match Heap.read h r.date, Heap.read h r.nutrition with
  | some (HeapObject.date time), some (HeapObject.totals n) =>
      some { date := ⟨time⟩, dateString := r.dateString, nutrition := n }
  | _, _ => none

/-- A heap that holds the plan `p` and nothing else: its meals, its dates, then the
document, whose reference is 3. -/
def planHeap (p : MealPlan) : Heap :=
  [HeapObject.entries p.meals, HeapObject.date p.weekStartDate.time,
   HeapObject.date p.weekEndDate.time,
   HeapObject.plan
     { userId := p.userId, meals := 0, weekStartDate := 1, weekEndDate := 2,
       weekId := p.weekId, isActive := p.isActive, notes := p.notes,
       totalCalories := p.totalCalories, totalCost := p.totalCost,
       shoppingListGenerated := p.shoppingListGenerated,
       lastShoppingListDate := p.lastShoppingListDate.map (fun _ => 4) }]
    ++ (match p.lastShoppingListDate with
        | some d => [HeapObject.date d.time]
        | none => [])

/-! ## Vocabulary of the later claims -/

/-- The seven date keys of the week that starts at `weekStartDate`: the keys of that
date and of the six dates one to six days later. -/
def weekKeys (weekStartDate : Date) : List String :=
  (List.range 7).map (fun (i : Nat) => dateKey ⟨weekStartDate.time + (i : Int) * msPerDay⟩)

/-- The dedup-and-count rule applied once to the ingredient strings of all the selected
entries of all the plans together. -/
def combinedGroceryList (rt : JsRuntime) (mealPlans : List MealPlan) (start stop : Date) :
    List String :=
  let entries := (mealPlans.map (fun plan => mealsToInclude plan (some start) (some stop))).flatten
  (Dict.entries (countKeys (groceryKey rt) (allIngredients entries))).map (groceryLine rt)

/-- The occurrences of a key among structured ingredients, in order. -/
def occurrences (rt : JsRuntime) (key : String) (items : List StructuredIngredient) :
    List StructuredIngredient :=
  items.filter (fun x => decide (groceryKey rt x.name = key))

/-- The amount the merge leaves on an item, from the occurrences of its key in order:
the first amount alone when it is missing or empty, otherwise the non-empty amounts
joined by " + ". -/
def mergedAmount : List StructuredIngredient → Option String
  | [] => none
  | first :: rest =>
      if truthy first.amount then
        some (jsJoin " + " (((first :: rest).filter (fun x => truthy x.amount)).map
          (fun x => x.amount.getD "")))
      else first.amount

/-- The number a decimal numeral names: an optional minus sign, then digits. -/
def numeralValue (cs : List Char) : Int :=
  match cs with
  | '-' :: ds => -(digitsValue ds : Int)
  | ds => (digitsValue ds : Int)

/-- A password of four characters with an uppercase letter, a lowercase letter, a digit
and a special character. -/
def shortPassword : String := "Ab1!"

/-- A plan of the week of 2023-12-31 with "Egg" at breakfast and at lunch of 2024-01-01. -/
def firstWeekPlan : MealPlan :=
  runOps emptyPlan [Op.add jan1 "Breakfast" eggRecipe 1 "", Op.add jan1 "Lunch" eggRecipe 1 ""]

/-- A plan of the week of 2024-01-07 with "Egg" at breakfast of 2024-01-08. -/
def secondWeekPlan : MealPlan :=
  runOps (newPlan "user-1" jan7 ⟨1705104000000⟩ "2024-01")
    [Op.add jan8 "Breakfast" eggRecipe 1 ""]

/-- The payload of scenario 1 with the tags "Low-Carb,Keto". -/
def lowCarbMeal : MealData := { scenario1Meal with strTags := some "Low-Carb,Keto" }

/-- The zone UTC-5, as an offset in milliseconds. -/
def utcMinus5 : Int := -18000000

/-- Sunday 2024-01-07 at 20:00 in the zone UTC-5, that is 2024-01-08T01:00:00Z. -/
def sundayEvening : Date := ⟨1704675600000⟩

/-- Two ingredients named "Milk" with amounts "2 cups" and "1 cup", then "Flour". -/
def milkAndFlour : List StructuredIngredient :=
  [{ name := "Milk", amount := some "2 cups", unit := some "cup", category := some "Dairy" },
   { name := "Flour", amount := some "500 g", unit := none, category := none },
   { name := " milk ", amount := some "1 cup", unit := some "ml", category := none }]

/-! ## Totals, slots and the frame of `addMeal` / `removeMeal` -/

theorem foldl_calories (meals : List MealEntry) (a : Int) :
    meals.foldl (fun total meal =>
      match meal.recipeSnapshot with
      | some snap =>
          match snap.nutrition with
          | some nutrition => total + orZero nutrition.calories * meal.servings
          | none => total
      | none => total) a = a + (meals.map entryCalories).sum := by
  induction meals generalizing a with
  | nil => simp
  | cons m ms ih =>
    simp only [List.foldl_cons, List.map_cons, List.sum_cons, ih]
    rcases m with ⟨d, ds, t, r, _ | ⟨ti, im, ing, _ | n, ca, ar⟩, sv, nt⟩ <;>
      simp only [entryCalories, entryField, orZero] <;> ring

theorem updateTotals_meals (p : MealPlan) : (updateTotals p).meals = p.meals := rfl

theorem updateTotals_totalCalories (p : MealPlan) :
    (updateTotals p).totalCalories = (p.meals.map entryCalories).sum := by
  simp [updateTotals, foldl_calories]

theorem apply_totalCalories (p : MealPlan) (op : Op) :
    (op.apply p).totalCalories = ((op.apply p).meals.map entryCalories).sum := by
  cases op <;> simp only [Op.apply, addMeal, removeMeal, updateTotals_totalCalories,
    updateTotals_meals]

theorem runOps_append (p : MealPlan) (ops : List Op) (op : Op) :
    runOps p (ops ++ [op]) = op.apply (runOps p ops) := by
  simp [runOps, List.foldl_append]

/-- C1. After any sequence of `addMeal` / `removeMeal` calls, `totalCalories` is the sum
over the resulting meals of the snapshot calories (0 when missing) times the servings.
The sequence has at least one call, or the plan it starts from already carries a
recomputed total (as a fresh or a saved plan does). -/
theorem totalCalories_after_ops (p : MealPlan) (ops : List Op)
    (h : ops ≠ [] ∨ p.totalCalories = (p.meals.map entryCalories).sum) :
    (runOps p ops).totalCalories = ((runOps p ops).meals.map entryCalories).sum := by
  induction ops using List.reverseRecOn with
  | nil =>
    rcases h with h | h
    · exact absurd rfl h
    · simpa [runOps] using h
  | append_singleton ops op _ =>
    rw [runOps_append]
    exact apply_totalCalories _ op

/-- C1, scenario 2: Tacos (400 calories) on 2024-01-01/Dinner with servings 2, then on
2024-01-02/Dinner with servings 1, gives `totalCalories = 1200`. -/
theorem totalCalories_after_ops_witness :
    (scenario2 ≠ [] ∨ emptyPlan.totalCalories = (emptyPlan.meals.map entryCalories).sum) ∧
    (runOps emptyPlan scenario2).totalCalories
      = ((runOps emptyPlan scenario2).meals.map entryCalories).sum ∧
    (runOps emptyPlan scenario2).totalCalories = 1200 ∧
    (runOps emptyPlan scenario2).meals.map slot
      = [("2024-01-01", "Dinner"), ("2024-01-02", "Dinner")] :=
  ⟨Or.inl (by decide), totalCalories_after_ops emptyPlan scenario2 (Or.inl (by decide)),
    by decide, by decide⟩

theorem slot_filter_nodup (meals : List MealEntry) (k : String × String)
    (h : (meals.map slot).Nodup) :
    ((meals.filter (fun meal => !(meal.dateString == k.1 && meal.mealType == k.2))).map
      slot).Nodup :=
  (List.Sublist.map slot (List.filter_sublist meals)).nodup h

theorem slot_not_mem_filter (meals : List MealEntry) (k : String × String) :
    k ∉ (meals.filter (fun meal => !(meal.dateString == k.1 && meal.mealType == k.2))).map
      slot := by
  intro hk
  obtain ⟨m, hm, hs⟩ := List.mem_map.1 hk
  have hf := (List.mem_filter.1 hm).2
  subst hs
  simp [slot] at hf

theorem apply_nodup (p : MealPlan) (op : Op) (h : (p.meals.map slot).Nodup) :
    ((op.apply p).meals.map slot).Nodup := by
  cases op with
  | add d t r s n =>
    simp only [Op.apply, addMeal, updateTotals_meals, List.map_append, List.map_cons,
      List.map_nil]
    refine List.Nodup.append (slot_filter_nodup p.meals (dateKey d, t) h)
      (List.nodup_singleton _) ?_
    rw [List.disjoint_singleton]
    exact slot_not_mem_filter p.meals (dateKey d, t)
  | remove d t =>
    simp only [Op.apply, removeMeal, updateTotals_meals]
    exact slot_filter_nodup p.meals (dateKey d, t) h

theorem runOps_nodup (p : MealPlan) (ops : List Op) (h : (p.meals.map slot).Nodup) :
    ((runOps p ops).meals.map slot).Nodup := by
  induction ops using List.reverseRecOn with
  | nil => simpa [runOps] using h
  | append_singleton ops op ih =>
    rw [runOps_append]
    exact apply_nodup _ op ih

/-- C2. Starting from a plan with no meals, after every sequence of `addMeal` /
`removeMeal` calls no two entries of `meals` share their (dateString, mealType) pair. -/
theorem unique_slots_after_ops (p : MealPlan) (ops : List Op) (h : p.meals = []) :
    ((runOps p ops).meals.map slot).Nodup :=
  runOps_nodup p ops (by simp [h])

/-- C2 on a concrete run: adding to the same slot twice keeps one entry for it. -/
theorem unique_slots_after_ops_witness :
    emptyPlan.meals = [] ∧
    ((runOps emptyPlan
      [Op.add jan1 "Dinner" tacos 2 "", Op.add jan1 "Dinner" tacos 3 "x",
       Op.add jan2 "Lunch" tacos 1 "", Op.remove jan2 "Dinner"]).meals.map slot).Nodup ∧
    (runOps emptyPlan
      [Op.add jan1 "Dinner" tacos 2 "", Op.add jan1 "Dinner" tacos 3 "x",
       Op.add jan2 "Lunch" tacos 1 "", Op.remove jan2 "Dinner"]).meals.map
        (fun m => (slot m, m.servings))
      = [(("2024-01-01", "Dinner"), 3), (("2024-01-02", "Lunch"), 1)] :=
  ⟨rfl, unique_slots_after_ops emptyPlan _ rfl, by decide⟩

theorem filter_slot_eq (meals : List MealEntry) (k : String × String) :
    meals.filter (fun meal => !(meal.dateString == k.1 && meal.mealType == k.2))
      = meals.filter (fun m => decide (slot m ≠ k)) := by
  apply List.filter_congr
  intro m _
  rcases k with ⟨a, b⟩
  by_cases h1 : m.dateString = a <;> by_cases h2 : m.mealType = b <;> simp [slot, h1, h2]

/-- C3, as the code behaves: `addMeal` with the notes " hi " on the fresh plan stores an
entry whose notes are "hi", not " hi ". -/
theorem addMeal_trims_notes :
    (addMeal emptyPlan jan1 "Dinner" tacos 1 " hi ").meals.map (fun m => m.notes) = ["hi"] ∧
    (addMeal emptyPlan jan1 "Dinner" tacos 1 " hi ").meals.map (fun m => m.notes)
      ≠ [" hi "] := by
  decide

/-- C3, amended. After `addMeal(d, t, r, s, n)` the meals are the previous meals without
the entries at slot (dateKey(d), t), in their order, followed by one new entry at that
slot with date `d`, servings `s`, the notes `n` trimmed and a snapshot of `r`: its title,
image, category and area, its ingredients (the flat list when `r.ingredients` is one,
the projection of `getSimpleIngredients` otherwise) and its nutrition (four zeros when
`r` has none). -/
theorem addMeal_meals (p : MealPlan) (d : Date) (t : String) (r : Recipe) (s : Int)
    (n : String) :
    ∃ e : MealEntry,
      (addMeal p d t r s n).meals
        = p.meals.filter (fun m => decide (slot m ≠ (dateKey d, t))) ++ [e] ∧
      slot e = (dateKey d, t) ∧ e.date = d ∧ e.recipe = r.id ∧ e.servings = s ∧
      e.notes = jsTrim n ∧
      ∃ snap : RecipeSnapshot,
        e.recipeSnapshot = some snap ∧ snap.title = r.title ∧ snap.image = r.image ∧
        snap.category = r.category ∧ snap.area = r.area ∧
        snap.ingredients
          = (if r.hasGetSimpleIngredients then some (getSimpleIngredients r)
             else r.ingredients) ∧
        (∀ l, r.ingredients = some l → snap.ingredients = some l) ∧
        (∀ nu, r.nutrition = some nu → snap.nutrition = some nu) ∧
        (r.nutrition = none → snap.nutrition = some ⟨some 0, some 0, some 0, some 0⟩) := by
  simp only [addMeal, updateTotals_meals]
  rw [filter_slot_eq p.meals (dateKey d, t)]
  refine ⟨_, rfl, rfl, rfl, rfl, rfl, rfl, _, rfl, rfl, rfl, rfl, rfl, rfl, ?_, ?_, ?_⟩
  · intro l hl
    cases hg : r.hasGetSimpleIngredients <;> simp [getSimpleIngredients, hl]
  · intro nu hnu
    simp [hnu]
  · intro hnu
    simp [hnu, Nutrition.zero]

/-- C4. The call `removeMeal(d, t)` leaves exactly the previous entries that are not at
slot (dateKey(d), t), in their order; when no entry is at that slot the meals are
unchanged.  The method is total: it returns a plan on every input. -/
theorem removeMeal_meals (p : MealPlan) (d : Date) (t : String) :
    (removeMeal p d t).meals = p.meals.filter (fun m => decide (slot m ≠ (dateKey d, t))) ∧
    ((∀ m ∈ p.meals, slot m ≠ (dateKey d, t)) → (removeMeal p d t).meals = p.meals) := by
  have h : (removeMeal p d t).meals
      = p.meals.filter (fun m => decide (slot m ≠ (dateKey d, t))) := by
    simp only [removeMeal, updateTotals_meals]
    rw [filter_slot_eq p.meals (dateKey d, t)]
  refine ⟨h, fun hall => ?_⟩
  rw [h, List.filter_eq_self]
  intro m hm
  simpa using hall m hm

/-! ## Nutrition by date -/

theorem foldl_nutrition (meals : List MealEntry) (a : NutritionTotals) :
    meals.foldl (fun (nutrition : NutritionTotals) meal =>
      match meal.recipeSnapshot with
      | some snap =>
          match snap.nutrition with
          | some mealNutrition =>
              { calories := nutrition.calories + orZero mealNutrition.calories * meal.servings
                protein := nutrition.protein + orZero mealNutrition.protein * meal.servings
                fat := nutrition.fat + orZero mealNutrition.fat * meal.servings
                carbs := nutrition.carbs + orZero mealNutrition.carbs * meal.servings }
          | none => nutrition
      | none => nutrition) a
    = { calories := a.calories + (meals.map (entryField Nutrition.calories)).sum
        protein := a.protein + (meals.map (entryField Nutrition.protein)).sum
        fat := a.fat + (meals.map (entryField Nutrition.fat)).sum
        carbs := a.carbs + (meals.map (entryField Nutrition.carbs)).sum } := by
  induction meals generalizing a with
  | nil => simp
  | cons m ms ih =>
    simp only [List.foldl_cons, List.map_cons, List.sum_cons, ih]
    rcases m with ⟨d, ds, t, r, _ | ⟨ti, im, ing, _ | n, ca, ar⟩, sv, nt⟩ <;>
      simp only [entryField, orZero, NutritionTotals.mk.injEq] <;>
      refine ⟨?_, ?_, ?_, ?_⟩ <;> ring

/-- C10. The call `getNutritionByDate(d)` returns, field by field, the sum over the
entries whose dateString is dateKey(d) of the snapshot's field (0 when missing) times
the servings; without a date the sum runs over all entries; when no entry matches
every field is 0. -/
theorem getNutritionByDate_sums (p : MealPlan) (d : Date) :
    getNutritionByDate p (some d)
      = { calories := ((p.meals.filter (fun m => decide (m.dateString = dateKey d))).map
            (entryField Nutrition.calories)).sum
          protein := ((p.meals.filter (fun m => decide (m.dateString = dateKey d))).map
            (entryField Nutrition.protein)).sum
          fat := ((p.meals.filter (fun m => decide (m.dateString = dateKey d))).map
            (entryField Nutrition.fat)).sum
          carbs := ((p.meals.filter (fun m => decide (m.dateString = dateKey d))).map
            (entryField Nutrition.carbs)).sum } ∧
    getNutritionByDate p none
      = { calories := (p.meals.map (entryField Nutrition.calories)).sum
          protein := (p.meals.map (entryField Nutrition.protein)).sum
          fat := (p.meals.map (entryField Nutrition.fat)).sum
          carbs := (p.meals.map (entryField Nutrition.carbs)).sum } ∧
    ((∀ m ∈ p.meals, m.dateString ≠ dateKey d) →
      getNutritionByDate p (some d) = { calories := 0, protein := 0, fat := 0, carbs := 0 }) := by
  have hf : p.meals.filter (fun meal => meal.dateString == dateKey d)
      = p.meals.filter (fun m => decide (m.dateString = dateKey d)) := by
    apply List.filter_congr
    intro m _
    rfl
  refine ⟨?_, ?_, ?_⟩
  · simp only [getNutritionByDate, foldl_nutrition, hf, zero_add]
  · simp only [getNutritionByDate, foldl_nutrition, zero_add]
  · intro h
    have he : p.meals.filter (fun m => decide (m.dateString = dateKey d)) = [] := by
      rw [List.filter_eq_nil_iff]
      intro m hm
      simpa using h m hm
    simp only [getNutritionByDate, foldl_nutrition, hf, he, List.map_nil, List.sum_nil,
      zero_add]

/-- C10 on the plan of scenario 2: the totals of 2024-01-01 (Tacos, servings 2), of the
whole plan, and of a day without meals. -/
theorem getNutritionByDate_scenario :
    getNutritionByDate (runOps emptyPlan scenario2) (some jan1)
      = { calories := 800, protein := 50, fat := 40, carbs := 60 } ∧
    getNutritionByDate (runOps emptyPlan scenario2) none
      = { calories := 1200, protein := 75, fat := 60, carbs := 90 } ∧
    getNutritionByDate (runOps emptyPlan scenario2) (some ⟨0⟩)
      = { calories := 0, protein := 0, fat := 0, carbs := 0 } := by
  decide

/-! ## The grocery list on concrete plans -/

/-- C6, as the code behaves: for the two "Egg" meals with servings 1 and 2 the list is
`["Egg", "Egg (x2)"]` and holds no line "Egg (needed 2 times)". -/
theorem egg_servings_not_merged :
    getGroceryList asciiRuntime eggPlan none none = ["Egg", "Egg (x2)"] ∧
    "Egg (needed 2 times)" ∉ getGroceryList asciiRuntime eggPlan none none := by
  decide

/-- C6, amended. For a plan with two meals whose ingredient lists are both `["Egg"]`,
servings 1 then 2, `getGroceryList` returns the two lines "Egg" and "Egg (x2)": the
servings suffix belongs to the dedup key.  With servings 1 for both it returns the one
line "Egg (needed 2 times)". -/
theorem egg_lines (p : MealPlan) (m1 m2 : MealEntry) (s1 s2 : RecipeSnapshot)
    (hp : p.meals = [m1, m2]) (h1 : m1.recipeSnapshot = some s1)
    (h2 : m2.recipeSnapshot = some s2) (hi1 : s1.ingredients = some ["Egg"])
    (hi2 : s2.ingredients = some ["Egg"]) (hs1 : m1.servings = 1) :
    (m2.servings = 2 → getGroceryList asciiRuntime p none none = ["Egg", "Egg (x2)"]) ∧
    (m2.servings = 1 → getGroceryList asciiRuntime p none none = ["Egg (needed 2 times)"]) := by
  constructor
  · intro hs2
    simp only [getGroceryList, mealsToInclude, hp, allIngredients, List.foldl_cons,
      List.foldl_nil, entryIngredients, h1, h2, hi1, hi2, hs1, hs2, List.nil_append,
      List.map_cons, List.map_nil]
    decide
  · intro hs2
    simp only [getGroceryList, mealsToInclude, hp, allIngredients, List.foldl_cons,
      List.foldl_nil, entryIngredients, h1, h2, hi1, hi2, hs1, hs2, List.nil_append,
      List.map_cons, List.map_nil]
    decide

/-- C6, amended, on the plan of scenario 3. -/
theorem egg_lines_witness :
    eggPlan.meals.length = 2 ∧
    getGroceryList asciiRuntime eggPlan none none = ["Egg", "Egg (x2)"] :=
  ⟨by decide,
   (egg_lines eggPlan (eggPlan.meals.get ⟨0, by decide⟩) (eggPlan.meals.get ⟨1, by decide⟩)
      ⟨"Boiled egg", "", some ["Egg"], some Nutrition.zero, "Breakfast", ""⟩
      ⟨"Boiled egg", "", some ["Egg"], some Nutrition.zero, "Breakfast", ""⟩
      (by decide) (by decide) (by decide) rfl rfl (by decide)).1 (by decide)⟩

/-- C8, as the code behaves: on a plan with no meals `getGroceryList` returns the empty
list, not the placeholder. -/
theorem getGroceryList_empty_plan :
    emptyPlan.meals = [] ∧
    getGroceryList asciiRuntime emptyPlan none none = [] ∧
    getGroceryList asciiRuntime emptyPlan none none ≠ [noMealsMessage] := by
  decide

theorem collect_none_slots (slots : List (Option CalendarMeal))
    (h : ∀ s ∈ slots, s = none) (acc : List (Option String) × Nat) :
    slots.foldl (fun acc meal =>
      match meal with
      | some m => (acc.1 ++ collectMeal m, acc.2 + 1)
      | none => acc) acc = acc := by
  induction slots with
  | nil => rfl
  | cons s ss ih =>
    have hs : s = none := h s (List.mem_cons_self _ _)
    subst hs
    simpa using ih (fun x hx => h x (List.mem_cons_of_mem _ hx))

theorem collectCalendar_no_meals (zone : Int) (cal : List DayData)
    (range : Option DateRange) (h : ∀ day ∈ cal, ∀ s ∈ day.meals, s = none) :
    collectCalendar zone cal range = ([], 0) := by
  unfold collectCalendar
  generalize (([], 0) : List (Option String) × Nat) = acc
  induction cal with
  | nil => rfl
  | cons day days ih =>
    simp only [List.foldl_cons]
    rw [collect_none_slots day.meals (h day (List.mem_cons_self _ _)) acc]
    simp only [ite_self]
    exact ih (fun x hx => h x (List.mem_cons_of_mem _ hx))

/-- C8, amended. On an aggregate with zero meal entries the backend `getGroceryList`
returns the empty list; the one-element placeholder list "No meals planned yet. Add
some recipes to generate a grocery list!" is what the frontend `extractGroceryList`
returns for a calendar in which no meal slot is filled. -/
theorem grocery_list_of_nothing (rt : JsRuntime) (p : MealPlan) (s e : Option Date)
    (zone : Int) (cal : List DayData) (range : Option DateRange) (hp : p.meals = [])
    (hc : ∀ day ∈ cal, ∀ s ∈ day.meals, s = none) :
    getGroceryList rt p s e = [] ∧
    extractGroceryList rt zone cal range = [noMealsMessage] := by
  constructor
  · have hm : mealsToInclude p s e = [] := by
      unfold mealsToInclude
      rcases s with _ | s <;> rcases e with _ | e <;> simp [hp]
    simp [getGroceryList, hm, allIngredients, countKeys, Dict.entries, indexEntries]
  · simp [extractGroceryList, collectCalendar_no_meals zone cal range hc, cleanIngredients]

/-- C8, amended, on the fresh plan and on a calendar of one empty day. -/
theorem grocery_list_of_nothing_witness :
    emptyPlan.meals = [] ∧ (∀ day ∈ [emptyDay], ∀ s ∈ day.meals, s = none) ∧
    getGroceryList asciiRuntime emptyPlan (some jan1) (some jan2) = [] ∧
    extractGroceryList asciiRuntime 0 [emptyDay] none = [noMealsMessage] :=
  ⟨rfl, by decide,
   grocery_list_of_nothing asciiRuntime emptyPlan (some jan1) (some jan2) 0 [emptyDay] none
     rfl (by decide)⟩

/-- C5 at the failing input: the ingredient "constructor" listed twice has key
`constructor` with multiplicity 2, and the list is `["Constructor"]`, without the
annotation; the ingredient "__proto__" gives no line at all. -/
theorem inherited_keys_miscounted :
    allIngredients (mealsToInclude constructorPlan none none) = ["constructor", "constructor"] ∧
    getGroceryList asciiRuntime constructorPlan none none = ["Constructor"] ∧
    allIngredients (mealsToInclude protoPlan none none) = ["__proto__"] ∧
    getGroceryList asciiRuntime protoPlan none none = [] := by
  decide

/-- C9 at the failing input: one filled slot with the non-blank ingredient "__proto__"
is collected, and the frontend list is empty. -/
theorem proto_ingredient_lost :
    cleanIngredients (collectCalendar 0 protoCalendar none).1 = ["__proto__"] ∧
    extractGroceryList asciiRuntime 0 protoCalendar none = [] := by
  decide

/-! ## Date keys and calendar order -/

theorem digitChar_toNat (k : Nat) (h : k < 10) : (Nat.digitChar k).toNat = 48 + k := by
  interval_cases k <;> rfl

theorem utf16_digit (k : Nat) (h : k < 10) (cs : List Char) :
    utf16 (Nat.digitChar k :: cs) = (48 + k) :: utf16 cs := by
  have hk := digitChar_toNat k h
  simp only [utf16, hk]
  rw [if_pos (by omega)]

theorem utf16_hyphen (cs : List Char) : utf16 ('-' :: cs) = 45 :: utf16 cs := by
  simp [utf16]

theorem unitsLe_fixedDigits (w : Nat) : ∀ (n m : Nat) (r1 r2 : List Char),
    n < 10 ^ w → m < 10 ^ w →
    unitsLe (utf16 (fixedDigits w n ++ r1)) (utf16 (fixedDigits w m ++ r2))
      = if n < m then true else if m < n then false else unitsLe (utf16 r1) (utf16 r2) := by
  induction w with
  | zero =>
    intro n m r1 r2 hn hm
    have h1 : n = 0 := by simpa using hn
    have h2 : m = 0 := by simpa using hm
    subst h1 h2
    simp [fixedDigits]
  | succ w ih =>
    intro n m r1 r2 hn hm
    have hn' : n / 10 < 10 ^ w := by
      rw [Nat.div_lt_iff_lt_mul (by norm_num)]
      rw [pow_succ] at hn
      exact hn
    have hm' : m / 10 < 10 ^ w := by
      rw [Nat.div_lt_iff_lt_mul (by norm_num)]
      rw [pow_succ] at hm
      exact hm
    simp only [fixedDigits, List.append_assoc, List.singleton_append]
    rw [ih (n / 10) (m / 10) _ _ hn' hm', utf16_digit _ (Nat.mod_lt _ (by norm_num)),
      utf16_digit _ (Nat.mod_lt _ (by norm_num))]
    simp only [unitsLe]
    split_ifs <;> first | rfl | omega

theorem dayFromYear_mono (a b : Int) (h : a ≤ b) : DayFromYear a ≤ DayFromYear b := by
  unfold DayFromYear
  omega

theorem yearFromDay_spec (day : Int) :
    DayFromYear (YearFromDay day) ≤ day ∧ day < DayFromYear (YearFromDay day + 1) := by
  unfold YearFromDay
  simp only []
  split_ifs with h1 h2
  · rw [Int.sub_add_cancel]
    refine ⟨?_, h1⟩
    unfold DayFromYear at *
    omega
  · refine ⟨h2, ?_⟩
    unfold DayFromYear at *
    omega
  · exact ⟨by omega, by omega⟩

theorem yearFromDay_mono (a b : Int) (h : a ≤ b) : YearFromDay a ≤ YearFromDay b := by
  by_contra hlt
  have ha := yearFromDay_spec a
  have hb := yearFromDay_spec b
  have := dayFromYear_mono (YearFromDay b + 1) (YearFromDay a) (by omega)
  omega

theorem daysInYear (y : Int) :
    DayFromYear (y + 1) - DayFromYear y = 365 ∨ DayFromYear (y + 1) - DayFromYear y = 366 := by
  unfold DayFromYear
  omega

theorem dayWithinYear_bounds (day : Int) :
    0 ≤ DayWithinYear day ∧ DayWithinYear day < 365 + InLeapYear day := by
  have h := yearFromDay_spec day
  have hy := daysInYear (YearFromDay day)
  unfold DayWithinYear InLeapYear
  simp only []
  split_ifs with hl <;> omega

theorem inLeapYear_cases (day : Int) : InLeapYear day = 0 ∨ InLeapYear day = 1 := by
  unfold InLeapYear
  simp only []
  split_ifs <;> simp

theorem month_date_table (d l : Int) :
    (monthOfYearDay d l = 0 ∧ dateOfYearDay d l = d + 1 ∧ d < 31) ∨
    (monthOfYearDay d l = 1 ∧ dateOfYearDay d l = d - 30 ∧ 31 ≤ d ∧ d < 59 + l) ∨
    (monthOfYearDay d l = 2 ∧ dateOfYearDay d l = d - 58 - l ∧ 59 + l ≤ d ∧ d < 90 + l) ∨
    (monthOfYearDay d l = 3 ∧ dateOfYearDay d l = d - 89 - l ∧ 90 + l ≤ d ∧ d < 120 + l) ∨
    (monthOfYearDay d l = 4 ∧ dateOfYearDay d l = d - 119 - l ∧ 120 + l ≤ d ∧ d < 151 + l) ∨
    (monthOfYearDay d l = 5 ∧ dateOfYearDay d l = d - 150 - l ∧ 151 + l ≤ d ∧ d < 181 + l) ∨
    (monthOfYearDay d l = 6 ∧ dateOfYearDay d l = d - 180 - l ∧ 181 + l ≤ d ∧ d < 212 + l) ∨
    (monthOfYearDay d l = 7 ∧ dateOfYearDay d l = d - 211 - l ∧ 212 + l ≤ d ∧ d < 243 + l) ∨
    (monthOfYearDay d l = 8 ∧ dateOfYearDay d l = d - 242 - l ∧ 243 + l ≤ d ∧ d < 273 + l) ∨
    (monthOfYearDay d l = 9 ∧ dateOfYearDay d l = d - 272 - l ∧ 273 + l ≤ d ∧ d < 304 + l) ∨
    (monthOfYearDay d l = 10 ∧ dateOfYearDay d l = d - 303 - l ∧ 304 + l ≤ d ∧ d < 334 + l) ∨
    (monthOfYearDay d l = 11 ∧ dateOfYearDay d l = d - 333 - l ∧ 334 + l ≤ d) := by
  generalize hm : monthOfYearDay d l = m
  generalize hD : dateOfYearDay d l = D
  unfold monthOfYearDay at hm
  unfold dateOfYearDay at hD
  by_cases h0 : d < 31
  · rw [if_pos h0] at hm hD
    refine Or.inl ⟨?_, ?_, ?_⟩ <;> omega
  rw [if_neg h0] at hm hD
  by_cases h1 : d < 59 + l
  · rw [if_pos h1] at hm hD
    refine Or.inr (Or.inl ⟨?_, ?_, ?_⟩) <;> omega
  rw [if_neg h1] at hm hD
  by_cases h2 : d < 90 + l
  · rw [if_pos h2] at hm hD
    refine Or.inr (Or.inr (Or.inl ⟨?_, ?_, ?_⟩)) <;> omega
  rw [if_neg h2] at hm hD
  by_cases h3 : d < 120 + l
  · rw [if_pos h3] at hm hD
    refine Or.inr (Or.inr (Or.inr (Or.inl ⟨?_, ?_, ?_⟩))) <;> omega
  rw [if_neg h3] at hm hD
  by_cases h4 : d < 151 + l
  · rw [if_pos h4] at hm hD
    refine Or.inr (Or.inr (Or.inr (Or.inr (Or.inl ⟨?_, ?_, ?_⟩)))) <;> omega
  rw [if_neg h4] at hm hD
  by_cases h5 : d < 181 + l
  · rw [if_pos h5] at hm hD
    refine Or.inr (Or.inr (Or.inr (Or.inr (Or.inr (Or.inl ⟨?_, ?_, ?_⟩))))) <;> omega
  rw [if_neg h5] at hm hD
  by_cases h6 : d < 212 + l
  · rw [if_pos h6] at hm hD
    refine Or.inr (Or.inr (Or.inr (Or.inr (Or.inr (Or.inr (Or.inl ⟨?_, ?_, ?_⟩)))))) <;> omega
  rw [if_neg h6] at hm hD
  by_cases h7 : d < 243 + l
  · rw [if_pos h7] at hm hD
    refine Or.inr (Or.inr (Or.inr (Or.inr (Or.inr (Or.inr (Or.inr (Or.inl ⟨?_, ?_, ?_⟩))))))) <;> omega
  rw [if_neg h7] at hm hD
  by_cases h8 : d < 273 + l
  · rw [if_pos h8] at hm hD
    refine Or.inr (Or.inr (Or.inr (Or.inr (Or.inr (Or.inr (Or.inr (Or.inr (Or.inl ⟨?_, ?_, ?_⟩)))))))) <;> omega
  rw [if_neg h8] at hm hD
  by_cases h9 : d < 304 + l
  · rw [if_pos h9] at hm hD
    refine Or.inr (Or.inr (Or.inr (Or.inr (Or.inr (Or.inr (Or.inr (Or.inr (Or.inr (Or.inl ⟨?_, ?_, ?_⟩))))))))) <;> omega
  rw [if_neg h9] at hm hD
  by_cases h10 : d < 334 + l
  · rw [if_pos h10] at hm hD
    refine Or.inr (Or.inr (Or.inr (Or.inr (Or.inr (Or.inr (Or.inr (Or.inr (Or.inr (Or.inr (Or.inl ⟨?_, ?_, ?_⟩)))))))))) <;> omega
  rw [if_neg h10] at hm hD
  refine Or.inr (Or.inr (Or.inr (Or.inr (Or.inr (Or.inr (Or.inr (Or.inr (Or.inr (Or.inr (Or.inr (⟨?_, ?_, ?_⟩))))))))))) <;> omega

theorem month_date_bounds (day : Int) :
    0 ≤ MonthFromDay day ∧ MonthFromDay day ≤ 11 ∧ 1 ≤ DateFromDay day ∧
      DateFromDay day ≤ 31 := by
  have hb := dayWithinYear_bounds day
  have hl := inLeapYear_cases day
  have ht := month_date_table (DayWithinYear day) (InLeapYear day)
  unfold MonthFromDay DateFromDay
  omega

/-- Within one year the pair (month, date) grows strictly with the day. -/
theorem month_date_lt (a b : Int) (hy : YearFromDay a = YearFromDay b) (hab : a < b) :
    MonthFromDay a < MonthFromDay b ∨
      (MonthFromDay a = MonthFromDay b ∧ DateFromDay a < DateFromDay b) := by
  have hba := dayWithinYear_bounds a
  have hbb := dayWithinYear_bounds b
  have hl : InLeapYear a = InLeapYear b := by unfold InLeapYear; rw [hy]
  have hd : DayWithinYear a < DayWithinYear b := by unfold DayWithinYear; rw [hy]; omega
  have hl2 := inLeapYear_cases b
  have hta := month_date_table (DayWithinYear a) (InLeapYear b)
  have htb := month_date_table (DayWithinYear b) (InLeapYear b)
  unfold MonthFromDay DateFromDay
  rw [hl] at hba ⊢
  omega

theorem isoDate_data (day : Int) (h0 : 0 ≤ YearFromDay day) (h1 : YearFromDay day ≤ 9999) :
    (isoDate day).data
      = fixedDigits 4 (YearFromDay day).toNat ++ '-' ::
          (fixedDigits 2 (MonthFromDay day + 1).toNat ++ '-' ::
            (fixedDigits 2 (DateFromDay day).toNat ++ [])) := by
  have hb := month_date_bounds day
  have hy : (YearFromDay day).toNat < 10 ^ 4 := by omega
  have hm : (MonthFromDay day + 1).toNat < 10 ^ 2 := by omega
  have hd : (DateFromDay day).toNat < 10 ^ 2 := by omega
  simp only [isoDate, isoYear, padDigits, if_pos (And.intro h0 h1), if_pos hy, if_pos hm,
    if_pos hd, List.append_assoc, List.cons_append, List.append_nil]

/-- For days of four-digit years, string order of the date keys is calendar order. -/
theorem jsStrLe_isoDate (a b : Int) (ha0 : 0 ≤ YearFromDay a) (ha1 : YearFromDay a ≤ 9999)
    (hb0 : 0 ≤ YearFromDay b) (hb1 : YearFromDay b ≤ 9999) :
    jsStrLe (isoDate a) (isoDate b) = decide (a ≤ b) := by
  have hba := month_date_bounds a
  have hbb := month_date_bounds b
  unfold jsStrLe
  rw [isoDate_data a ha0 ha1, isoDate_data b hb0 hb1,
    unitsLe_fixedDigits 4 _ _ _ _ (by omega) (by omega), utf16_hyphen, utf16_hyphen]
  simp only [unitsLe, lt_self_iff_false, if_false]
  rw [unitsLe_fixedDigits 2 _ _ _ _ (by omega) (by omega), utf16_hyphen, utf16_hyphen]
  simp only [unitsLe, lt_self_iff_false, if_false]
  rw [unitsLe_fixedDigits 2 _ _ _ _ (by omega) (by omega)]
  simp only [utf16, unitsLe]
  rcases lt_trichotomy a b with hlt | heq | hgt
  · have hy := yearFromDay_mono a b (le_of_lt hlt)
    have hd : decide (a ≤ b) = true := by simpa using le_of_lt hlt
    rw [hd]
    rcases lt_or_eq_of_le hy with hy1 | hy2
    · rw [if_pos (by omega)]
    · have hmd := month_date_lt a b hy2 hlt
      rw [if_neg (by omega), if_neg (by omega)]
      rcases hmd with hm | ⟨hm, hdd⟩
      · rw [if_pos (by omega)]
      · rw [if_neg (by omega), if_neg (by omega), if_pos (by omega)]
  · subst heq
    simp
  · have hy := yearFromDay_mono b a (le_of_lt hgt)
    have hd : decide (a ≤ b) = false := by simpa using hgt
    rw [hd]
    rcases lt_or_eq_of_le hy with hy1 | hy2
    · rw [if_neg (by omega), if_pos (by omega)]
    · have hmd := month_date_lt b a hy2 hgt
      rw [if_neg (by omega), if_neg (by omega)]
      rcases hmd with hm | ⟨hm, hdd⟩
      · rw [if_neg (by omega), if_pos (by omega)]
      · rw [if_neg (by omega), if_neg (by omega), if_neg (by omega), if_pos (by omega)]

theorem day_mono (a b : Int) (h : a ≤ b) : Day a ≤ Day b := by
  unfold Day msPerDay
  omega

theorem mealsToInclude_range (p : MealPlan) (s e : Date) (hs : FourDigitYear s)
    (he : FourDigitYear e)
    (hm : ∀ m ∈ p.meals, m.dateString = dateKey m.date ∧ FourDigitYear m.date) :
    mealsToInclude p (some s) (some e)
      = p.meals.filter (fun m =>
          decide (Day s.time ≤ Day m.date.time ∧ Day m.date.time ≤ Day e.time)) := by
  unfold mealsToInclude
  apply List.filter_congr
  intro m hmem
  obtain ⟨hk, hy⟩ := hm m hmem
  rw [hk]
  unfold dateKey
  rw [jsStrLe_isoDate _ _ hs.1 hs.2 hy.1 hy.2, jsStrLe_isoDate _ _ hy.1 hy.2 he.1 he.2]
  simp

/-- The entries built by `addMeal` carry the date key of their date. -/
theorem runOps_dateString (p : MealPlan) (ops : List Op)
    (h : ∀ m ∈ p.meals, m.dateString = dateKey m.date) :
    ∀ m ∈ (runOps p ops).meals, m.dateString = dateKey m.date := by
  induction ops using List.reverseRecOn with
  | nil => simpa [runOps] using h
  | append_singleton ops op ih =>
    rw [runOps_append]
    intro m hmem
    cases op with
    | add d t r sv n =>
      simp only [Op.apply, addMeal, updateTotals_meals, List.mem_append, List.mem_singleton]
        at hmem
      rcases hmem with hmem | hmem
      · exact ih m (List.mem_filter.1 hmem).1
      · subst hmem
        rfl
    | remove d t =>
      simp only [Op.apply, removeMeal, updateTotals_meals] at hmem
      exact ih m (List.mem_filter.1 hmem).1

/-- C7. With both bounds given, `startDate ≤ endDate`, and date keys of four-digit years
(each entry's `dateString` being the key of its date), `getGroceryList(startDate,
endDate)` is the grocery list of exactly the entries whose UTC calendar day lies between
the day of `startDate` and the day of `endDate` inclusive: entries on either boundary
day are selected, entries one day outside are not.  When a bound is absent every entry
is selected. -/
theorem getGroceryList_date_range (rt : JsRuntime) (p : MealPlan) (s e : Date)
    (hse : s.time ≤ e.time) (hs : FourDigitYear s) (he : FourDigitYear e)
    (hm : ∀ m ∈ p.meals, m.dateString = dateKey m.date ∧ FourDigitYear m.date) :
    mealsToInclude p (some s) (some e)
      = p.meals.filter (fun m =>
          decide (Day s.time ≤ Day m.date.time ∧ Day m.date.time ≤ Day e.time)) ∧
    getGroceryList rt p (some s) (some e)
      = getGroceryList rt { p with meals := p.meals.filter (fun m =>
          decide (Day s.time ≤ Day m.date.time ∧ Day m.date.time ≤ Day e.time)) } none none ∧
    (∀ m ∈ p.meals, Day m.date.time = Day s.time ∨ Day m.date.time = Day e.time →
      m ∈ mealsToInclude p (some s) (some e)) ∧
    (∀ m ∈ p.meals, Day m.date.time = Day s.time - 1 ∨ Day m.date.time = Day e.time + 1 →
      m ∉ mealsToInclude p (some s) (some e)) ∧
    (∀ a b : Option Date, a = none ∨ b = none →
      mealsToInclude p a b = p.meals ∧
      getGroceryList rt p a b = getGroceryList rt p none none) := by
  have hr := mealsToInclude_range p s e hs he hm
  have hd := day_mono s.time e.time hse
  refine ⟨hr, ?_, ?_, ?_, ?_⟩
  · simp only [getGroceryList, hr]
    rfl
  · intro m hmem hday
    rw [hr, List.mem_filter]
    refine ⟨hmem, ?_⟩
    rw [decide_eq_true_iff]
    omega
  · intro m _ hday hin
    rw [hr, List.mem_filter, decide_eq_true_iff] at hin
    omega
  · intro a b hab
    have hall : mealsToInclude p a b = p.meals := by
      rcases hab with h | h <;> subst h
      · rfl
      · cases a <;> rfl
    exact ⟨hall, by simp only [getGroceryList, hall]; rfl⟩

/-- C7 on a concrete plan: with the range 2024-01-01T18:00Z .. 2024-01-02T00:00Z the
dinners of January 1 (at noon) and January 2 (at 23:59:59.999) are used, those of
December 31 and January 3 are not. -/
theorem getGroceryList_date_range_witness :
    jan1Evening.time ≤ jan2.time ∧ FourDigitYear jan1Evening ∧ FourDigitYear jan2 ∧
    (∀ m ∈ fourDayPlan.meals, m.dateString = dateKey m.date ∧ FourDigitYear m.date) ∧
    fourDayPlan.meals.map MealEntry.dateString
      = ["2023-12-31", "2024-01-01", "2024-01-02", "2024-01-03"] ∧
    getGroceryList asciiRuntime fourDayPlan (some jan1Evening) (some jan2)
      = ["Jan1 rice", "Jan2 stew"] ∧
    getGroceryList asciiRuntime fourDayPlan (some jan1Evening) (some jan2)
      = getGroceryList asciiRuntime
          { fourDayPlan with meals := fourDayPlan.meals.filter (fun m =>
              decide (Day jan1Evening.time ≤ Day m.date.time ∧
                Day m.date.time ≤ Day jan2.time)) } none none :=
  ⟨by decide, by decide, by decide, by decide, by decide, by decide,
    (getGroceryList_date_range asciiRuntime fourDayPlan jan1Evening jan2 (by decide)
      (by decide) (by decide) (by decide)).2.1⟩

/-! ## The counting loop on a plain object -/

theorem own_replace (o : Dict) (k k' : String) (v : Count) :
    Dict.own (Dict.replace o k v) k'
      = if k' = k then (Dict.own o k).map (fun _ => v) else Dict.own o k' := by
  induction o with
  | nil => simp [Dict.own, Dict.replace]
  | cons kv rest ih =>
    rcases kv with ⟨a, w⟩
    by_cases h1 : a = k <;> by_cases h2 : k' = k
    · subst h1; subst h2
      simp [Dict.own, Dict.replace]
    · subst h1
      have h3 : ¬ a = k' := fun h => h2 h.symm
      simp [Dict.own, Dict.replace, h2, h3]
    · subst h2
      simp [Dict.own, Dict.replace, h1, ih]
    · by_cases h3 : a = k'
      · simp [Dict.own, Dict.replace, h1, h2, h3]
      · simp [Dict.own, Dict.replace, h1, h2, h3, ih]

theorem own_append (o : Dict) (k k' : String) (v : Count) :
    Dict.own (o ++ [(k, v)]) k'
      = match Dict.own o k' with
        | some w => some w
        | none => if k = k' then some v else none := by
  induction o with
  | nil => simp [Dict.own]
  | cons kv rest ih =>
    rcases kv with ⟨a, w⟩
    by_cases h : a = k'
    · simp [Dict.own, h]
    · simp [Dict.own, h, ih]

theorem own_eq_none (o : Dict) (k : String) :
    Dict.own o k = none ↔ k ∉ o.map Prod.fst := by
  induction o with
  | nil => simp [Dict.own]
  | cons kv rest ih =>
    rcases kv with ⟨a, w⟩
    by_cases h : a = k
    · simp [Dict.own, h]
    · have h' : ¬ k = a := fun e => h e.symm
      simp [Dict.own, h, h', ih]

theorem replace_keys (o : Dict) (k : String) (v : Count) :
    (Dict.replace o k v).map Prod.fst = o.map Prod.fst := by
  induction o with
  | nil => rfl
  | cons kv rest ih =>
    rcases kv with ⟨a, w⟩
    by_cases h : a = k
    · simp [Dict.replace, h]
    · simp [Dict.replace, h, ih]

theorem own_of_mem (o : Dict) (h : (o.map Prod.fst).Nodup) (kv : String × Count)
    (hm : kv ∈ o) : Dict.own o kv.1 = some kv.2 := by
  induction o with
  | nil => cases hm
  | cons x rest ih =>
    rcases x with ⟨a, w⟩
    simp only [List.map_cons, List.nodup_cons] at h
    rcases List.mem_cons.1 hm with hx | hx
    · subst hx
      simp [Dict.own]
    · have hne : ¬ a = kv.1 := by
        intro e
        exact h.1 (e ▸ List.mem_map_of_mem Prod.fst hx)
      simp [Dict.own, hne, ih h.2 hx]

theorem countKeys_snoc (f : String → String) (items : List String) (x : String) :
    countKeys f (items ++ [x]) = Dict.increment (countKeys f items) (f x) := by
  simp [countKeys, List.foldl_append]

theorem countedValue_snoc_ne (ks : List String) (y k : String) (h : k ≠ y) :
    countedValue (ks ++ [y]) k = countedValue ks k := by
  unfold countedValue
  simp [List.count_append, List.count_singleton, h, Ne.symm h]

theorem own_append_ne (o : Dict) (y k : String) (v : Count) (h : k ≠ y) :
    Dict.own (o ++ [(y, v)]) k = Dict.own o k := by
  rw [own_append]
  cases Dict.own o k <;> simp [Ne.symm h]

theorem own_replace_ne (o : Dict) (y k : String) (v : Count) (h : k ≠ y) :
    Dict.own (Dict.replace o y v) k = Dict.own o k := by
  rw [own_replace, if_neg h]

/-- What the counting loop computes: distinct own keys, and under each key the value
`countedValue` describes. -/
theorem countKeys_spec (f : String → String) (items : List String) :
    ((countKeys f items).map Prod.fst).Nodup ∧
    ∀ k, Dict.own (countKeys f items) k = countedValue (items.map f) k := by
  induction items using List.reverseRecOn with
  | nil => exact ⟨by simp [countKeys], fun k => by simp [countKeys, Dict.own, countedValue]⟩
  | append_singleton items x ih =>
    obtain ⟨hnd, hown⟩ := ih
    rw [countKeys_snoc, List.map_append, List.map_singleton]
    generalize countKeys f items = o at hnd hown
    generalize items.map f = ks at hown
    generalize f x = y
    have hk := hown y
    unfold Dict.increment
    rcases ho : Dict.own o y with _ | ⟨n | _⟩
    · -- the key is new
      simp only []
      have hnew : y ∉ o.map Prod.fst := (own_eq_none o y).1 ho
      rw [ho] at hk
      by_cases hp : y = "__proto__"
      · rw [if_pos hp]
        refine ⟨hnd, fun k => ?_⟩
        by_cases hkx : k = y
        · subst hkx
          rw [ho]
          simp [countedValue, hp]
        · rw [countedValue_snoc_ne ks y k hkx, hown k]
      · have hnotin : y ∉ ks := by
          intro hin
          unfold countedValue at hk
          rw [if_pos ⟨hin, hp⟩] at hk
          cases hk
        rw [if_neg hp]
        by_cases hi : y ∈ inheritedFunctions
        · rw [if_pos hi]
          refine ⟨?_, fun k => ?_⟩
          · rw [List.map_append]
            exact List.Nodup.append hnd (List.nodup_singleton _)
              (by simpa using hnew)
          · by_cases hkx : k = y
            · subst hkx
              rw [own_append, ho]
              simp [countedValue, hp, hi]
            · rw [countedValue_snoc_ne ks y k hkx, own_append_ne o y k _ hkx, hown k]
        · rw [if_neg hi]
          refine ⟨?_, fun k => ?_⟩
          · rw [List.map_append]
            exact List.Nodup.append hnd (List.nodup_singleton _)
              (by simpa using hnew)
          · by_cases hkx : k = y
            · subst hkx
              rw [own_append, ho]
              simp [countedValue, hp, hi, List.count_eq_zero_of_not_mem hnotin]
            · rw [countedValue_snoc_ne ks y k hkx, own_append_ne o y k _ hkx, hown k]
    · -- the key holds a number
      simp only []
      rw [ho] at hk
      refine ⟨by rw [replace_keys]; exact hnd, fun k => ?_⟩
      by_cases hkx : k = y
      · subst hkx
        rw [own_replace, ho]
        unfold countedValue at hk ⊢
        split at hk
        · rename_i hc
          split at hk
          · cases hk
          · simp only [Option.some.injEq, Count.num.injEq] at hk
            rename_i hi
            simp [hc.2, hi, List.count_append, hk]
        · cases hk
      · rw [countedValue_snoc_ne ks y k hkx, own_replace_ne o y k _ hkx, hown k]
    · -- the key holds a string
      simp only []
      rw [ho] at hk
      refine ⟨by rw [replace_keys]; exact hnd, fun k => ?_⟩
      by_cases hkx : k = y
      · subst hkx
        rw [own_replace, ho]
        unfold countedValue at hk ⊢
        split at hk
        · rename_i hc
          split at hk
          · rename_i hi
            simp [hc.2, hi]
          · cases hk
        · cases hk
      · rw [countedValue_snoc_ne ks y k hkx, own_replace_ne o y k _ hkx, hown k]

theorem insertByIndex_perm (e : Nat × String × Count) (l : List (Nat × String × Count)) :
    (insertByIndex e l).Perm (e :: l) := by
  induction l with
  | nil => exact List.Perm.refl _
  | cons x xs ih =>
    unfold insertByIndex
    split
    · exact List.Perm.refl _
    · exact (List.Perm.cons x ih).trans (List.Perm.swap e x xs)

theorem indexEntries_perm (o : Dict) :
    ((indexEntries o).map (fun e => e.2)).Perm
      (o.filter (fun kv => (arrayIndex? kv.1).isSome)) := by
  induction o with
  | nil => exact List.Perm.refl _
  | cons kv rest ih =>
    have hstep : indexEntries (kv :: rest)
        = match arrayIndex? kv.1 with
          | some i => insertByIndex (i, kv.1, kv.2) (indexEntries rest)
          | none => indexEntries rest := rfl
    rw [hstep]
    cases hi : arrayIndex? kv.1 with
    | none => simpa [List.filter_cons, hi] using ih
    | some i =>
      simp only [List.filter_cons, hi, Option.isSome_some, if_true]
      exact ((insertByIndex_perm _ _).map _).trans (List.Perm.cons _ ih)

/-- The order of `Object.keys` rearranges the own properties and loses none. -/
theorem entries_perm (o : Dict) : (Dict.entries o).Perm o := by
  unfold Dict.entries
  have h1 := indexEntries_perm o
  have h2 : (o.filter (fun kv => (arrayIndex? kv.1).isNone))
      = o.filter (fun kv => !(arrayIndex? kv.1).isSome) := by
    apply List.filter_congr
    intro kv _
    cases arrayIndex? kv.1 <;> rfl
  rw [h2]
  exact (List.Perm.append_right _ h1).trans (List.filter_append_perm _ o)

theorem insertByLocale_perm (rt : JsRuntime) (e : String × Count)
    (l : List (String × Count)) : (insertByLocale rt e l).Perm (e :: l) := by
  induction l with
  | nil => exact List.Perm.refl _
  | cons x xs ih =>
    unfold insertByLocale
    split
    · exact List.Perm.refl _
    · exact (List.Perm.cons x ih).trans (List.Perm.swap e x xs)

theorem sortByLocale_perm (rt : JsRuntime) (es : List (String × Count)) :
    (sortByLocale rt es).Perm es := by
  induction es with
  | nil => exact List.Perm.refl _
  | cons e es ih => exact (insertByLocale_perm rt e _).trans (List.Perm.cons e ih)

theorem mem_countKeys_keys (f : String → String) (items : List String) (k : String) :
    k ∈ (countKeys f items).map Prod.fst ↔ k ∈ items.map f ∧ k ≠ "__proto__" := by
  have h := (countKeys_spec f items).2 k
  have hn := own_eq_none (countKeys f items) k
  rw [h] at hn
  unfold countedValue at hn
  by_cases hc : k ∈ items.map f ∧ k ≠ "__proto__"
  · rw [if_pos hc] at hn
    simp only [reduceCtorEq, false_iff, not_not] at hn
    exact ⟨fun _ => hc, fun _ => hn⟩
  · rw [if_neg hc] at hn
    simp only [true_iff] at hn
    exact ⟨fun h' => absurd h' hn, fun h' => absurd h' hc⟩

/-- The own keys of the counted object are the distinct keys seen, `__proto__` apart. -/
theorem countKeys_keys_perm (f : String → String) (items : List String) :
    ((countKeys f items).map Prod.fst).Perm
      ((items.map f).dedup.filter (fun k => decide (k ≠ "__proto__"))) := by
  rw [List.perm_ext_iff_of_nodup (countKeys_spec f items).1
    ((List.nodup_dedup _).filter _)]
  intro k
  rw [mem_countKeys_keys, List.mem_filter, List.mem_dedup, decide_eq_true_iff]

theorem countKeys_value (f : String → String) (items : List String) (kv : String × Count)
    (hm : kv ∈ countKeys f items) (hi : kv.1 ∉ inheritedFunctions) :
    kv.2 = Count.num ((items.map f).count kv.1) := by
  obtain ⟨hnd, hown⟩ := countKeys_spec f items
  have h1 := own_of_mem _ hnd kv hm
  have h2 := (mem_countKeys_keys f items kv.1).1 (List.mem_map_of_mem Prod.fst hm)
  rw [hown kv.1] at h1
  unfold countedValue at h1
  rw [if_pos h2, if_neg hi] at h1
  exact (Option.some.inj h1).symm

theorem groceryLine_num (rt : JsRuntime) (k : String) (n : Nat) :
    groceryLine rt (k, Count.num n) = neededLine rt k n := by
  unfold groceryLine neededLine
  by_cases h : 1 < n
  · simp [Count.gtOne, Count.render, h, String.append_assoc]
  · simp [Count.gtOne, h]

theorem allIngredients_eq (meals : List MealEntry) :
    allIngredients meals = (meals.map entryIngredients).flatten := by
  unfold allIngredients
  have h : ∀ (acc : List String),
      meals.foldl (fun acc meal => acc ++ entryIngredients meal) acc
        = acc ++ (meals.map entryIngredients).flatten := by
    induction meals with
    | nil => intro acc; simp
    | cons m ms ih => intro acc; simp [ih, List.append_assoc]
  simpa using h []

/-- Dedup correctness of the backend list, away from the keys a plain object inherits:
when no dedup key is `__proto__` or the name of a function of `Object.prototype`,
`getGroceryList` returns, in some order, exactly one line per distinct key, the
capitalized key annotated with its exact multiplicity when that exceeds 1; the number of
lines is the number of distinct keys. -/
theorem getGroceryList_dedup (rt : JsRuntime) (p : MealPlan) (s e : Option Date)
    (hclean : ∀ x ∈ ((mealsToInclude p s e).map entryIngredients).flatten,
      groceryKey rt x ≠ "__proto__" ∧ groceryKey rt x ∉ inheritedFunctions) :
    (getGroceryList rt p s e).Perm
      (((((mealsToInclude p s e).map entryIngredients).flatten.map (groceryKey rt)).dedup).map
        (fun k => neededLine rt k
          ((((mealsToInclude p s e).map entryIngredients).flatten.map (groceryKey rt)).count k)))
    ∧ (getGroceryList rt p s e).length
      = ((((mealsToInclude p s e).map entryIngredients).flatten.map (groceryKey rt)).dedup).length := by
  unfold getGroceryList
  rw [allIngredients_eq]
  generalize ((mealsToInclude p s e).map entryIngredients).flatten = items at hclean ⊢
  have hkeys := countKeys_keys_perm (groceryKey rt) items
  have hfilter : (items.map (groceryKey rt)).dedup.filter (fun k => decide (k ≠ "__proto__"))
      = (items.map (groceryKey rt)).dedup := by
    rw [List.filter_eq_self]
    intro k hk
    obtain ⟨x, hx, rfl⟩ := List.mem_map.1 (List.mem_dedup.1 hk)
    simpa using (hclean x hx).1
  rw [hfilter] at hkeys
  have hlines : (countKeys (groceryKey rt) items).map (groceryLine rt)
      = ((countKeys (groceryKey rt) items).map Prod.fst).map
          (fun k => neededLine rt k ((items.map (groceryKey rt)).count k)) := by
    rw [List.map_map]
    apply List.map_congr_left
    intro kv hkv
    have hin := (mem_countKeys_keys (groceryKey rt) items kv.1).1
      (List.mem_map_of_mem Prod.fst hkv)
    obtain ⟨x, hx, hxk⟩ := List.mem_map.1 hin.1
    have hni : kv.1 ∉ inheritedFunctions := hxk ▸ (hclean x hx).2
    have hv := countKeys_value (groceryKey rt) items kv hkv hni
    rcases kv with ⟨k, v⟩
    simp only at hv
    subst hv
    exact groceryLine_num rt k _
  have hperm : ((Dict.entries (countKeys (groceryKey rt) items)).map (groceryLine rt)).Perm
      ((items.map (groceryKey rt)).dedup.map
        (fun k => neededLine rt k ((items.map (groceryKey rt)).count k))) := by
    refine ((entries_perm _).map _).trans ?_
    rw [hlines]
    exact hkeys.map _
  exact ⟨hperm, by simpa using hperm.length_eq⟩

/-- The frontend list when something was collected: one line per distinct lower-cased
key other than `__proto__`. -/
theorem extractGroceryList_length (rt : JsRuntime) (zone : Int) (cal : List DayData)
    (range : Option DateRange)
    (h : cleanIngredients (collectCalendar zone cal range).1 ≠ []) :
    (extractGroceryList rt zone cal range).length
      = (((cleanIngredients (collectCalendar zone cal range).1).map rt.toLowerCase).dedup.filter
          (fun k => decide (k ≠ "__proto__"))).length := by
  unfold extractGroceryList
  simp only []
  rw [if_neg (by simpa using h), List.length_map, (sortByLocale_perm rt _).length_eq,
    (entries_perm _).length_eq, ← (countKeys_keys_perm rt.toLowerCase _).length_eq,
    List.length_map]

/-- The placeholders of the frontend: when no non-blank ingredient was collected the
result is the one-element list holding the message chosen by the number of filled slots. -/
theorem extractGroceryList_placeholder (rt : JsRuntime) (zone : Int) (cal : List DayData)
    (range : Option DateRange)
    (h : cleanIngredients (collectCalendar zone cal range).1 = []) :
    extractGroceryList rt zone cal range
      = [if (collectCalendar zone cal range).2 = 0 then noMealsMessage
         else noIngredientsMessage] := by
  unfold extractGroceryList
  simp only [h, List.length_nil, if_true]
  split <;> rfl

/-! ## Local time: `setDate`, `getWeekStart` -/

theorem yearFromDay_unique (day y : Int) (h1 : DayFromYear y ≤ day)
    (h2 : day < DayFromYear (y + 1)) : YearFromDay day = y := by
  have h := yearFromDay_spec day
  by_contra hne
  rcases lt_or_gt_of_ne hne with hlt | hgt
  · have := dayFromYear_mono (YearFromDay day + 1) y (by omega)
    omega
  · have := dayFromYear_mono (y + 1) (YearFromDay day) (by omega)
    omega

/-- The first day of the month of a day, plus its day of the month, gives the day back. -/
theorem monthStart_add_date (d l : Int) :
    monthStart (monthOfYearDay d l) l + dateOfYearDay d l - 1 = d := by
  rcases month_date_table d l with h | h | h | h | h | h | h | h | h | h | h | h <;>
    (obtain ⟨hm, hD, _⟩ := h
     rw [hm, hD]
     simp only [monthStart]
     norm_num
     try omega)

theorem makeDay_of_day (day k : Int) :
    MakeDay (YearFromDay day) (MonthFromDay day) (DateFromDay day + k) = day + k := by
  have hb := month_date_bounds day
  have h12 : MonthFromDay day / 12 = 0 := by omega
  have hmod : MonthFromDay day % 12 = MonthFromDay day := by omega
  have hs := monthStart_add_date (DayWithinYear day) (InLeapYear day)
  unfold MakeDay
  simp only [h12, hmod, add_zero]
  have hl : leapYear (YearFromDay day) = InLeapYear day := rfl
  rw [hl]
  unfold MonthFromDay DateFromDay at *
  unfold DayWithinYear at hs ⊢
  omega

theorem setDate_add (zone : Int) (d : Date) (k : Int) :
    setDate zone d (getDate zone d + k) = ⟨d.time + k * msPerDay⟩ := by
  unfold setDate getDate
  simp only [makeDay_of_day]
  congr 1
  unfold UTC TimeWithinDay Day LocalTime msPerDay
  omega

theorem getWeekStart_time (zone : Int) (d : Date) :
    getWeekStart zone d = ⟨d.time - getDay zone d * msPerDay⟩ := by
  unfold getWeekStart
  simp only []
  rw [sub_eq_add_neg, setDate_add]
  congr 1
  ring

theorem getDay_bounds (zone : Int) (d : Date) : 0 ≤ getDay zone d ∧ getDay zone d ≤ 6 := by
  unfold getDay WeekDay
  omega

/-- C15. The date `getWeekStart(d)` falls on a Sunday of the local calendar, is not after
`d`, and lies `getDay(d)` calendar days, at most 6, before `d`; it is `d` itself when `d`
is a Sunday. -/
theorem getWeekStart_sunday (zone : Int) (d : Date) :
    getDay zone (getWeekStart zone d) = 0 ∧
    (getWeekStart zone d).time ≤ d.time ∧
    Day (LocalTime zone d.time) - Day (LocalTime zone (getWeekStart zone d).time)
      = getDay zone d ∧
    0 ≤ getDay zone d ∧ getDay zone d ≤ 6 ∧
    (getDay zone d = 0 → getWeekStart zone d = d) := by
  have hb := getDay_bounds zone d
  rw [getWeekStart_time]
  refine ⟨?_, ?_, ?_, hb.1, hb.2, ?_⟩
  · unfold getDay WeekDay Day LocalTime msPerDay
    simp only []
    omega
  · unfold msPerDay
    simp only []
    omega
  · unfold getDay WeekDay Day LocalTime msPerDay
    simp only []
    omega
  · intro h0
    rw [h0]
    simp

/-! ## The weekly nutrition summary -/

/-- C11. The summary holds exactly 7 daily records, the i-th (i = 0 .. 6) being the date
`weekStartDate + i days` with its date key and `getNutritionByDate` of that date, in
ascending date order, and the weekly total is `getNutritionByDate()` over all entries. -/
theorem getWeeklyNutritionSummary_days (zone : Int) (p : MealPlan) :
    (getWeeklyNutritionSummary zone p).dailyNutrition
      = (List.range 7).map (fun i =>
          { date := ⟨p.weekStartDate.time + (i : Int) * msPerDay⟩
            dateString := dateKey ⟨p.weekStartDate.time + (i : Int) * msPerDay⟩
            nutrition :=
              getNutritionByDate p (some ⟨p.weekStartDate.time + (i : Int) * msPerDay⟩) }) ∧
    (getWeeklyNutritionSummary zone p).dailyNutrition.length = 7 ∧
    ((getWeeklyNutritionSummary zone p).dailyNutrition.map (fun r => r.date.time)).Pairwise
      (fun a b => a < b) ∧
    (getWeeklyNutritionSummary zone p).weeklyTotal = getNutritionByDate p none := by
  have hdates : ((List.range 7).foldl (fun (state : List Date × Date) _ =>
      (state.1 ++ [state.2], setDate zone state.2 (getDate zone state.2 + 1)))
      ([], p.weekStartDate)).1
      = (List.range 7).map (fun i => (⟨p.weekStartDate.time + (i : Int) * msPerDay⟩ : Date)) := by
    have hr : List.range 7 = [0, 1, 2, 3, 4, 5, 6] := by decide
    rw [hr]
    simp only [List.foldl_cons, List.foldl_nil, setDate_add, List.nil_append,
      List.cons_append, List.map_cons, List.map_nil]
    rcases p.weekStartDate with ⟨w⟩
    unfold msPerDay
    simp
    omega
  have hdaily : (getWeeklyNutritionSummary zone p).dailyNutrition
      = (List.range 7).map (fun i =>
          { date := ⟨p.weekStartDate.time + (i : Int) * msPerDay⟩
            dateString := dateKey ⟨p.weekStartDate.time + (i : Int) * msPerDay⟩
            nutrition :=
              getNutritionByDate p
                (some ⟨p.weekStartDate.time + (i : Int) * msPerDay⟩) }) := by
    unfold getWeeklyNutritionSummary
    simp only [hdates, List.map_map]
    rfl
  refine ⟨hdaily, ?_, ?_, rfl⟩
  · rw [hdaily]
    simp
  · rw [hdaily]
    have hr : List.range 7 = [0, 1, 2, 3, 4, 5, 6] := by decide
    rw [hr]
    simp only [List.map_cons, List.map_nil, List.pairwise_cons, List.mem_cons,
      List.mem_singleton, List.not_mem_nil, forall_eq_or_imp, forall_eq, List.Pairwise.nil,
      and_true, IsEmpty.forall_iff, implies_true]
    unfold msPerDay
    push_cast
    omega

/-- C11 on the plan of scenario 2, whose week starts on Sunday 2023-12-31. -/
theorem getWeeklyNutritionSummary_scenario :
    (getWeeklyNutritionSummary 0 (runOps emptyPlan scenario2)).dailyNutrition.map
        (fun r => (r.dateString, r.nutrition.calories))
      = [("2023-12-31", 0), ("2024-01-01", 800), ("2024-01-02", 400), ("2024-01-03", 0),
         ("2024-01-04", 0), ("2024-01-05", 0), ("2024-01-06", 0)] ∧
    (getWeeklyNutritionSummary 0 (runOps emptyPlan scenario2)).weeklyTotal.calories = 1200 := by
  decide

/-! ## Week identifiers -/

/-- C12 at the failing input, Sunday 2024-01-07 with local time equal to UTC:
`generateWeekId` takes the day of the week of the date itself, 0, and numbers the week 1
(`"2024-01"`), while the formula with the day of the week of January 1 (a Monday, 1),
which the virtual `weekNumber` uses, gives 2. -/
theorem generateWeekId_uses_own_weekday :
    getDay 0 jan7 = 0 ∧ getDay 0 (newDate 0 (getFullYear 0 jan7) 0 1) = 1 ∧
    generatedWeekNumber 0 jan7 = 1 ∧ generateWeekId 0 jan7 = "2024-01" ∧
    specWeekNumber 0 jan7 = 2 ∧
    weekNumber 0 { emptyPlan with weekStartDate := jan7 } = 2 := by
  decide

/-- C14 at the failing input: Sunday 2024-01-07 and Monday 2024-01-08 lie in the same
Sunday-to-Saturday week and in the same year, and get the weekIds `"2024-01"` and
`"2024-02"`. -/
theorem generateWeekId_splits_week :
    SameWeek 0 jan7 jan8 ∧ getFullYear 0 jan7 = getFullYear 0 jan8 ∧
    generateWeekId 0 jan7 = "2024-01" ∧ generateWeekId 0 jan8 = "2024-02" := by
  decide

/-- With the day of the week of January 1, as in the specification and in the virtual
`weekNumber`, the week number is the same for all dates of one week within one year. -/
theorem specWeekNumber_same_week (zone : Int) (a b : Date) (hw : SameWeek zone a b)
    (hy : getFullYear zone a = getFullYear zone b) :
    specWeekNumber zone a = specWeekNumber zone b := by
  unfold SameWeek at hw
  rw [getWeekStart_time, getWeekStart_time] at hw
  unfold specWeekNumber
  simp only []
  rw [hy]
  have hj : (newDate zone (getFullYear zone b) 0 1).time
      = MakeDay (if 0 ≤ getFullYear zone b ∧ getFullYear zone b ≤ 99
          then 1900 + getFullYear zone b else getFullYear zone b) 0 1 * msPerDay - zone := rfl
  generalize MakeDay (if 0 ≤ getFullYear zone b ∧ getFullYear zone b ≤ 99
    then 1900 + getFullYear zone b else getFullYear zone b) 0 1 = j at hj
  generalize newDate zone (getFullYear zone b) 0 1 = oneJan at hj ⊢
  unfold getDay WeekDay Day LocalTime msPerDay ceilDiv at *
  simp only [] at hw ⊢
  omega

/-- C16 at the failing input: for Monday 2024-01-08 at 10:00 and at 15:00 the week
starts are Sunday 2024-01-07 at 10:00 and at 15:00: not at midnight, and not equal. -/
theorem getWeekStart_keeps_time_of_day :
    SameWeek 0 jan8Morning jan8Afternoon ∧
    (getWeekStart 0 jan8Morning).time = 1704621600000 ∧
    TimeWithinDay (LocalTime 0 (getWeekStart 0 jan8Morning).time) = 36000000 ∧
    (getWeekStart 0 jan8Afternoon).time = 1704639600000 ∧
    getWeekStart 0 jan8Morning ≠ getWeekStart 0 jan8Afternoon := by
  decide

/-- What `getWeekStart` does with the time of day: it keeps it.  The week start is at
local midnight exactly when the date is, and two dates of one week have equal week
starts exactly when they have the same time of day. -/
theorem getWeekStart_time_of_day (zone : Int) (a b : Date) :
    TimeWithinDay (LocalTime zone (getWeekStart zone a).time)
      = TimeWithinDay (LocalTime zone a.time) ∧
    (SameWeek zone a b →
      (getWeekStart zone a = getWeekStart zone b ↔
        TimeWithinDay (LocalTime zone a.time) = TimeWithinDay (LocalTime zone b.time))) := by
  constructor
  · rw [getWeekStart_time]
    unfold TimeWithinDay LocalTime msPerDay
    simp only []
    omega
  · intro hw
    unfold SameWeek at hw
    rw [getWeekStart_time, getWeekStart_time] at hw ⊢
    rw [Date.mk.injEq]
    unfold TimeWithinDay getDay WeekDay Day LocalTime msPerDay at *
    simp only [] at hw ⊢
    omega

/-! ## The format of the weekId -/

theorem toDigitsCore_fixed (w : Nat) : ∀ (fuel n : Nat) (ds : List Char),
    10 ^ w ≤ n → n < 10 ^ (w + 1) → w + 1 ≤ fuel →
    Nat.toDigitsCore 10 fuel n ds = fixedDigits (w + 1) n ++ ds := by
  induction w with
  | zero =>
    intro fuel n ds _ h2 hf
    obtain ⟨f, rfl⟩ : ∃ f, fuel = f + 1 := ⟨fuel - 1, by omega⟩
    have h0 : n / 10 = 0 := by omega
    simp [Nat.toDigitsCore, h0, fixedDigits]
  | succ w ih =>
    intro fuel n ds h1 h2 hf
    obtain ⟨f, rfl⟩ : ∃ f, fuel = f + 1 := ⟨fuel - 1, by omega⟩
    have hlo : 10 ^ w ≤ n / 10 := by
      rw [Nat.le_div_iff_mul_le (by norm_num)]
      rw [pow_succ] at h1
      exact h1
    have hhi : n / 10 < 10 ^ (w + 1) := by
      rw [Nat.div_lt_iff_lt_mul (by norm_num)]
      rw [pow_succ] at h2
      exact h2
    have hne : n / 10 ≠ 0 := by
      have : 0 < 10 ^ w := pow_pos (by norm_num) w
      omega
    rw [Nat.toDigitsCore]
    simp only [hne, if_false]
    rw [ih f (n / 10) _ hlo hhi (by omega)]
    simp [fixedDigits]

theorem repr_fixed (w n : Nat) (h1 : 10 ^ w ≤ n) (h2 : n < 10 ^ (w + 1)) :
    Nat.repr n = String.mk (fixedDigits (w + 1) n) := by
  have hw : w + 1 ≤ n + 1 := by
    have : w < 10 ^ w := Nat.lt_pow_self (by norm_num) w
    omega
  unfold Nat.repr Nat.toDigits
  rw [toDigitsCore_fixed w (n + 1) n [] h1 h2 hw]
  simp [List.asString]

theorem utf16_append (a b : List Char) : utf16 (a ++ b) = utf16 a ++ utf16 b := by
  induction a with
  | nil => rfl
  | cons c cs ih =>
    have hc : (c :: cs) ++ b = c :: (cs ++ b) := rfl
    have step : ∀ (x : Char) (xs : List Char), utf16 (x :: xs)
        = if x.toNat < 0x10000 then x.toNat :: utf16 xs
          else (0xD800 + (x.toNat - 0x10000) / 0x400) ::
            (0xDC00 + (x.toNat - 0x10000) % 0x400) :: utf16 xs := fun _ _ => rfl
    rw [hc, step, step, ih]
    split <;> rfl

theorem utf16_fixedDigits_length (k n : Nat) : (utf16 (fixedDigits k n)).length = k := by
  induction k generalizing n with
  | zero => rfl
  | succ k ih =>
    simp only [fixedDigits, utf16_append, List.length_append, ih,
      utf16_digit _ (Nat.mod_lt n (by norm_num : 10 > 0))]
    rfl

theorem padStart_week (w : Nat) (h1 : 1 ≤ w) (h2 : w ≤ 54) :
    padStart 2 '0' (Nat.repr w) = String.mk (fixedDigits 2 w) := by
  by_cases h : w < 10
  · rw [repr_fixed 0 w (by simpa using h1) (by simpa using h)]
    have h0 : w / 10 % 10 = 0 := by omega
    unfold padStart
    simp only [utf16_fixedDigits_length]
    simp [fixedDigits, h0]
    rfl
  · rw [repr_fixed 1 w (by simpa using h) (by norm_num; omega)]
    unfold padStart
    simp only [utf16_fixedDigits_length]
    simp

theorem newDate_jan1 (zone y : Int) (h : ¬ (0 ≤ y ∧ y ≤ 99)) :
    (newDate zone y 0 1).time = DayFromYear y * msPerDay - zone := by
  unfold newDate UTC MakeDay
  simp only [if_neg h]
  norm_num [monthStart]

theorem generatedWeekNumber_bounds (zone : Int) (d : Date)
    (h : ¬ (0 ≤ getFullYear zone d ∧ getFullYear zone d ≤ 99)) :
    1 ≤ generatedWeekNumber zone d ∧ generatedWeekNumber zone d ≤ 54 := by
  have hs := yearFromDay_spec (Day (LocalTime zone d.time))
  have hy := daysInYear (YearFromDay (Day (LocalTime zone d.time)))
  have hg := getDay_bounds zone d
  unfold generatedWeekNumber
  simp only []
  rw [newDate_jan1 zone _ h]
  unfold getFullYear
  generalize DayFromYear (YearFromDay (Day (LocalTime zone d.time)) + 1) = e at *
  generalize DayFromYear (YearFromDay (Day (LocalTime zone d.time))) = j at *
  generalize getDay zone d = g at *
  unfold ceilDiv Day LocalTime msPerDay at *
  omega

/-- C13. For a date whose local year has four digits, `generateWeekId` is the four-digit
year, a hyphen and the week number on two digits, seven characters in all, the week
number lying between 1 and 54. -/
theorem generateWeekId_format (zone : Int) (d : Date) (h0 : 1000 ≤ getFullYear zone d)
    (h1 : getFullYear zone d ≤ 9999) :
    1 ≤ generatedWeekNumber zone d ∧ generatedWeekNumber zone d ≤ 54 ∧
    generateWeekId zone d
      = String.mk (fixedDigits 4 (getFullYear zone d).toNat ++ '-' ::
          fixedDigits 2 (generatedWeekNumber zone d).toNat) ∧
    (generateWeekId zone d).length = 7 := by
  have hb := generatedWeekNumber_bounds zone d (by omega)
  have hid : generateWeekId zone d
      = String.mk (fixedDigits 4 (getFullYear zone d).toNat ++ '-' ::
          fixedDigits 2 (generatedWeekNumber zone d).toNat) := by
    have hw : generateWeekId zone d
        = numberToString (getFullYear zone d) ++ "-"
            ++ padStart 2 '0' (numberToString (generatedWeekNumber zone d)) := rfl
    rw [hw]
    unfold numberToString
    rw [if_neg (by omega), if_neg (by omega),
      repr_fixed 3 _ (by norm_num; omega) (by norm_num; omega),
      padStart_week _ (by omega) (by omega)]
    rfl
  refine ⟨hb.1, hb.2, hid, ?_⟩
  rw [hid]
  simp [String.length, fixedDigits]

/-- C13 on Monday 2024-01-01, and on Saturday 2016-12-31, which is in week 54. -/
theorem generateWeekId_format_witness :
    1000 ≤ getFullYear 0 jan1 ∧ getFullYear 0 jan1 ≤ 9999 ∧ getDay 0 jan1 = 1 ∧
    generateWeekId 0 jan1 = "2024-01" ∧ (generateWeekId 0 jan1).length = 7 ∧
    generateWeekId 0 dec31of2016 = "2016-54" :=
  ⟨by decide, by decide, by decide, by decide,
    (generateWeekId_format 0 jan1 (by decide) (by decide)).2.2.2, by decide⟩

/-! ## Date keys round-trip -/

theorem digit_digitChar (k : Nat) (h : k < 10) : digit? (Nat.digitChar k) = some (k : Int) := by
  interval_cases k <;> rfl

/-- Reading a well-formed date string gives the day that `MakeDay` computes. -/
theorem parseDate_ymd (y m d : Nat) (hy : y ≤ 9999) (hm1 : 1 ≤ m) (hm2 : m ≤ 12)
    (hd1 : 1 ≤ d) (hd2 : d ≤ 31) :
    parseDate (ymdString y m d) = some ⟨MakeDay y ((m : Int) - 1) d * msPerDay⟩ := by
  have e1 : (1000 : Int) * ((y / 10 / 10 / 10 % 10 : Nat) : Int)
      + 100 * ((y / 10 / 10 % 10 : Nat) : Int) + 10 * ((y / 10 % 10 : Nat) : Int)
      + ((y % 10 : Nat) : Int) = (y : Int) := by omega
  have e2 : (10 : Int) * ((m / 10 % 10 : Nat) : Int) + ((m % 10 : Nat) : Int) = (m : Int) := by
    omega
  have e3 : (10 : Int) * ((d / 10 % 10 : Nat) : Int) + ((d % 10 : Nat) : Int) = (d : Int) := by
    omega
  simp only [parseDate, ymdString, fixedDigits, List.nil_append, List.cons_append,
    List.append_nil, digit_digitChar _ (Nat.mod_lt _ (by norm_num : 10 > 0)), e1, e2, e3]
  rw [if_pos ⟨trivial, trivial, by omega, by omega, by omega, by omega⟩]

theorem day_mul (x : Int) : Day (x * msPerDay) = x := by
  unfold Day msPerDay
  omega

theorem monthStart_bounds (m d l : Int) (hm1 : 1 ≤ m) (hm2 : m ≤ 12) (hd1 : 1 ≤ d)
    (hl : l = 0 ∨ l = 1)
    (hd2 : d ≤ (if m = 2 then 28 + l else if m = 4 ∨ m = 6 ∨ m = 9 ∨ m = 11 then 30 else 31)) :
    0 ≤ monthStart (m - 1) l + d - 1 ∧ monthStart (m - 1) l + d - 1 < 365 + l ∧
    monthOfYearDay (monthStart (m - 1) l + d - 1) l = m - 1 ∧
    dateOfYearDay (monthStart (m - 1) l + d - 1) l = d := by
  have hcases : m = 1 ∨ m = 2 ∨ m = 3 ∨ m = 4 ∨ m = 5 ∨ m = 6 ∨ m = 7 ∨ m = 8 ∨ m = 9 ∨
      m = 10 ∨ m = 11 ∨ m = 12 := by omega
  have ht := month_date_table (monthStart (m - 1) l + d - 1) l
  rcases hcases with h | h | h | h | h | h | h | h | h | h | h | h <;>
    (subst h
     norm_num [monthStart] at hd2 ht ⊢
     omega)

theorem leapYear_cases (y : Int) : leapYear y = 0 ∨ leapYear y = 1 := by
  unfold leapYear
  split_ifs <;> simp

theorem dayFromYear_succ (y : Int) : DayFromYear (y + 1) = DayFromYear y + 365 + leapYear y := by
  have h := daysInYear y
  unfold leapYear
  split_ifs with hl <;> omega

/-- The day that `MakeDay` computes for a calendar date has that year, month and day. -/
theorem makeDay_calendar (y m d : Int) (hm1 : 1 ≤ m) (hm2 : m ≤ 12) (hd1 : 1 ≤ d)
    (hd2 : d ≤ daysInMonth y m) :
    YearFromDay (MakeDay y (m - 1) d) = y ∧ MonthFromDay (MakeDay y (m - 1) d) = m - 1 ∧
    DateFromDay (MakeDay y (m - 1) d) = d := by
  have hb := monthStart_bounds m d (leapYear y) hm1 hm2 hd1 (leapYear_cases y) hd2
  have h12 : (m - 1) / 12 = 0 := by omega
  have hmod : (m - 1) % 12 = m - 1 := by omega
  have hmk : MakeDay y (m - 1) d = DayFromYear y + (monthStart (m - 1) (leapYear y) + d - 1) := by
    unfold MakeDay
    simp only [h12, hmod, add_zero]
    ring
  have hs := dayFromYear_succ y
  have hyear : YearFromDay (MakeDay y (m - 1) d) = y := by
    apply yearFromDay_unique <;> omega
  have hdw : DayWithinYear (MakeDay y (m - 1) d) = monthStart (m - 1) (leapYear y) + d - 1 := by
    unfold DayWithinYear
    rw [hyear]
    omega
  have hl : InLeapYear (MakeDay y (m - 1) d) = leapYear y := by
    unfold InLeapYear leapYear
    rw [hyear]
  refine ⟨hyear, ?_, ?_⟩
  · unfold MonthFromDay
    rw [hdw, hl]
    exact hb.2.2.1
  · unfold DateFromDay
    rw [hdw, hl]
    exact hb.2.2.2

/-- Formatting the day that `MakeDay` computes for a calendar date gives the date string. -/
theorem formatDateString_ymd (y m d : Nat) (hy : y ≤ 9999) (hm1 : 1 ≤ m) (hm2 : m ≤ 12)
    (hd1 : 1 ≤ d) (hd2 : (d : Int) ≤ daysInMonth y m) :
    formatDateString ⟨MakeDay y ((m : Int) - 1) d * msPerDay⟩ = ymdString y m d := by
  obtain ⟨h1, h2, h3⟩ := makeDay_calendar y m d (by omega) (by omega) (by omega) hd2
  unfold formatDateString
  simp only [day_mul]
  have hdata := isoDate_data (MakeDay y ((m : Int) - 1) d) (by omega) (by omega)
  rw [h1, h2, h3] at hdata
  have e2 : ((m : Int) - 1 + 1).toNat = m := by omega
  simp only [Int.toNat_ofNat, e2] at hdata
  unfold ymdString
  rw [← hdata]

/-- C17. Date keys round-trip.  For a calendar date of a year 0000 .. 9999 written
YYYY-MM-DD, `parseDate` reads a date and `formatDateString` of it is the string again;
for a date `date` of such a year, `parseDate(formatDateString(date))` is the start of
the UTC day of `date`; and `formatDateString` is the same for two dates of one UTC day. -/
theorem dateKey_roundtrip (y m d : Nat) (date : Date) (hy : y ≤ 9999) (hm1 : 1 ≤ m)
    (hm2 : m ≤ 12) (hd1 : 1 ≤ d) (hd2 : (d : Int) ≤ daysInMonth y m)
    (hdate : FourDigitYear date) :
    (∃ t, parseDate (ymdString y m d) = some t ∧ formatDateString t = ymdString y m d) ∧
    parseDate (formatDateString date) = some ⟨Day date.time * msPerDay⟩ ∧
    (∀ other : Date, Day other.time = Day date.time →
      formatDateString other = formatDateString date) := by
  have hd31 : d ≤ 31 := by
    have hl := leapYear_cases y
    unfold daysInMonth at hd2
    split_ifs at hd2 <;> omega
  refine ⟨⟨_, parseDate_ymd y m d hy hm1 hm2 hd1 hd31,
    formatDateString_ymd y m d hy hm1 hm2 hd1 hd2⟩, ?_, ?_⟩
  · have hb := month_date_bounds (Day date.time)
    have hdata := isoDate_data (Day date.time) hdate.1 hdate.2
    have hs : formatDateString date
        = ymdString (YearFromDay (Day date.time)).toNat (MonthFromDay (Day date.time) + 1).toNat
            (DateFromDay (Day date.time)).toNat := by
      unfold formatDateString ymdString
      rw [← hdata]
    have hy' := hdate.1
    have hy'' := hdate.2
    rw [hs, parseDate_ymd _ _ _ (by omega) (by omega) (by omega) (by omega) (by omega)]
    have e1 : (((YearFromDay (Day date.time)).toNat : Nat) : Int) = YearFromDay (Day date.time) := by
      omega
    have e2 : (((MonthFromDay (Day date.time) + 1).toNat : Nat) : Int) - 1
        = MonthFromDay (Day date.time) := by omega
    have e3 : (((DateFromDay (Day date.time)).toNat : Nat) : Int)
        = DateFromDay (Day date.time) + 0 := by omega
    rw [e1, e2, e3, makeDay_of_day, add_zero]
  · intro other h
    unfold formatDateString
    rw [h]

/-- C17 on 2024-02-29 and on the instant 2024-01-01T18:00:00Z. -/
theorem dateKey_roundtrip_witness :
    ymdString 2024 2 29 = "2024-02-29" ∧ ((29 : Nat) : Int) ≤ daysInMonth 2024 2 ∧
    FourDigitYear jan1Evening ∧
    (parseDate "2024-02-29").map formatDateString = some "2024-02-29" ∧
    parseDate (formatDateString jan1Evening) = some jan1 ∧
    parseDate (formatDateString jan1Evening) = some ⟨Day jan1Evening.time * msPerDay⟩ :=
  ⟨by decide, by decide, by decide, by decide, by decide,
    (dateKey_roundtrip 2024 2 29 jan1Evening (by decide) (by decide) (by decide) (by decide)
      (by decide) (by decide)).2.1⟩

/-! ## The recipe normalizer -/

theorem jsTrim_empty : jsTrim "" = "" := by decide

theorem pushIngredient_eq (meal : MealData) (acc : List String) (i : Nat) :
    pushIngredient meal acc i = acc ++ (slotString meal i).toList := by
  unfold pushIngredient slotString
  cases hi : meal.strIngredient i with
  | none => simp
  | some ingredient =>
    simp only []
    by_cases ht : jsTrim ingredient = ""
    · simp [ht]
    · have hne : ingredient ≠ "" := by
        intro h
        rw [h] at ht
        exact ht jsTrim_empty
      cases hm : meal.strMeasure i with
      | none => simp [ht, hne]
      | some measure =>
        by_cases hmt : jsTrim measure = ""
        · simp [ht, hne, hmt]
        · have hmne : measure ≠ "" := by
            intro h
            rw [h] at hmt
            exact hmt jsTrim_empty
          simp [ht, hne, hmt, hmne]

theorem foldl_pushIngredient (meal : MealData) (l : List Nat) (acc : List String) :
    l.foldl (pushIngredient meal) acc = acc ++ l.filterMap (slotString meal) := by
  induction l generalizing acc with
  | nil => simp
  | cons i l ih =>
    rw [List.foldl_cons, ih, pushIngredient_eq]
    cases h : slotString meal i <;> simp [List.filterMap_cons, h]

theorem length_filterMap_isSome {α β : Type} (f : α → Option β) (l : List α) :
    (l.filterMap f).length = (l.filter (fun x => (f x).isSome)).length := by
  induction l with
  | nil => rfl
  | cons x l ih =>
    cases h : f x <;> simp [List.filterMap_cons, List.filter_cons, h, ih]

theorem filterMap_congr_mem {α β : Type} (f g : α → Option β) (l : List α)
    (h : ∀ x ∈ l, f x = g x) : l.filterMap f = l.filterMap g := by
  induction l with
  | nil => rfl
  | cons x l ih =>
    have hx := h x (List.mem_cons_self _ _)
    have hl := ih (fun y hy => h y (List.mem_cons_of_mem _ hy))
    simp [List.filterMap_cons, hx, hl]

/-- C18. The list `parseIngredients` returns is, in increasing index order, the string
of each slot 1 .. 20 whose ingredient is not blank after trimming: the trimmed measure,
a space and the trimmed ingredient when the measure is not blank, the trimmed ingredient
otherwise.  Blank slots are skipped, fields beyond index 20 are not read, the length is
the number of non-blank slots and at most 20, and the service's copy returns the same. -/
theorem parseIngredients_slots (meal : MealData) :
    parseIngredients meal = (List.range' 1 20).filterMap (slotString meal) ∧
    (∀ i, (slotString meal i).isSome
      ↔ ∃ s, meal.strIngredient i = some s ∧ jsTrim s ≠ "") ∧
    (parseIngredients meal).length
      = ((List.range' 1 20).filter (fun i => (slotString meal i).isSome)).length ∧
    (parseIngredients meal).length ≤ 20 ∧
    (∀ other : MealData,
      (∀ i, 1 ≤ i → i ≤ 20 → other.strIngredient i = meal.strIngredient i ∧
        other.strMeasure i = meal.strMeasure i) →
      parseIngredients other = parseIngredients meal) ∧
    serviceParseIngredients meal = parseIngredients meal := by
  have hp : ∀ m : MealData, parseIngredients m = (List.range' 1 20).filterMap (slotString m) := by
    intro m
    unfold parseIngredients
    rw [foldl_pushIngredient]
    rfl
  refine ⟨hp meal, ?_, ?_, ?_, ?_, ?_⟩
  · intro i
    unfold slotString
    cases hi : meal.strIngredient i with
    | none => simp
    | some ingredient =>
      by_cases ht : jsTrim ingredient = ""
      · simp [ht]
      · cases hm : meal.strMeasure i with
        | none => simp [ht]
        | some measure => by_cases hmt : jsTrim measure = "" <;> simp [ht, hmt]
  · rw [hp, length_filterMap_isSome]
  · rw [hp]
    exact (List.length_filterMap_le _ _).trans (by simp)
  · intro other h
    rw [hp, hp]
    apply filterMap_congr_mem
    intro i hi
    rw [List.mem_range'_1] at hi
    obtain ⟨h1, h2⟩ := h i hi.1 (by omega)
    unfold slotString
    rw [h1, h2]
  · rfl

/-- C18, scenario 1: ingredients at indices 1, 2 and 5 only (3 and 4 blank, 21 filled)
give exactly 3 strings, in index order. -/
theorem parseIngredients_scenario1 :
    parseIngredients scenario1Meal = ["3/4 cup soy sauce", "rice", "2 lb chicken"] ∧
    (parseIngredients scenario1Meal).length = 3 ∧
    serviceParseIngredients scenario1Meal = ["3/4 cup soy sauce", "rice", "2 lb chicken"] := by
  decide

theorem foldl_diet (tokens seen : List String) :
    tokens.foldl (fun diet tag =>
      if dietAllowList.contains tag then
        if !diet.contains tag then diet ++ [tag] else diet
      else diet) seen
    = seen ++ keepNew seen (tokens.filter (fun t => decide (t ∈ dietAllowList))) := by
  induction tokens generalizing seen with
  | nil => simp [keepNew]
  | cons t ts ih =>
    rw [List.foldl_cons, ih]
    by_cases ha : t ∈ dietAllowList
    · by_cases hs : t ∈ seen
      · simp [ha, hs, List.filter_cons, keepNew]
      · simp [ha, hs, List.filter_cons, keepNew]
    · simp [ha, List.filter_cons]

theorem keepNew_nodup (xs : List String) : ∀ seen : List String, seen.Nodup →
    (seen ++ keepNew seen xs).Nodup := by
  induction xs with
  | nil => intro seen h; simpa [keepNew] using h
  | cons x xs ih =>
    intro seen h
    unfold keepNew
    by_cases hx : x ∈ seen
    · rw [if_pos hx]
      exact ih seen h
    · rw [if_neg hx]
      have h2 : (seen ++ [x]).Nodup :=
        List.Nodup.append h (List.nodup_singleton x) (by simpa using hx)
      have := ih (seen ++ [x]) h2
      simpa [List.append_assoc] using this

theorem keepNew_subset (xs : List String) : ∀ (seen : List String) (y : String),
    y ∈ keepNew seen xs → y ∈ xs := by
  induction xs with
  | nil => intro seen y h; simp [keepNew] at h
  | cons x xs ih =>
    intro seen y h
    unfold keepNew at h
    by_cases hx : x ∈ seen
    · rw [if_pos hx] at h
      exact List.mem_cons_of_mem _ (ih seen y h)
    · rw [if_neg hx] at h
      rcases List.mem_cons.1 h with h | h
      · rw [h]; exact List.mem_cons_self _ _
      · exact List.mem_cons_of_mem _ (ih _ y h)

/-- C19. The diet list of `createFromTheMealDB` is the category when it is exactly
"Vegetarian" or exactly "Vegan", followed in order by each trimmed comma-separated token
of the tags field that is in the allow-list and not yet in the list; it has no
duplicates and only allow-listed values. -/
theorem createFromTheMealDB_diet_tokens (mealData : MealData) :
    createFromTheMealDB_diet mealData
      = categoryDiet mealData.strCategory
        ++ keepNew (categoryDiet mealData.strCategory)
            ((payloadTags mealData).filter (fun t => decide (t ∈ dietAllowList))) ∧
    (createFromTheMealDB_diet mealData).Nodup ∧
    (∀ x ∈ createFromTheMealDB_diet mealData, x ∈ dietAllowList) := by
  have hcat : (if mealData.strCategory = some "Vegan" then
      (if mealData.strCategory = some "Vegetarian" then ([] : List String) ++ ["Vegetarian"]
        else []) ++ ["Vegan"]
      else (if mealData.strCategory = some "Vegetarian" then ([] : List String) ++ ["Vegetarian"]
        else [])) = categoryDiet mealData.strCategory := by
    unfold categoryDiet
    by_cases h1 : mealData.strCategory = some "Vegetarian"
    · have h2 : ¬ mealData.strCategory = some "Vegan" := by rw [h1]; decide
      simp [h1]
    · by_cases h2 : mealData.strCategory = some "Vegan" <;> simp [h1, h2]
  have heq : createFromTheMealDB_diet mealData
      = categoryDiet mealData.strCategory
        ++ keepNew (categoryDiet mealData.strCategory)
            ((payloadTags mealData).filter (fun t => decide (t ∈ dietAllowList))) := by
    unfold createFromTheMealDB_diet payloadTags
    simp only [hcat]
    cases ht : mealData.strTags with
    | none => simp [keepNew]
    | some strTags =>
      by_cases he : strTags = ""
      · simp [he, keepNew]
      · simp only [he, bne_iff_ne, ne_eq, not_false_eq_true, if_true, if_false]
        exact foldl_diet _ _
  have hcn : (categoryDiet mealData.strCategory).Nodup := by
    unfold categoryDiet
    split_ifs <;> simp
  have hca : ∀ x ∈ categoryDiet mealData.strCategory, x ∈ dietAllowList := by
    intro x hx
    unfold categoryDiet at hx
    split_ifs at hx <;> simp at hx <;> subst hx <;> decide
  refine ⟨heq, ?_, ?_⟩
  · rw [heq]
    exact keepNew_nodup _ _ hcn
  · intro x hx
    rw [heq, List.mem_append] at hx
    rcases hx with hx | hx
    · exact hca x hx
    · have := keepNew_subset _ _ x hx
      simpa using (List.mem_filter.1 this).2

/-- C19 on a payload of category "Vegan" with tags "Meat, Keto,Vegan ,Keto,Spicy". -/
theorem createFromTheMealDB_diet_scenario :
    createFromTheMealDB_diet { scenario1Meal with strCategory := some "Vegan" }
      = ["Vegan", "Keto"] ∧
    createFromTheMealDB_diet scenario1Meal = ["Keto", "Vegan"] := by
  decide

/-- C20. The estimate is the base (300, 15, 10, 30) plus the category delta of the table
plus (80, 5, 6, 0) when the lower-cased space-joined ingredient text contains "cheese",
plus (100, 0, 11, 0) when it contains "oil" or "butter", plus (150, 0, 0, 30) when it
contains "rice" or "pasta"; the service's copy computes the same. -/
theorem estimateNutrition_table (rt : JsRuntime) (ingredients : List String)
    (category : Option String) :
    estimateNutrition rt ingredients category
      = (((baseNutrition.add (categoryDelta category)).add
          (keywordDelta (jsIncludes (rt.toLowerCase (jsJoin " " ingredients)) "cheese")
            ⟨80, 5, 6, 0⟩)).add
          (keywordDelta (jsIncludes (rt.toLowerCase (jsJoin " " ingredients)) "oil"
              || jsIncludes (rt.toLowerCase (jsJoin " " ingredients)) "butter")
            ⟨100, 0, 11, 0⟩)).add
          (keywordDelta (jsIncludes (rt.toLowerCase (jsJoin " " ingredients)) "rice"
              || jsIncludes (rt.toLowerCase (jsJoin " " ingredients)) "pasta")
            ⟨150, 0, 0, 30⟩) ∧
    serviceEstimateNutrition rt ingredients category
      = estimateNutrition rt ingredients category := by
  refine ⟨?_, rfl⟩
  unfold estimateNutrition
  dsimp only []
  generalize jsIncludes (rt.toLowerCase (jsJoin " " ingredients)) "cheese" = c1
  generalize jsIncludes (rt.toLowerCase (jsJoin " " ingredients)) "oil" = c2
  generalize jsIncludes (rt.toLowerCase (jsJoin " " ingredients)) "butter" = c3
  generalize jsIncludes (rt.toLowerCase (jsJoin " " ingredients)) "rice" = c4
  generalize jsIncludes (rt.toLowerCase (jsJoin " " ingredients)) "pasta" = c5
  have hcat : (if category = some "Chicken" then increase ⟨300, 15, 10, 30⟩ 150 20 5 0
      else if category = some "Beef" then increase ⟨300, 15, 10, 30⟩ 200 25 10 0
      else if category = some "Seafood" then increase ⟨300, 15, 10, 30⟩ 100 25 3 0
      else if category = some "Vegetarian" ∨ category = some "Vegan" then
        increase ⟨300, 15, 10, 30⟩ 50 5 0 20
      else if category = some "Dessert" then increase ⟨300, 15, 10, 30⟩ 250 0 15 40
      else if category = some "Pasta" then increase ⟨300, 15, 10, 30⟩ 200 0 0 50
      else ⟨300, 15, 10, 30⟩) = baseNutrition.add (categoryDelta category) := by
    unfold categoryDelta
    split_ifs <;> rfl
  simp only [hcat]
  generalize baseNutrition.add (categoryDelta category) = b
  cases c1 <;> cases c2 <;> cases c3 <;> cases c4 <;> cases c5 <;>
    simp [keywordDelta, NutritionTotals.add, increase, mathRound]

/-- C20 on concrete inputs: all three keyword adjustments add up on a Vegan dish, and a
category outside the table adds nothing. -/
theorem estimateNutrition_scenario :
    estimateNutrition asciiRuntime ["Olive Oil", "Cheddar CHEESE", "butter", "pasta"]
      (some "Vegan") = ⟨680, 25, 27, 80⟩ ∧
    estimateNutrition asciiRuntime ["2 lb chicken"] (some "Lamb") = ⟨300, 15, 10, 30⟩ ∧
    estimateNutrition asciiRuntime (parseIngredients scenario1Meal) scenario1Meal.strCategory
      = ⟨600, 35, 15, 60⟩ := by
  decide

/-! ## Validation happens at `save` -/

/-- C21, as the code behaves: `addMeal` with the meal type "Brunch" and -2 servings on
the fresh plan stores the entry and sets `totalCalories` to -800. -/
theorem addMeal_accepts_invalid_entry :
    "Brunch" ∉ mealTypeEnum ∧ emptyPlan.meals = [] ∧ emptyPlan.totalCalories = 0 ∧
    ((addMeal emptyPlan jan1 "Brunch" tacos (-2) "").meals.map
      (fun m => (m.mealType, m.servings))) = [("Brunch", -2)] ∧
    (addMeal emptyPlan jan1 "Brunch" tacos (-2) "").totalCalories = -800 := by
  decide

theorem validationErrors_of_entry (p : MealPlan) (m : MealEntry) (hm : m ∈ p.meals)
    (h : entryErrors m ≠ []) : validationErrors p ≠ [] := by
  unfold validationErrors
  intro hnil
  rw [List.append_eq_nil, List.append_eq_nil] at hnil
  have hall := List.flatten_eq_nil_iff.1 hnil.1.1
  exact h (hall _ (List.mem_map_of_mem _ hm))

/-- C21, amended. `addMeal` does not validate: with a meal type outside the enumeration
or with negative servings the plan in memory holds the new entry all the same.  The
validators of the schema reject it when the plan is saved: `addMeal` followed by `save`
reports an error and the stored plan is the one that was loaded. -/
theorem invalid_meal_rejected_at_save (p : MealPlan) (d : Date) (t : String) (r : Recipe)
    (s : Int) (n : String) (h : t ∉ mealTypeEnum ∨ s < 0) :
    (∃ m ∈ (addMeal p d t r s n).meals, m.mealType = t ∧ m.servings = s) ∧
    (∃ e, e ≠ [] ∧ addMealAndSave p d t r s n = (Except.error e, p)) := by
  have hmem : ∃ m ∈ (addMeal p d t r s n).meals, m.mealType = t ∧ m.servings = s := by
    simp only [addMeal, updateTotals_meals]
    exact ⟨_, List.mem_append_right _ (List.mem_singleton_self _), rfl, rfl⟩
  refine ⟨hmem, ?_⟩
  obtain ⟨m, hm, ht, hs⟩ := hmem
  have herr : entryErrors m ≠ [] := by
    unfold entryErrors
    rw [ht, hs]
    rcases h with h | h
    · simp [h]
    · have h1 : s < 1 := by omega
      simp [h1]
  have hv := validationErrors_of_entry _ m hm herr
  refine ⟨validationErrors (addMeal p d t r s n), hv, ?_⟩
  unfold addMealAndSave save
  simp only [if_neg hv]

/-- C21, amended, on the fresh plan with the meal type "Brunch". -/
theorem invalid_meal_rejected_at_save_witness :
    ("Brunch" ∉ mealTypeEnum ∨ (1 : Int) < 0) ∧
    (∃ e, e ≠ [] ∧ addMealAndSave emptyPlan jan1 "Brunch" tacos 1 "" = (Except.error e, emptyPlan)) :=
  ⟨Or.inl (by decide),
   (invalid_meal_rejected_at_save emptyPlan jan1 "Brunch" tacos 1 "" (Or.inl (by decide))).2⟩

/-! ## The week of a plan and the dates of its entries -/

/-- C22, as the code behaves: a plan created for the week of Sunday 2023-12-31 accepts a
meal on Monday 2024-01-08, whose date key is none of the seven keys of the week. -/
theorem addMeal_outside_week :
    (findOrCreateWeekPlan 0 [] "user-1" ⟨1703980800000⟩).1 = emptyPlan ∧
    weekKeys emptyPlan.weekStartDate
      = ["2023-12-31", "2024-01-01", "2024-01-02", "2024-01-03", "2024-01-04", "2024-01-05",
         "2024-01-06"] ∧
    dateKey emptyPlan.weekEndDate = "2024-01-06" ∧
    ((runOps (findOrCreateWeekPlan 0 [] "user-1" ⟨1703980800000⟩).1
        [Op.add jan8 "Dinner" tacos 1 ""]).meals.map (fun m => m.dateString))
      = ["2024-01-08"] ∧
    "2024-01-08" ∉ weekKeys emptyPlan.weekStartDate := by
  decide

theorem mem_weekKeys (w d : Date) (i : Int) (h0 : 0 ≤ i) (h6 : i ≤ 6)
    (h : Day d.time = Day w.time + i) : dateKey d ∈ weekKeys w := by
  unfold weekKeys
  have hr : i.toNat ∈ List.range 7 := List.mem_range.2 (by omega)
  refine List.mem_map.2 ⟨i.toNat, hr, ?_⟩
  symm
  unfold dateKey
  congr 1
  rw [h]
  have hi : ((i.toNat : Nat) : Int) = i := Int.toNat_of_nonneg h0
  rw [hi]
  unfold Day msPerDay
  simp only []
  omega

theorem runOps_dateString_mem (keys : List String) (p : MealPlan) (ops : List Op)
    (hp : ∀ m ∈ p.meals, m.dateString ∈ keys)
    (hops : ∀ d t r s n, Op.add d t r s n ∈ ops → dateKey d ∈ keys) :
    ∀ m ∈ (runOps p ops).meals, m.dateString ∈ keys := by
  induction ops using List.reverseRecOn with
  | nil => simpa [runOps] using hp
  | append_singleton ops op ih =>
    have ih2 := ih (fun d t r s n hmem => hops d t r s n (List.mem_append_left _ hmem))
    rw [runOps_append]
    intro m hmem
    cases op with
    | add d t r sv n =>
      simp only [Op.apply, addMeal, updateTotals_meals, List.mem_append, List.mem_singleton]
        at hmem
      rcases hmem with hmem | hmem
      · exact ih2 m (List.mem_filter.1 hmem).1
      · subst hmem
        exact hops d t r sv n (List.mem_append_right _ (List.mem_singleton_self _))
    | remove d t =>
      simp only [Op.apply, removeMeal, updateTotals_meals] at hmem
      exact ih2 m (List.mem_filter.1 hmem).1

/-- C22, amended. `addMeal` does not compare the date with the week of the plan.  For a
plan created by `findOrCreateWeekPlan`, `weekEndDate` is six days after `weekStartDate`,
and after a sequence of calls in which every date passed to `addMeal` falls (by its UTC
day) on one of the seven days starting at `weekStartDate`, every entry's `dateString` is
one of the seven date keys of the week. -/
theorem entries_within_week (zone : Int) (store : List MealPlan) (userId : String)
    (w : Date) (ops : List Op)
    (hnew : findOne store userId (generateWeekId zone w) = none)
    (hops : ∀ d t r s n, Op.add d t r s n ∈ ops →
      ∃ i : Int, 0 ≤ i ∧ i ≤ 6 ∧ Day d.time = Day w.time + i) :
    (findOrCreateWeekPlan zone store userId w).1.weekStartDate = w ∧
    (findOrCreateWeekPlan zone store userId w).1.weekEndDate = ⟨w.time + 6 * msPerDay⟩ ∧
    ∀ m ∈ (runOps (findOrCreateWeekPlan zone store userId w).1 ops).meals,
      m.dateString ∈ weekKeys w := by
  have hplan : (findOrCreateWeekPlan zone store userId w).1
      = newPlan userId w (setDate zone w (getDate zone w + 6)) (generateWeekId zone w) := by
    unfold findOrCreateWeekPlan
    simp only [hnew]
  rw [hplan]
  refine ⟨rfl, ?_, ?_⟩
  · simp only [newPlan]
    rw [setDate_add]
  · apply runOps_dateString_mem
    · intro m hm
      simp [newPlan] at hm
    · intro d t r s n hmem
      obtain ⟨i, h0, h6, hi⟩ := hops d t r s n hmem
      exact mem_weekKeys w d i h0 h6 hi

/-- C22, amended, on the fresh plan of the week of 2023-12-31 and the calls of scenario 2
(dinners on 2024-01-01 and 2024-01-02). -/
theorem entries_within_week_witness :
    findOne [] "user-1" (generateWeekId 0 ⟨1703980800000⟩) = none ∧
    ∀ m ∈ (runOps (findOrCreateWeekPlan 0 [] "user-1" ⟨1703980800000⟩).1 scenario2).meals,
      m.dateString ∈ weekKeys ⟨1703980800000⟩ :=
  ⟨rfl, (entries_within_week 0 [] "user-1" ⟨1703980800000⟩ scenario2 rfl (by
    intro d t r s n hmem
    simp only [scenario2, List.mem_cons, List.mem_singleton, Op.add.injEq, List.mem_nil_iff,
      or_false] at hmem
    rcases hmem with ⟨rfl, _⟩ | ⟨rfl, _⟩
    · exact ⟨1, by decide, by decide, by decide⟩
    · exact ⟨2, by decide, by decide, by decide⟩)).2.2⟩

/-! ## The merge of structured ingredients -/

theorem keepNew_snoc (xs : List String) (y : String) : ∀ seen : List String,
    keepNew seen (xs ++ [y])
      = keepNew seen xs ++ (if y ∈ seen ∨ y ∈ xs then [] else [y]) := by
  induction xs with
  | nil =>
    intro seen
    by_cases h : y ∈ seen
    · simp [keepNew, h]
    · simp [keepNew, h]
  | cons x xs ih =>
    intro seen
    rw [List.cons_append]
    unfold keepNew
    by_cases hx : x ∈ seen
    · rw [if_pos hx, if_pos hx, ih]
      by_cases hy : y ∈ seen
      · simp [hy]
      · by_cases hyx : y = x
        · subst hyx
          exact absurd hx hy
        · simp [hy, hyx]
    · rw [if_neg hx, if_neg hx, ih]
      by_cases hyx : y = x
      · subst hyx
        simp
      · simp [hyx]

theorem keepNew_complete (xs : List String) : ∀ (seen : List String) (y : String),
    y ∈ xs → y ∈ seen ∨ y ∈ keepNew seen xs := by
  induction xs with
  | nil => intro seen y h; simp at h
  | cons x xs ih =>
    intro seen y h
    unfold keepNew
    by_cases hx : x ∈ seen
    · rw [if_pos hx]
      rcases List.mem_cons.1 h with h | h
      · subst h; exact Or.inl hx
      · exact ih seen y h
    · rw [if_neg hx]
      rcases List.mem_cons.1 h with h | h
      · subst h; exact Or.inr (List.mem_cons_self _ _)
      · rcases ih (seen ++ [x]) y h with h2 | h2
        · rcases List.mem_append.1 h2 with h3 | h3
          · exact Or.inl h3
          · rw [List.mem_singleton] at h3
            subst h3
            exact Or.inr (List.mem_cons_self _ _)
        · exact Or.inr (List.mem_cons_of_mem _ h2)

theorem jsJoin_snoc (sep a : String) (xs : List String) (h : xs ≠ []) :
    jsJoin sep (xs ++ [a]) = jsJoin sep xs ++ sep ++ a := by
  induction xs with
  | nil => exact absurd rfl h
  | cons x xs ih =>
    cases xs with
    | nil => rfl
    | cons y ys =>
      have e1 : jsJoin sep ((x :: y :: ys) ++ [a]) = x ++ sep ++ jsJoin sep ((y :: ys) ++ [a]) := rfl
      have e2 : jsJoin sep (x :: y :: ys) = x ++ sep ++ jsJoin sep (y :: ys) := rfl
      rw [e1, e2, ih (by simp)]
      simp only [String.append_assoc]

theorem jsJoin_ne_empty (sep x : String) (xs : List String) (h : x ≠ "") :
    jsJoin sep (x :: xs) ≠ "" := by
  have hx : x.data ≠ [] := by
    intro hd
    apply h
    exact String.ext hd
  cases xs with
  | nil => exact h
  | cons y ys =>
    have e : jsJoin sep (x :: y :: ys) = x ++ sep ++ jsJoin sep (y :: ys) := rfl
    rw [e]
    intro hc
    have hd := congrArg String.data hc
    simp only [String.data_append] at hd
    have := List.append_eq_nil.1 hd
    exact hx (List.append_eq_nil.1 this.1).1

theorem get_some_mem (m : IngredientMap) (k : String) (v : GroceryItem)
    (h : IngredientMap.get m k = some v) : (k, v) ∈ m := by
  induction m with
  | nil => simp [IngredientMap.get] at h
  | cons kv rest ih =>
    rcases kv with ⟨k0, v0⟩
    unfold IngredientMap.get at h
    by_cases hk : k0 = k
    · rw [if_pos hk] at h
      cases h
      subst hk
      exact List.mem_cons_self _ _
    · rw [if_neg hk] at h
      exact List.mem_cons_of_mem _ (ih h)

theorem get_none_iff (m : IngredientMap) (k : String) :
    IngredientMap.get m k = none ↔ k ∉ m.map (fun kv => kv.1) := by
  induction m with
  | nil => simp [IngredientMap.get]
  | cons kv rest ih =>
    rcases kv with ⟨k0, v0⟩
    unfold IngredientMap.get
    by_cases hk : k0 = k
    · rw [if_pos hk]
      simp [hk]
    · rw [if_neg hk, ih]
      simp [Ne.symm hk]

theorem update_keys (m : IngredientMap) (k : String) (v : GroceryItem) :
    (IngredientMap.update m k v).map (fun kv => kv.1) = m.map (fun kv => kv.1) := by
  induction m with
  | nil => rfl
  | cons kv rest ih =>
    rcases kv with ⟨k0, v0⟩
    unfold IngredientMap.update
    by_cases hk : k0 = k
    · rw [if_pos hk]
      rfl
    · rw [if_neg hk, List.map_cons, List.map_cons, ih]

theorem mem_update (m : IngredientMap) (k : String) (v : GroceryItem)
    (hn : (m.map (fun kv => kv.1)).Nodup) :
    ∀ kv ∈ IngredientMap.update m k v, kv = (k, v) ∨ (kv ∈ m ∧ kv.1 ≠ k) := by
  induction m with
  | nil => intro kv h; simp [IngredientMap.update] at h
  | cons e rest ih =>
    rcases e with ⟨k0, v0⟩
    rw [List.map_cons, List.nodup_cons] at hn
    intro kv h
    unfold IngredientMap.update at h
    by_cases hk : k0 = k
    · rw [if_pos hk] at h
      rcases List.mem_cons.1 h with h | h
      · left
        rw [h, hk]
      · right
        refine ⟨List.mem_cons_of_mem _ h, ?_⟩
        intro hkv
        apply hn.1
        have hm := List.mem_map_of_mem (fun kv => kv.1) h
        simp only [hkv] at hm
        rw [hk]
        exact hm
    · rw [if_neg hk] at h
      rcases List.mem_cons.1 h with h | h
      · right
        rw [h]
        exact ⟨List.mem_cons_self _ _, hk⟩
      · rcases ih hn.2 kv h with h2 | h2
        · exact Or.inl h2
        · exact Or.inr ⟨List.mem_cons_of_mem _ h2.1, h2.2⟩

theorem unique_value (m : IngredientMap) (k : String) (v1 v2 : GroceryItem)
    (hn : (m.map (fun kv => kv.1)).Nodup) (h1 : (k, v1) ∈ m) (h2 : (k, v2) ∈ m) : v1 = v2 := by
  induction m with
  | nil => simp at h1
  | cons e rest ih =>
    rw [List.map_cons, List.nodup_cons] at hn
    rcases List.mem_cons.1 h1 with h1 | h1 <;> rcases List.mem_cons.1 h2 with h2 | h2
    · rw [← h1] at h2
      exact (Prod.mk.inj h2).2.symm
    · exfalso
      apply hn.1
      rw [← h1]
      exact List.mem_map_of_mem (fun kv => kv.1) h2
    · exfalso
      apply hn.1
      rw [← h2]
      exact List.mem_map_of_mem (fun kv => kv.1) h1
    · exact ih hn.2 h1 h2

theorem occurrences_snoc (rt : JsRuntime) (k : String) (items : List StructuredIngredient)
    (x : StructuredIngredient) :
    occurrences rt k (items ++ [x])
      = occurrences rt k items ++ (if groceryKey rt x.name = k then [x] else []) := by
  unfold occurrences
  rw [List.filter_append]
  by_cases h : groceryKey rt x.name = k
  · simp [h]
  · simp [h]

theorem mergedAmount_snoc (first x : StructuredIngredient) (rest : List StructuredIngredient) :
    mergedAmount (first :: (rest ++ [x]))
      = if truthy (mergedAmount (first :: rest)) && truthy x.amount then
          some ((mergedAmount (first :: rest)).getD "" ++ " + " ++ x.amount.getD "")
        else mergedAmount (first :: rest) := by
  simp only [mergedAmount]
  by_cases hf : truthy first.amount = true
  · rw [if_pos hf, if_pos hf]
    have hne : ((first :: rest).filter (fun x => truthy x.amount)).map
        (fun x => x.amount.getD "") ≠ [] := by
      simp [List.filter_cons, hf]
    have hfirst : first.amount.getD "" ≠ "" := by
      cases ha : first.amount with
      | none => rw [ha] at hf; simp [truthy] at hf
      | some a => rw [ha] at hf; simpa [truthy] using hf
    have htr : truthy (some (jsJoin " + " (((first :: rest).filter
        (fun x => truthy x.amount)).map (fun x => x.amount.getD "")))) = true := by
      have := jsJoin_ne_empty " + " (first.amount.getD "")
        (((rest).filter (fun x => truthy x.amount)).map (fun x => x.amount.getD "")) hfirst
      simp only [List.filter_cons, hf, if_true, List.map_cons]
      simpa [truthy] using this
    rw [htr]
    by_cases hx : truthy x.amount = true
    · rw [hx]
      simp only [Bool.and_self, if_true, Option.getD_some]
      rw [← jsJoin_snoc _ _ _ hne]
      congr 2
      rw [← List.cons_append, List.filter_append, List.map_append]
      simp [List.filter_cons, hx]
    · have hx2 : truthy x.amount = false := by simpa using hx
      rw [hx2]
      simp only [Bool.and_false, Bool.false_eq_true, if_false]
      congr 2
      rw [← List.cons_append, List.filter_append]
      simp [List.filter_cons, hx2]
  · rw [if_neg hf, if_neg hf]
    have hf2 : truthy first.amount = false := by simpa using hf
    simp [hf2]

theorem merge_invariant (rt : JsRuntime) (items : List StructuredIngredient) :
    (items.foldl (mergeIngredient rt) []).map (fun kv => kv.1)
      = keepNew [] (items.map (fun x => groceryKey rt x.name)) ∧
    ∀ kv ∈ items.foldl (mergeIngredient rt) [], ∃ first rest,
      occurrences rt kv.1 items = first :: rest ∧ kv.2.name = first.name ∧
      kv.2.unit = first.unit ∧ kv.2.amount = mergedAmount (first :: rest) := by
  induction items using List.reverseRecOn with
  | nil =>
    refine ⟨rfl, ?_⟩
    intro kv h
    simp at h
  | append_singleton items x ih =>
    obtain ⟨ih1, ih2⟩ := ih
    rw [List.foldl_append, List.foldl_cons, List.foldl_nil, List.map_append, List.map_cons,
      List.map_nil, keepNew_snoc]
    generalize items.foldl (mergeIngredient rt) [] = M at ih1 ih2
    have hnodup : (M.map (fun kv => kv.1)).Nodup := by
      rw [ih1]
      simpa using keepNew_nodup (items.map (fun x => groceryKey rt x.name)) [] List.nodup_nil
    have hkey : jsTrim (rt.toLowerCase x.name) = groceryKey rt x.name := rfl
    unfold mergeIngredient
    simp only [hkey]
    cases hget : IngredientMap.get M (groceryKey rt x.name) with
    | none =>
      have hnot := (get_none_iff M _).1 hget
      have hnk : groceryKey rt x.name ∉ items.map (fun x => groceryKey rt x.name) := by
        intro hmem
        rcases keepNew_complete _ [] _ hmem with h | h
        · simp at h
        · rw [← ih1] at h
          exact hnot h
      have hhas : IngredientMap.has M (groceryKey rt x.name) = false := by
        unfold IngredientMap.has
        rw [hget]
        rfl
      simp only [hhas, Bool.false_eq_true, if_false]
      refine ⟨?_, ?_⟩
      · rw [List.map_append, ih1]
        simp [hnk]
      · intro kv hkv
        rcases List.mem_append.1 hkv with hkv | hkv
        · obtain ⟨first, rest, h1, h2, h3, h4⟩ := ih2 kv hkv
          have hne : ¬ groceryKey rt x.name = kv.1 := by
            intro he
            apply hnot
            rw [he]
            exact List.mem_map_of_mem (fun kv => kv.1) hkv
          refine ⟨first, rest, ?_, h2, h3, h4⟩
          rw [occurrences_snoc, if_neg hne, List.append_nil, h1]
        · rw [List.mem_singleton] at hkv
          subst hkv
          have hocc : occurrences rt (groceryKey rt x.name) items = [] := by
            unfold occurrences
            rw [List.filter_eq_nil_iff]
            intro y hy
            simp only [decide_eq_true_eq]
            intro he
            apply hnk
            rw [← he]
            exact List.mem_map_of_mem (fun x => groceryKey rt x.name) hy
          refine ⟨x, [], ?_, rfl, rfl, ?_⟩
          · rw [occurrences_snoc, hocc]
            simp
          · simp only [mergedAmount]
            cases ha : x.amount with
            | none => simp [truthy]
            | some a =>
              by_cases hx : truthy (some a) = true
              · simp [hx, ha, List.filter_cons, jsJoin]
              · simp [hx]
    | some existing =>
      have hmem := get_some_mem M _ _ hget
      have hk : groceryKey rt x.name ∈ items.map (fun x => groceryKey rt x.name) := by
        have h1 : groceryKey rt x.name ∈ M.map (fun kv => kv.1) :=
          List.mem_map_of_mem (fun kv => kv.1) hmem
        rw [ih1] at h1
        exact keepNew_subset _ _ _ h1
      have hhas : IngredientMap.has M (groceryKey rt x.name) = true := by
        unfold IngredientMap.has
        rw [hget]
        rfl
      simp only [hhas, if_true, hk, or_true]
      rw [List.append_nil]
      obtain ⟨first, rest, h1, h2, h3, h4⟩ := ih2 _ hmem
      simp only [] at h1 h2 h3 h4
      have hsnoc := mergedAmount_snoc first x rest
      rw [← h4] at hsnoc
      by_cases hboth : (truthy existing.amount && truthy x.amount) = true
      · rw [if_pos hboth]
        rw [if_pos hboth] at hsnoc
        refine ⟨by rw [update_keys, ih1], ?_⟩
        intro kv hkv
        rcases mem_update M _ _ hnodup kv hkv with hkv | ⟨hkv, hne⟩
        · subst hkv
          refine ⟨first, rest ++ [x], ?_, h2, h3, ?_⟩
          · rw [occurrences_snoc, h1]
            simp
          · rw [hsnoc]
        · obtain ⟨f2, r2, g1, g2, g3, g4⟩ := ih2 kv hkv
          refine ⟨f2, r2, ?_, g2, g3, g4⟩
          rw [occurrences_snoc, if_neg (fun he => hne he.symm), List.append_nil, g1]
      · rw [if_neg hboth]
        rw [if_neg hboth] at hsnoc
        refine ⟨ih1, ?_⟩
        intro kv hkv
        by_cases hne : kv.1 = groceryKey rt x.name
        · have hkv2 : (groceryKey rt x.name, kv.2) ∈ M := by
            rw [← hne]
            exact hkv
          have hv := unique_value M _ _ _ hnodup hkv2 hmem
          refine ⟨first, rest ++ [x], ?_, ?_, ?_, ?_⟩
          · rw [hne, occurrences_snoc, h1]
            simp
          · rw [hv]; exact h2
          · rw [hv]; exact h3
          · rw [hv, hsnoc, h4]
        · obtain ⟨f2, r2, g1, g2, g3, g4⟩ := ih2 kv hkv
          refine ⟨f2, r2, ?_, g2, g3, g4⟩
          rw [occurrences_snoc, if_neg (fun he => hne he.symm), List.append_nil, g1]

/-- C23. The merge of `POST /generate-grocery-list` keeps one item per distinct key
`name.toLowerCase().trim()`, in order of first occurrence; the item carries the name and
the unit of the first occurrence; its amount is the first amount alone when that is
missing or empty, and otherwise the non-empty amounts of the occurrences joined by
" + " in order, which is all the amounts when every occurrence has one.  An item has the
fields name, amount, unit and category, and no count. -/
theorem mergeIngredients_spec (rt : JsRuntime) (items : List StructuredIngredient) :
    mergeIngredients rt items = (items.foldl (mergeIngredient rt) []).map (fun kv => kv.2) ∧
    (items.foldl (mergeIngredient rt) []).map (fun kv => kv.1)
      = keepNew [] (items.map (fun x => groceryKey rt x.name)) ∧
    (mergeIngredients rt items).length
      = (keepNew [] (items.map (fun x => groceryKey rt x.name))).length ∧
    ∀ kv ∈ items.foldl (mergeIngredient rt) [], ∃ first rest,
      occurrences rt kv.1 items = first :: rest ∧ kv.2.name = first.name ∧
      kv.2.unit = first.unit ∧ kv.2.amount = mergedAmount (first :: rest) ∧
      ((∀ y ∈ first :: rest, truthy y.amount = true) →
        kv.2.amount
          = some (jsJoin " + " ((first :: rest).map (fun y => y.amount.getD "")))) := by
  obtain ⟨h1, h2⟩ := merge_invariant rt items
  refine ⟨rfl, h1, ?_, ?_⟩
  · unfold mergeIngredients
    rw [List.length_map, ← h1, List.length_map]
  · intro kv hkv
    obtain ⟨first, rest, g1, g2, g3, g4⟩ := h2 kv hkv
    refine ⟨first, rest, g1, g2, g3, g4, ?_⟩
    intro hall
    rw [g4]
    simp only [mergedAmount]
    rw [if_pos (hall first (List.mem_cons_self _ _))]
    congr 3
    rw [List.filter_eq_self]
    exact hall

/-- C23 on the example "2 cups" then "1 cup": two ingredients named "Milk" and " milk "
with these amounts, and "Flour" between them, merge into "Milk" with the amount
"2 cups + 1 cup" and the unit of the first occurrence, followed by "Flour". -/
theorem mergeIngredients_example :
    mergeIngredients asciiRuntime milkAndFlour
      = [{ name := "Milk", amount := some "2 cups + 1 cup", unit := some "cup",
           category := "Dairy" },
         { name := "Flour", amount := some "500 g", unit := none, category := "Other" }] := by
  decide

/-! ## The read-only methods -/

theorem weekDates_loop (zone : Int) (w : Date) :
    ((List.range 7).foldl (fun (state : List Date × Date) _ =>
      (state.1 ++ [state.2], setDate zone state.2 (getDate zone state.2 + 1)))
      ([], w)).1
      = (List.range 7).map (fun (i : Nat) => (⟨w.time + (i : Int) * msPerDay⟩ : Date)) := by
  have hr : List.range 7 = [0, 1, 2, 3, 4, 5, 6] := by decide
  rw [hr]
  simp only [List.foldl_cons, List.foldl_nil, setDate_add, List.nil_append,
    List.cons_append, List.map_cons, List.map_nil]
  rcases w with ⟨w⟩
  unfold msPerDay
  simp
  omega

theorem read_write_same (h : Heap) (r : Nat) (o : HeapObject) (hr : r < h.length) :
    Heap.read (Heap.write h r o) r = some o := by
  unfold Heap.read Heap.write
  exact List.getElem?_set_self hr

theorem read_write_ne (h : Heap) (r s : Nat) (o : HeapObject) (hne : r ≠ s) :
    Heap.read (Heap.write h r o) s = Heap.read h s := by
  unfold Heap.read Heap.write
  exact List.getElem?_set_ne hne

theorem length_write (h : Heap) (r : Nat) (o : HeapObject) :
    (Heap.write h r o).length = h.length := by
  unfold Heap.write
  exact List.length_set _ _ _

theorem read_alloc_old (h : Heap) (o : HeapObject) (r : Nat) (hr : r < h.length) :
    Heap.read (Heap.alloc h o).1 r = Heap.read h r := by
  unfold Heap.read Heap.alloc
  exact List.getElem?_append_left hr

theorem read_alloc_new (h : Heap) (o : HeapObject) :
    Heap.read (Heap.alloc h o).1 h.length = some o := by
  unfold Heap.read Heap.alloc
  exact List.getElem?_concat_length h o

theorem length_alloc (h : Heap) (o : HeapObject) : (Heap.alloc h o).1.length = h.length + 1 := by
  unfold Heap.alloc
  simp

theorem read_lt (h : Heap) (r : Nat) (o : HeapObject) (hr : Heap.read h r = some o) :
    r < h.length := by
  unfold Heap.read at hr
  exact (List.getElem?_eq_some.1 hr).1

theorem write_write (h : Heap) (r : Nat) (a b : HeapObject) :
    Heap.write (Heap.write h r a) r b = Heap.write h r b := by
  unfold Heap.write
  exact List.set_set a b h r

theorem write_self (h : Heap) (r : Nat) (o : HeapObject) (hr : Heap.read h r = some o) :
    Heap.write h r o = h := by
  unfold Heap.write
  apply List.ext_getElem?
  intro n
  by_cases hn : r = n
  · subst hn
    rw [List.getElem?_set_self (read_lt h r o hr)]
    exact hr.symm
  · rw [List.getElem?_set_ne hn]

theorem extends_iff (h g : Heap) :
    Heap.Extends h g ↔ h.length ≤ g.length ∧ ∀ r, r < h.length → Heap.read g r = Heap.read h r := by
  unfold Heap.Extends Heap.read
  constructor
  · intro he
    have hlen : h.length ≤ g.length := by
      have := congrArg List.length he
      rw [List.length_take] at this
      omega
    refine ⟨hlen, ?_⟩
    intro r hr
    rw [← List.getElem?_take_of_lt hr, he]
  · rintro ⟨hlen, hread⟩
    apply List.ext_getElem?
    intro n
    by_cases hn : n < h.length
    · rw [List.getElem?_take_of_lt hn]
      exact hread n hn
    · rw [List.getElem?_eq_none (by rw [List.length_take]; omega),
        List.getElem?_eq_none (by omega)]

theorem extends_refl (h : Heap) : Heap.Extends h h := by
  rw [extends_iff]
  exact ⟨le_refl _, fun _ _ => rfl⟩

theorem extends_trans (a b c : Heap) (h1 : Heap.Extends a b) (h2 : Heap.Extends b c) :
    Heap.Extends a c := by
  rw [extends_iff] at *
  refine ⟨le_trans h1.1 h2.1, ?_⟩
  intro r hr
  rw [h2.2 r (by omega), h1.2 r hr]

theorem extends_alloc (h g : Heap) (o : HeapObject) (he : Heap.Extends h g) :
    Heap.Extends h (Heap.alloc g o).1 := by
  rw [extends_iff] at *
  refine ⟨by rw [length_alloc]; omega, ?_⟩
  intro r hr
  rw [read_alloc_old g o r (by omega), he.2 r hr]

theorem extends_write (h g : Heap) (r : Nat) (o : HeapObject) (he : Heap.Extends h g)
    (hr : h.length ≤ r) : Heap.Extends h (Heap.write g r o) := by
  rw [extends_iff] at *
  refine ⟨by rw [length_write]; omega, ?_⟩
  intro s hs
  rw [read_write_ne g r s o (by omega), he.2 s hs]

theorem read_of_extends (h g : Heap) (r : Nat) (o : HeapObject) (he : Heap.Extends h g)
    (hr : Heap.read h r = some o) : Heap.read g r = some o := by
  rw [extends_iff] at he
  rw [he.2 r (read_lt h r o hr), hr]

theorem readPlan_some (h : Heap) (this : Nat) (p : MealPlan) (hp : readPlan h this = some p) :
    ∃ doc, Heap.read h this = some (HeapObject.plan doc) ∧
      Heap.read h doc.meals = some (HeapObject.entries p.meals) ∧
      Heap.read h doc.weekStartDate = some (HeapObject.date p.weekStartDate.time) := by
  unfold readPlan at hp
  split at hp
  · next doc hdoc =>
    refine ⟨doc, hdoc, ?_⟩
    split at hp
    · next meals ws we hm hs he =>
      split at hp
      · cases hp
        exact ⟨hm, hs⟩
      · split at hp
        · cases hp
          exact ⟨hm, hs⟩
        · cases hp
    · cases hp
  · cases hp

theorem readPlan_extends (h g : Heap) (this : Nat) (p : MealPlan) (he : Heap.Extends h g)
    (hp : readPlan h this = some p) : readPlan g this = some p := by
  unfold readPlan at hp
  split at hp
  · next doc hdoc =>
    split at hp
    · next meals ws we hm hs hw =>
      have e1 := read_of_extends h g _ _ he hdoc
      have e2 := read_of_extends h g _ _ he hm
      have e3 := read_of_extends h g _ _ he hs
      have e4 := read_of_extends h g _ _ he hw
      split at hp
      · next hl =>
        unfold readPlan
        simp only [e1, e2, e3, e4, hl]
        exact hp
      · next r hl =>
        split at hp
        · next last hlast =>
          have e5 := read_of_extends h g _ _ he hlast
          unfold readPlan
          simp only [e1, e2, e3, e4, hl, e5]
          exact hp
        · cases hp
    · cases hp
  · cases hp

theorem readPlan_planHeap (p : MealPlan) : readPlan (planHeap p) 3 = some p := by
  rcases p with ⟨u, m, ⟨ws⟩, ⟨we⟩, wi, ia, n, tc, tco, sl, _ | ⟨l⟩⟩ <;> rfl

theorem entriesAt_of_read (h : Heap) (r : Nat) (meals : List MealEntry)
    (hr : Heap.read h r = some (HeapObject.entries meals)) : Heap.entriesAt h r = meals := by
  unfold Heap.entriesAt
  rw [hr]

theorem totalsAt_of_read (h : Heap) (r : Nat) (n : NutritionTotals)
    (hr : Heap.read h r = some (HeapObject.totals n)) : Heap.totalsAt h r = n := by
  unfold Heap.totalsAt
  rw [hr]

theorem stringsAt_of_read (h : Heap) (r : Nat) (items : List String)
    (hr : Heap.read h r = some (HeapObject.strings items)) : Heap.stringsAt h r = items := by
  unfold Heap.stringsAt
  rw [hr]

theorem countsAt_of_read (h : Heap) (r : Nat) (o : Dict)
    (hr : Heap.read h r = some (HeapObject.counts o)) : Heap.countsAt h r = o := by
  unfold Heap.countsAt
  rw [hr]

theorem timeAt_of_read (h : Heap) (r : Nat) (t : Int)
    (hr : Heap.read h r = some (HeapObject.date t)) : Heap.timeAt h r = t := by
  unfold Heap.timeAt
  rw [hr]

theorem referencesAt_of_read (h : Heap) (r : Nat) (refs : List Nat)
    (hr : Heap.read h r = some (HeapObject.references refs)) :
    Heap.referencesAt h r = refs := by
  unfold Heap.referencesAt
  rw [hr]

theorem nutrition_loop (r : Nat) (meals : List MealEntry) : ∀ (g : Heap) (acc : NutritionTotals),
    Heap.read g r = some (HeapObject.totals acc) →
    meals.foldl (fun h meal => addNutrition h r meal) g
    = Heap.write g r (HeapObject.totals (meals.foldl (fun (nutrition : NutritionTotals) meal =>
        match meal.recipeSnapshot with
        | some snap =>
            match snap.nutrition with
            | some mealNutrition =>
                { calories := nutrition.calories + orZero mealNutrition.calories * meal.servings
                  protein := nutrition.protein + orZero mealNutrition.protein * meal.servings
                  fat := nutrition.fat + orZero mealNutrition.fat * meal.servings
                  carbs := nutrition.carbs + orZero mealNutrition.carbs * meal.servings }
            | none => nutrition
        | none => nutrition) acc)) := by
  induction meals with
  | nil =>
    intro g acc hr
    exact (write_self g r _ hr).symm
  | cons m ms ih =>
    intro g acc hr
    rw [List.foldl_cons, List.foldl_cons]
    cases hs : m.recipeSnapshot with
    | none =>
      have e : addNutrition g r m = g := by
        unfold addNutrition
        simp only [hs]
      rw [e]
      exact ih g acc hr
    | some snap =>
      cases hn : snap.nutrition with
      | none =>
        have e : addNutrition g r m = g := by
          unfold addNutrition
          simp only [hs, hn]
        rw [e]
        simp only [hn]
        exact ih g acc hr
      | some mealNutrition =>
        have e : addNutrition g r m = Heap.write g r (HeapObject.totals
            { calories := acc.calories + orZero mealNutrition.calories * m.servings
              protein := acc.protein + orZero mealNutrition.protein * m.servings
              fat := acc.fat + orZero mealNutrition.fat * m.servings
              carbs := acc.carbs + orZero mealNutrition.carbs * m.servings }) := by
          unfold addNutrition
          simp only [hs, hn]
          rw [totalsAt_of_read g r acc hr]
        rw [e]
        simp only [hn]
        rw [ih _ _ (read_write_same g r _ (read_lt g r _ hr)), write_write]

/-- The call `getNutritionByDate(date)` on the heap: every object that existed before
the call is unchanged, the record returned is a new object, and it holds the totals of
the plan. -/
theorem getNutritionByDateRun_spec (h : Heap) (this : Nat) (p : MealPlan) (date : Option Date)
    (hp : readPlan h this = some p) :
    Heap.Extends h (getNutritionByDateRun h this date).1 ∧
    h.length ≤ (getNutritionByDateRun h this date).2 ∧
    Heap.read (getNutritionByDateRun h this date).1 (getNutritionByDateRun h this date).2
      = some (HeapObject.totals (getNutritionByDate p date)) := by
  obtain ⟨doc, hdoc, hmeals, _⟩ := readPlan_some h this p hp
  have hlt := read_lt h _ _ hmeals
  have key : ∀ (g : Heap) (mref : Nat) (meals : List MealEntry), Heap.Extends h g →
      Heap.read g mref = some (HeapObject.entries meals) →
      Heap.Extends h (((Heap.entriesAt (Heap.alloc g (HeapObject.totals
          { calories := 0, protein := 0, fat := 0, carbs := 0 })).1 mref).foldl
        (fun h meal => addNutrition h g.length meal)
        (Heap.alloc g (HeapObject.totals { calories := 0, protein := 0, fat := 0, carbs := 0 })).1)) ∧
      h.length ≤ g.length ∧
      Heap.read (((Heap.entriesAt (Heap.alloc g (HeapObject.totals
          { calories := 0, protein := 0, fat := 0, carbs := 0 })).1 mref).foldl
        (fun h meal => addNutrition h g.length meal)
        (Heap.alloc g (HeapObject.totals { calories := 0, protein := 0, fat := 0, carbs := 0 })).1))
        g.length
      = some (HeapObject.totals (meals.foldl (fun (nutrition : NutritionTotals) meal =>
        match meal.recipeSnapshot with
        | some snap =>
            match snap.nutrition with
            | some mealNutrition =>
                { calories := nutrition.calories + orZero mealNutrition.calories * meal.servings
                  protein := nutrition.protein + orZero mealNutrition.protein * meal.servings
                  fat := nutrition.fat + orZero mealNutrition.fat * meal.servings
                  carbs := nutrition.carbs + orZero mealNutrition.carbs * meal.servings }
            | none => nutrition
        | none => nutrition) { calories := 0, protein := 0, fat := 0, carbs := 0 })) := by
    intro g mref meals hge hm
    have hm2 := read_alloc_old g (HeapObject.totals
      { calories := 0, protein := 0, fat := 0, carbs := 0 }) mref (read_lt g _ _ hm)
    rw [hm] at hm2
    rw [entriesAt_of_read _ _ _ hm2, nutrition_loop g.length meals _ _ (read_alloc_new g _)]
    refine ⟨?_, ((extends_iff h g).1 hge).1, ?_⟩
    · exact extends_write h _ _ _ (extends_alloc h g _ hge) ((extends_iff h g).1 hge).1
    · rw [read_write_same _ _ _ (by rw [length_alloc]; omega)]
  unfold getNutritionByDateRun
  simp only [hdoc]
  cases date with
  | none => exact key h doc.meals p.meals (extends_refl h) hmeals
  | some d =>
    rw [entriesAt_of_read h _ _ hmeals]
    have hk := key (Heap.alloc h (HeapObject.entries (p.meals.filter
      (fun meal => meal.dateString == dateKey d)))).1 h.length _
      (extends_alloc h h _ (extends_refl h)) (read_alloc_new h _)
    refine ⟨hk.1, ?_, hk.2.2⟩
    have := length_alloc h (HeapObject.entries (p.meals.filter
      (fun meal => meal.dateString == dateKey d)))
    show h.length ≤ (Heap.alloc h _).1.length
    omega

theorem push_loop (a : Nat) (f : String → String) (items : List String) :
    ∀ (g : Heap) (acc : List String), Heap.read g a = some (HeapObject.strings acc) →
    items.foldl (fun h x => Heap.pushString h a (f x)) g
      = Heap.write g a (HeapObject.strings (acc ++ items.map f)) := by
  induction items with
  | nil =>
    intro g acc hr
    simp only [List.foldl_nil, List.map_nil, List.append_nil]
    exact (write_self g a _ hr).symm
  | cons x xs ih =>
    intro g acc hr
    rw [List.foldl_cons]
    have e : Heap.pushString g a (f x) = Heap.write g a (HeapObject.strings (acc ++ [f x])) := by
      unfold Heap.pushString
      rw [stringsAt_of_read g a acc hr]
    rw [e, ih _ _ (read_write_same g a _ (read_lt g a _ hr)), write_write]
    simp

theorem pushIngredients_eq (a : Nat) (meal : MealEntry) (g : Heap) (acc : List String)
    (hr : Heap.read g a = some (HeapObject.strings acc)) :
    pushIngredients g a meal
      = Heap.write g a (HeapObject.strings (acc ++ entryIngredients meal)) := by
  unfold pushIngredients entryIngredients
  cases hs : meal.recipeSnapshot with
  | none =>
    simp only [List.append_nil]
    exact (write_self g a _ hr).symm
  | some snap =>
    simp only []
    cases hi : snap.ingredients with
    | none =>
      simp only [List.append_nil]
      exact (write_self g a _ hr).symm
    | some ingredients =>
      simp only []
      by_cases hc : meal.servings > 1
      · simp only [hc, if_true]
        exact push_loop a (fun ingredient => ingredient ++ " (x" ++ numberToString meal.servings
          ++ ")") ingredients g acc hr
      · simp only [hc, if_false]
        have := push_loop a (fun ingredient => ingredient) ingredients g acc hr
        simpa using this

theorem ingredients_loop (a : Nat) (meals : List MealEntry) :
    ∀ (g : Heap) (acc : List String), Heap.read g a = some (HeapObject.strings acc) →
    meals.foldl (fun h meal => pushIngredients h a meal) g
      = Heap.write g a (HeapObject.strings
          (meals.foldl (fun acc meal => acc ++ entryIngredients meal) acc)) := by
  induction meals with
  | nil =>
    intro g acc hr
    exact (write_self g a _ hr).symm
  | cons m ms ih =>
    intro g acc hr
    rw [List.foldl_cons, List.foldl_cons, pushIngredients_eq a m g acc hr,
      ih _ _ (read_write_same g a _ (read_lt g a _ hr)), write_write]

theorem count_loop (rt : JsRuntime) (c : Nat) (items : List String) :
    ∀ (g : Heap) (o : Dict), Heap.read g c = some (HeapObject.counts o) →
    items.foldl (fun h item => countItem rt h c item) g
      = Heap.write g c (HeapObject.counts
          (items.foldl (fun o item => Dict.increment o (groceryKey rt item)) o)) := by
  induction items with
  | nil =>
    intro g o hr
    exact (write_self g c _ hr).symm
  | cons x xs ih =>
    intro g o hr
    rw [List.foldl_cons, List.foldl_cons]
    have e : countItem rt g c x
        = Heap.write g c (HeapObject.counts (Dict.increment o (groceryKey rt x))) := by
      unfold countItem
      rw [countsAt_of_read g c o hr]
    rw [e, ih _ _ (read_write_same g c _ (read_lt g c _ hr)), write_write]

theorem groceryList_tail (rt : JsRuntime) (h g : Heap) (mref : Nat) (meals : List MealEntry)
    (hge : Heap.Extends h g) (hm : Heap.read g mref = some (HeapObject.entries meals)) :
    let ingredientsArray := Heap.alloc g (HeapObject.strings [])
    let pushed := (Heap.entriesAt ingredientsArray.1 mref).foldl
      (fun h meal => pushIngredients h ingredientsArray.2 meal) ingredientsArray.1
    let ingredientCount := Heap.alloc pushed (HeapObject.counts [])
    let counted := (Heap.stringsAt ingredientCount.1 ingredientsArray.2).foldl
      (fun h item => countItem rt h ingredientCount.2 item) ingredientCount.1
    let result := Heap.alloc counted (HeapObject.strings
      ((Dict.entries (Heap.countsAt counted ingredientCount.2)).map (groceryLine rt)))
    Heap.Extends h result.1 ∧ h.length ≤ result.2 ∧
    Heap.read result.1 result.2
      = some (HeapObject.strings ((Dict.entries (countKeys (groceryKey rt)
          (allIngredients meals))).map (groceryLine rt))) := by
  intro ingredientsArray pushed ingredientCount counted result
  have hgl := ((extends_iff h g).1 hge).1
  have ha2 : ingredientsArray.2 = g.length := rfl
  have hm2 : Heap.read ingredientsArray.1 mref = some (HeapObject.entries meals) := by
    rw [← hm]
    exact read_alloc_old g _ mref (read_lt g _ _ hm)
  have hpushed : pushed = Heap.write ingredientsArray.1 g.length
      (HeapObject.strings (allIngredients meals)) := by
    show (Heap.entriesAt ingredientsArray.1 mref).foldl
      (fun h meal => pushIngredients h ingredientsArray.2 meal) ingredientsArray.1 = _
    rw [entriesAt_of_read _ _ _ hm2, ha2,
      ingredients_loop g.length meals _ _ (read_alloc_new g _)]
    rfl
  have hal : ingredientsArray.1.length = g.length + 1 := length_alloc g _
  have hpl : pushed.length = g.length + 1 := by rw [hpushed, length_write, hal]
  have hpe : Heap.Extends h pushed := by
    rw [hpushed]
    exact extends_write h _ _ _ (extends_alloc h g _ hge) hgl
  have hpr : Heap.read pushed g.length
      = some (HeapObject.strings (allIngredients meals)) := by
    rw [hpushed]
    exact read_write_same _ _ _ (by omega)
  have hc2 : ingredientCount.2 = pushed.length := rfl
  have hcr : Heap.read ingredientCount.1 g.length
      = some (HeapObject.strings (allIngredients meals)) := by
    rw [← hpr]
    exact read_alloc_old pushed _ _ (by omega)
  have hcounted : counted = Heap.write ingredientCount.1 pushed.length
      (HeapObject.counts (countKeys (groceryKey rt) (allIngredients meals))) := by
    show (Heap.stringsAt ingredientCount.1 ingredientsArray.2).foldl
      (fun h item => countItem rt h ingredientCount.2 item) ingredientCount.1 = _
    rw [ha2, stringsAt_of_read _ _ _ hcr, hc2,
      count_loop rt pushed.length _ _ _ (read_alloc_new pushed _)]
    rfl
  have hcl : ingredientCount.1.length = pushed.length + 1 := length_alloc pushed _
  have hce : Heap.Extends h counted := by
    rw [hcounted]
    exact extends_write h _ _ _ (extends_alloc h pushed _ hpe) (by omega)
  have hcc : Heap.read counted pushed.length
      = some (HeapObject.counts (countKeys (groceryKey rt) (allIngredients meals))) := by
    rw [hcounted]
    exact read_write_same _ _ _ (by omega)
  have hr2 : result.2 = counted.length := rfl
  have hcol : counted.length = pushed.length + 1 := by rw [hcounted, length_write, hcl]
  refine ⟨extends_alloc h counted _ hce, by omega, ?_⟩
  have hres := read_alloc_new counted (HeapObject.strings
    ((Dict.entries (Heap.countsAt counted ingredientCount.2)).map (groceryLine rt)))
  rw [hr2]
  show Heap.read (Heap.alloc counted _).1 counted.length = _
  rw [hres, hc2, countsAt_of_read _ _ _ hcc]

/-- The call `getGroceryList(startDate, endDate)` on the heap: every object that existed
before the call is unchanged, the array returned is a new object, and it holds the
grocery list of the plan. -/
theorem getGroceryListRun_spec (rt : JsRuntime) (h : Heap) (this : Nat) (p : MealPlan)
    (s e : Option Date) (hp : readPlan h this = some p) :
    Heap.Extends h (getGroceryListRun rt h this s e).1 ∧
    h.length ≤ (getGroceryListRun rt h this s e).2 ∧
    Heap.read (getGroceryListRun rt h this s e).1 (getGroceryListRun rt h this s e).2
      = some (HeapObject.strings (getGroceryList rt p s e)) := by
  obtain ⟨doc, hdoc, hmeals, _⟩ := readPlan_some h this p hp
  unfold getGroceryListRun
  simp only [hdoc]
  have hall : ∀ meals, mealsToInclude p s e = meals →
      getGroceryList rt p s e
        = (Dict.entries (countKeys (groceryKey rt) (allIngredients meals))).map
            (groceryLine rt) := by
    intro meals hm
    rw [← hm]
    rfl
  cases s with
  | none =>
    rw [hall p.meals rfl]
    exact groceryList_tail rt h h doc.meals p.meals (extends_refl h) hmeals
  | some s =>
    cases e with
    | none =>
      rw [hall p.meals rfl]
      exact groceryList_tail rt h h doc.meals p.meals (extends_refl h) hmeals
    | some e =>
      rw [hall _ rfl, entriesAt_of_read h _ _ hmeals]
      exact groceryList_tail rt h _ h.length _ (extends_alloc h h _ (extends_refl h))
        (read_alloc_new h _)

theorem pushWeekDate_step (zone : Int) (w c : Nat) (hwc : w ≠ c) (g : Heap) (refs : List Nat)
    (t : Int) (hw : Heap.read g w = some (HeapObject.references refs))
    (hc : Heap.read g c = some (HeapObject.date t)) :
    (pushWeekDate zone g w c).length = g.length + 1 ∧
    (∀ r, r < g.length → r ≠ w → r ≠ c →
      Heap.read (pushWeekDate zone g w c) r = Heap.read g r) ∧
    Heap.read (pushWeekDate zone g w c) c = some (HeapObject.date (t + 1 * msPerDay)) ∧
    Heap.read (pushWeekDate zone g w c) w = some (HeapObject.references (refs ++ [g.length])) ∧
    Heap.read (pushWeekDate zone g w c) g.length = some (HeapObject.date t) := by
  have hwl := read_lt g w _ hw
  have hcl := read_lt g c _ hc
  have hal := length_alloc g (HeapObject.date t)
  have hrw : Heap.read (Heap.alloc g (HeapObject.date t)).1 w
      = some (HeapObject.references refs) := by
    rw [read_alloc_old g _ w hwl, hw]
  have hrc : Heap.read (Heap.alloc g (HeapObject.date t)).1 c = some (HeapObject.date t) := by
    rw [read_alloc_old g _ c hcl, hc]
  have hpush : Heap.pushReference (Heap.alloc g (HeapObject.date t)).1 w g.length
      = Heap.write (Heap.alloc g (HeapObject.date t)).1 w
          (HeapObject.references (refs ++ [g.length])) := by
    unfold Heap.pushReference
    rw [referencesAt_of_read _ _ _ hrw]
  have hrc2 : Heap.read (Heap.write (Heap.alloc g (HeapObject.date t)).1 w
      (HeapObject.references (refs ++ [g.length]))) c = some (HeapObject.date t) := by
    rw [read_write_ne _ w c _ hwc, hrc]
  have heq : pushWeekDate zone g w c
      = Heap.write (Heap.write (Heap.alloc g (HeapObject.date t)).1 w
          (HeapObject.references (refs ++ [g.length]))) c
          (HeapObject.date (t + 1 * msPerDay)) := by
    unfold pushWeekDate
    simp only []
    rw [timeAt_of_read g c t hc]
    have h2 : (Heap.alloc g (HeapObject.date t)).2 = g.length := rfl
    rw [h2, hpush, timeAt_of_read _ _ _ hrc2, setDate_add]
  rw [heq]
  refine ⟨by rw [length_write, length_write, hal], ?_, ?_, ?_, ?_⟩
  · intro r hr hrw2 hrc3
    rw [read_write_ne _ c r _ (Ne.symm hrc3), read_write_ne _ w r _ (Ne.symm hrw2),
      read_alloc_old g _ r hr]
  · exact read_write_same _ _ _ (by rw [length_write, hal]; omega)
  · rw [read_write_ne _ c w _ (Ne.symm hwc)]
    exact read_write_same _ _ _ (by rw [hal]; omega)
  · rw [read_write_ne _ c g.length _ (by omega), read_write_ne _ w g.length _ (by omega)]
    exact read_alloc_new g _

theorem weekDates_heap_loop (zone : Int) (w c : Nat) (hwc : w ≠ c) (steps : List Nat) :
    ∀ (g : Heap) (refs : List Nat) (t : Int),
      Heap.read g w = some (HeapObject.references refs) →
      Heap.read g c = some (HeapObject.date t) →
      (steps.foldl (fun (h : Heap) _ => pushWeekDate zone h w c) g).length
        = g.length + steps.length ∧
      (∀ r, r < g.length → r ≠ w → r ≠ c →
        Heap.read (steps.foldl (fun (h : Heap) _ => pushWeekDate zone h w c) g) r
          = Heap.read g r) ∧
      Heap.read (steps.foldl (fun (h : Heap) _ => pushWeekDate zone h w c) g) w
        = some (HeapObject.references
            (refs ++ (List.range steps.length).map (fun i => g.length + i))) ∧
      (∀ i, i < steps.length →
        Heap.read (steps.foldl (fun (h : Heap) _ => pushWeekDate zone h w c) g) (g.length + i)
          = some (HeapObject.date (t + (i : Int) * msPerDay))) := by
  induction steps with
  | nil =>
    intro g refs t hw _
    refine ⟨rfl, fun _ _ _ _ => rfl, ?_, ?_⟩
    · simpa using hw
    · intro i hi
      simp at hi
  | cons s steps ih =>
    intro g refs t hw hc
    have hwl := read_lt g w _ hw
    have hcl := read_lt g c _ hc
    obtain ⟨s1, s2, s3, s4, s5⟩ := pushWeekDate_step zone w c hwc g refs t hw hc
    obtain ⟨i1, i2, i3, i4⟩ := ih (pushWeekDate zone g w c) (refs ++ [g.length])
      (t + 1 * msPerDay) s4 s3
    rw [List.foldl_cons]
    refine ⟨?_, ?_, ?_, ?_⟩
    · rw [i1, s1, List.length_cons]
      omega
    · intro r hr hrw hrc
      rw [i2 r (by omega) hrw hrc, s2 r hr hrw hrc]
    · rw [i3, s1, List.length_cons, List.range_succ_eq_map, List.map_cons, List.map_map,
        List.append_assoc]
      have hm : List.map (fun i => g.length + 1 + i) (List.range steps.length)
          = List.map ((fun i => g.length + i) ∘ Nat.succ) (List.range steps.length) := by
        apply List.map_congr_left
        intro i _
        simp only [Function.comp]
        omega
      rw [hm]
      rfl
    · intro i hi
      rw [List.length_cons] at hi
      cases i with
      | zero =>
        rw [Nat.add_zero, i2 g.length (by omega) (by omega) (by omega), s5]
        simp
      | succ j =>
        have := i4 j (by omega)
        rw [s1] at this
        rw [show g.length + (j + 1) = g.length + 1 + j by omega, this]
        congr 2
        push_cast
        ring

theorem readDaily_extends (a b : Heap) (r : DailyRecord) (x : DailyNutrition)
    (he : Heap.Extends a b) (hr : readDaily a r = some x) : readDaily b r = some x := by
  unfold readDaily at hr
  split at hr
  · next t n h1 h2 =>
    unfold readDaily
    rw [read_of_extends a b _ _ he h1, read_of_extends a b _ _ he h2]
    exact hr
  · cases hr

theorem daily_loop (this : Nat) (p : MealPlan) (dates : List Nat) :
    ∀ (g : Heap) (recs : List DailyRecord), readPlan g this = some p →
      (∀ r ∈ dates, ∃ t, Heap.read g r = some (HeapObject.date t)) →
      Heap.Extends g (dates.foldl (dailyRecord this) (g, recs)).1 ∧
      ∃ fresh : List DailyRecord,
        (dates.foldl (dailyRecord this) (g, recs)).2 = recs ++ fresh ∧
        fresh.map (readDaily (dates.foldl (dailyRecord this) (g, recs)).1)
          = dates.map (fun r => some
              { date := ⟨Heap.timeAt g r⟩
                dateString := dateKey ⟨Heap.timeAt g r⟩
                nutrition := getNutritionByDate p (some ⟨Heap.timeAt g r⟩) }) := by
  induction dates with
  | nil =>
    intro g recs _ _
    exact ⟨extends_refl g, [], by simp, rfl⟩
  | cons d ds ih =>
    intro g recs hp hd
    obtain ⟨t, ht⟩ := hd d (List.mem_cons_self _ _)
    obtain ⟨n1, n2, n3⟩ := getNutritionByDateRun_spec g this p (some ⟨Heap.timeAt g d⟩) hp
    have hstep : dailyRecord this (g, recs) d
        = ((getNutritionByDateRun g this (some ⟨Heap.timeAt g d⟩)).1,
           recs ++ [DailyRecord.mk d (dateKey ⟨Heap.timeAt g d⟩)
             (getNutritionByDateRun g this (some ⟨Heap.timeAt g d⟩)).2]) :=
      rfl
    rw [List.foldl_cons, hstep]
    generalize hg1 : (getNutritionByDateRun g this (some ⟨Heap.timeAt g d⟩)).1 = g1 at *
    generalize hn : (getNutritionByDateRun g this (some ⟨Heap.timeAt g d⟩)).2 = nref at *
    have hp1 := readPlan_extends g g1 this p n1 hp
    have hd1 : ∀ r ∈ ds, ∃ t, Heap.read g1 r = some (HeapObject.date t) := by
      intro r hr
      obtain ⟨t2, ht2⟩ := hd r (List.mem_cons_of_mem _ hr)
      exact ⟨t2, read_of_extends g g1 _ _ n1 ht2⟩
    obtain ⟨e1, fresh, f1, f2⟩ := ih g1 (recs ++ [DailyRecord.mk d
      (dateKey ⟨Heap.timeAt g d⟩) nref]) hp1 hd1
    refine ⟨extends_trans g g1 _ n1 e1, DailyRecord.mk d (dateKey ⟨Heap.timeAt g d⟩)
      nref :: fresh, ?_, ?_⟩
    · rw [f1, List.append_assoc]
      rfl
    · rw [List.map_cons, List.map_cons, f2]
      congr 1
      · have hrd : readDaily g1 (DailyRecord.mk d (dateKey ⟨Heap.timeAt g d⟩) nref)
            = some { date := ⟨Heap.timeAt g d⟩, dateString := dateKey ⟨Heap.timeAt g d⟩,
                     nutrition := getNutritionByDate p (some ⟨Heap.timeAt g d⟩) } := by
          unfold readDaily
          simp only []
          rw [read_of_extends g g1 _ _ n1 ht, n3, timeAt_of_read g d t ht]
        exact readDaily_extends g1 _ _ _ e1 hrd
      · apply List.map_congr_left
        intro r hr
        obtain ⟨t2, ht2⟩ := hd r (List.mem_cons_of_mem _ hr)
        rw [timeAt_of_read g r t2 ht2, timeAt_of_read g1 r t2 (read_of_extends g g1 _ _ n1 ht2)]

theorem dailyNutrition_eq (zone : Int) (p : MealPlan) :
    (getWeeklyNutritionSummary zone p).dailyNutrition
      = (List.range 7).map (fun (i : Nat) =>
          ({ date := ⟨p.weekStartDate.time + (i : Int) * msPerDay⟩
             dateString := dateKey ⟨p.weekStartDate.time + (i : Int) * msPerDay⟩
             nutrition := getNutritionByDate p
               (some ⟨p.weekStartDate.time + (i : Int) * msPerDay⟩) } : DailyNutrition)) := by
  unfold getWeeklyNutritionSummary
  simp only [weekDates_loop, List.map_map]
  rfl

theorem weekly_tail (zone : Int) (h : Heap) (this : Nat) (p : MealPlan) (doc : PlanDocument)
    (hp : readPlan h this = some p)
    (hws : Heap.read h doc.weekStartDate = some (HeapObject.date p.weekStartDate.time)) :
    let weekDates := Heap.alloc h (HeapObject.references [])
    let current := Heap.alloc weekDates.1
      (HeapObject.date (Heap.timeAt weekDates.1 doc.weekStartDate))
    let looped := (List.range 7).foldl
      (fun (h : Heap) _ => pushWeekDate zone h weekDates.2 current.2) current.1
    let daily := (Heap.referencesAt looped weekDates.2).foldl (dailyRecord this) (looped, [])
    let weeklyTotal := getNutritionByDateRun daily.1 this none
    Heap.Extends h weeklyTotal.1 ∧
    daily.2.map (readDaily weeklyTotal.1)
      = (getWeeklyNutritionSummary zone p).dailyNutrition.map some ∧
    Heap.read weeklyTotal.1 weeklyTotal.2
      = some (HeapObject.totals (getWeeklyNutritionSummary zone p).weeklyTotal) := by
  intro weekDates current looped daily weeklyTotal
  have hw2 : weekDates.2 = h.length := rfl
  have hwl : weekDates.1.length = h.length + 1 := length_alloc h _
  have hc2 : current.2 = weekDates.1.length := rfl
  have hcl : current.1.length = h.length + 2 := by
    have := length_alloc weekDates.1
      (HeapObject.date (Heap.timeAt weekDates.1 doc.weekStartDate))
    rw [hwl] at this
    exact this
  have hwe : Heap.Extends h weekDates.1 := extends_alloc h h _ (extends_refl h)
  have hce : Heap.Extends h current.1 := extends_alloc h weekDates.1 _ hwe
  have hrw : Heap.read current.1 weekDates.2 = some (HeapObject.references []) := by
    rw [hw2]
    have h1 : Heap.read current.1 h.length = Heap.read weekDates.1 h.length :=
      read_alloc_old weekDates.1 _ h.length (by omega)
    rw [h1]
    exact read_alloc_new h _
  have hrc : Heap.read current.1 current.2 = some (HeapObject.date p.weekStartDate.time) := by
    have h1 := read_alloc_new weekDates.1
      (HeapObject.date (Heap.timeAt weekDates.1 doc.weekStartDate))
    rw [timeAt_of_read weekDates.1 _ _ (read_of_extends h _ _ _ hwe hws)] at h1
    rw [hc2]
    have hcur : current.1 = (Heap.alloc weekDates.1
      (HeapObject.date (Heap.timeAt weekDates.1 doc.weekStartDate))).1 := rfl
    rw [hcur, timeAt_of_read weekDates.1 _ _ (read_of_extends h _ _ _ hwe hws)]
    exact h1
  have hne : weekDates.2 ≠ current.2 := by
    rw [hw2, hc2, hwl]
    omega
  obtain ⟨l1, l2, l3, l4⟩ := weekDates_heap_loop zone weekDates.2 current.2 hne (List.range 7)
    current.1 [] p.weekStartDate.time hrw hrc
  have hlooped : looped = (List.range 7).foldl
      (fun (h : Heap) _ => pushWeekDate zone h weekDates.2 current.2) current.1 := rfl
  rw [← hlooped] at l1 l2 l3 l4
  rw [List.length_range] at l1 l3 l4
  rw [List.nil_append] at l3
  have hle : Heap.Extends h looped := by
    rw [extends_iff]
    refine ⟨by omega, ?_⟩
    intro r hr
    rw [l2 r (by omega) (by rw [hw2]; omega) (by rw [hc2, hwl]; omega)]
    exact ((extends_iff h current.1).1 hce).2 r hr
  have hpl := readPlan_extends h looped this p hle hp
  have hdates : ∀ r ∈ (List.range 7).map (fun i => current.1.length + i),
      ∃ t, Heap.read looped r = some (HeapObject.date t) := by
    intro r hr
    obtain ⟨i, hi, rfl⟩ := List.mem_map.1 hr
    exact ⟨_, l4 i (List.mem_range.1 hi)⟩
  obtain ⟨d1, fresh, d2, d3⟩ := daily_loop this p _ looped [] hpl hdates
  have hdaily : daily = ((List.range 7).map (fun i => current.1.length + i)).foldl
      (dailyRecord this) (looped, []) := by
    show (Heap.referencesAt looped weekDates.2).foldl (dailyRecord this) (looped, []) = _
    rw [referencesAt_of_read looped _ _ l3]
  rw [← hdaily, List.nil_append] at d2
  rw [← hdaily] at d1 d3
  obtain ⟨n1, _, n3⟩ := getNutritionByDateRun_spec daily.1 this p none
    (readPlan_extends looped daily.1 this p d1 hpl)
  have hn1 : Heap.Extends daily.1 weeklyTotal.1 := n1
  refine ⟨extends_trans h looped _ hle (extends_trans looped daily.1 _ d1 hn1), ?_, n3⟩
  have hexp : ((List.range 7).map (fun i => current.1.length + i)).map (fun r => some
      ({ date := ⟨Heap.timeAt looped r⟩
         dateString := dateKey ⟨Heap.timeAt looped r⟩
         nutrition := getNutritionByDate p (some ⟨Heap.timeAt looped r⟩) } : DailyNutrition))
      = (getWeeklyNutritionSummary zone p).dailyNutrition.map some := by
    rw [dailyNutrition_eq, List.map_map, List.map_map]
    apply List.map_congr_left
    intro i hi
    simp only [Function.comp]
    rw [timeAt_of_read looped _ _ (l4 i (List.mem_range.1 hi))]
  rw [d2, ← hexp, ← d3]
  apply List.map_congr_left
  intro r hr
  have hsome : ∃ x, readDaily daily.1 r = some x := by
    have hmem : readDaily daily.1 r ∈ fresh.map (readDaily daily.1) := List.mem_map_of_mem _ hr
    rw [d3] at hmem
    obtain ⟨y, _, hy⟩ := List.mem_map.1 hmem
    exact ⟨_, hy.symm⟩
  obtain ⟨x, hx⟩ := hsome
  rw [hx]
  exact readDaily_extends daily.1 weeklyTotal.1 r x hn1 hx

/-- The call `getWeeklyNutritionSummary()` on the heap: every object that existed before
the call is unchanged, and the summary returned, read from the heap, is the summary of
the plan. -/
theorem getWeeklyNutritionSummaryRun_spec (zone : Int) (h : Heap) (this : Nat) (p : MealPlan)
    (hp : readPlan h this = some p) :
    Heap.Extends h (getWeeklyNutritionSummaryRun zone h this).1 ∧
    (getWeeklyNutritionSummaryRun zone h this).2.1.map
        (readDaily (getWeeklyNutritionSummaryRun zone h this).1)
      = (getWeeklyNutritionSummary zone p).dailyNutrition.map some ∧
    Heap.read (getWeeklyNutritionSummaryRun zone h this).1
        (getWeeklyNutritionSummaryRun zone h this).2.2
      = some (HeapObject.totals (getWeeklyNutritionSummary zone p).weeklyTotal) := by
  obtain ⟨doc, hdoc, _, hws⟩ := readPlan_some h this p hp
  unfold getWeeklyNutritionSummaryRun
  simp only [hdoc]
  exact weekly_tail zone h this p doc hp hws

/-- C24. The three methods are read-only and deterministic.  On a heap in which `this` is
the document of the plan `p`, a call of `getGroceryList`, `getNutritionByDate` or
`getWeeklyNutritionSummary` leaves every object that existed before the call as it was
(the document with all its fields, its array of meals, its dates), so `this` still
stands for `p`; the value returned is that of the plan; and a second call with the same
arguments, on the heap the first call left, returns the same value. -/
theorem read_only_methods (rt : JsRuntime) (zone : Int) (h : Heap) (this : Nat)
    (p : MealPlan) (s e d : Option Date) (hp : readPlan h this = some p) :
    (Heap.Extends h (getGroceryListRun rt h this s e).1 ∧
      readPlan (getGroceryListRun rt h this s e).1 this = some p ∧
      Heap.read (getGroceryListRun rt h this s e).1 (getGroceryListRun rt h this s e).2
        = some (HeapObject.strings (getGroceryList rt p s e)) ∧
      Heap.read (getGroceryListRun rt (getGroceryListRun rt h this s e).1 this s e).1
          (getGroceryListRun rt (getGroceryListRun rt h this s e).1 this s e).2
        = Heap.read (getGroceryListRun rt h this s e).1 (getGroceryListRun rt h this s e).2) ∧
    (Heap.Extends h (getNutritionByDateRun h this d).1 ∧
      readPlan (getNutritionByDateRun h this d).1 this = some p ∧
      Heap.read (getNutritionByDateRun h this d).1 (getNutritionByDateRun h this d).2
        = some (HeapObject.totals (getNutritionByDate p d)) ∧
      Heap.read (getNutritionByDateRun (getNutritionByDateRun h this d).1 this d).1
          (getNutritionByDateRun (getNutritionByDateRun h this d).1 this d).2
        = Heap.read (getNutritionByDateRun h this d).1 (getNutritionByDateRun h this d).2) ∧
    (Heap.Extends h (getWeeklyNutritionSummaryRun zone h this).1 ∧
      readPlan (getWeeklyNutritionSummaryRun zone h this).1 this = some p ∧
      (getWeeklyNutritionSummaryRun zone h this).2.1.map
          (readDaily (getWeeklyNutritionSummaryRun zone h this).1)
        = (getWeeklyNutritionSummary zone p).dailyNutrition.map some ∧
      Heap.read (getWeeklyNutritionSummaryRun zone h this).1
          (getWeeklyNutritionSummaryRun zone h this).2.2
        = some (HeapObject.totals (getWeeklyNutritionSummary zone p).weeklyTotal) ∧
      (getWeeklyNutritionSummaryRun zone
          (getWeeklyNutritionSummaryRun zone h this).1 this).2.1.map
          (readDaily (getWeeklyNutritionSummaryRun zone
            (getWeeklyNutritionSummaryRun zone h this).1 this).1)
        = (getWeeklyNutritionSummaryRun zone h this).2.1.map
            (readDaily (getWeeklyNutritionSummaryRun zone h this).1) ∧
      Heap.read (getWeeklyNutritionSummaryRun zone
            (getWeeklyNutritionSummaryRun zone h this).1 this).1
          (getWeeklyNutritionSummaryRun zone
            (getWeeklyNutritionSummaryRun zone h this).1 this).2.2
        = Heap.read (getWeeklyNutritionSummaryRun zone h this).1
            (getWeeklyNutritionSummaryRun zone h this).2.2) := by
  obtain ⟨g1, _, g3⟩ := getGroceryListRun_spec rt h this p s e hp
  have gp := readPlan_extends h _ this p g1 hp
  obtain ⟨_, _, g6⟩ := getGroceryListRun_spec rt _ this p s e gp
  obtain ⟨n1, _, n3⟩ := getNutritionByDateRun_spec h this p d hp
  have np := readPlan_extends h _ this p n1 hp
  obtain ⟨_, _, n6⟩ := getNutritionByDateRun_spec _ this p d np
  obtain ⟨w1, w2, w3⟩ := getWeeklyNutritionSummaryRun_spec zone h this p hp
  have wp := readPlan_extends h _ this p w1 hp
  obtain ⟨_, w5, w6⟩ := getWeeklyNutritionSummaryRun_spec zone _ this p wp
  exact ⟨⟨g1, gp, g3, g6.trans g3.symm⟩, ⟨n1, np, n3, n6.trans n3.symm⟩,
    ⟨w1, wp, w2, w3, w5.trans w2.symm, w6.trans w3.symm⟩⟩

/-- C24 on the plan of scenario 2, held in a heap of its own: after the weekly summary
the document still stands for the plan, and the grocery list read after two calls is the
same list. -/
theorem read_only_methods_witness :
    readPlan (planHeap (runOps emptyPlan scenario2)) 3 = some (runOps emptyPlan scenario2) ∧
    readPlan (getWeeklyNutritionSummaryRun 0 (planHeap (runOps emptyPlan scenario2)) 3).1 3
      = some (runOps emptyPlan scenario2) ∧
    Heap.read (getGroceryListRun asciiRuntime (planHeap (runOps emptyPlan scenario2)) 3
        none none).1
        (getGroceryListRun asciiRuntime (planHeap (runOps emptyPlan scenario2)) 3 none none).2
      = some (HeapObject.strings ["Tortilla (x2)", "Beef (x2)", "Tortilla", "Beef"]) :=
  ⟨by decide,
   (read_only_methods asciiRuntime 0 (planHeap (runOps emptyPlan scenario2)) 3
      (runOps emptyPlan scenario2) none none none (by decide)).2.2.2.1,
   ((read_only_methods asciiRuntime 0 (planHeap (runOps emptyPlan scenario2)) 3
      (runOps emptyPlan scenario2) none none none (by decide)).1.2.2.1).trans (by decide)⟩

/-! ## Password strength -/

/-- What `strong` is in the code: at least four of the five checks hold. -/
theorem checkPasswordStrength_strong (p : String) :
    (checkPasswordStrength p).strong = true ↔
      4 ≤ ([(checkPasswordStrength p).checks.length, (checkPasswordStrength p).checks.uppercase,
        (checkPasswordStrength p).checks.lowercase, (checkPasswordStrength p).checks.number,
        (checkPasswordStrength p).checks.special].filter id).length := by
  simp [checkPasswordStrength]

/-- C25 at the failing input: the password "Ab1!" has four characters, fails the length
check, scores 4 and is strong; the registration form stores the account. -/
theorem short_password_is_strong :
    (utf16 shortPassword.data).length = 4 ∧
    (checkPasswordStrength shortPassword).checks.length = false ∧
    (checkPasswordStrength shortPassword).score = 4 ∧
    (checkPasswordStrength shortPassword).strong = true ∧
    handleSubmit [] "ann" shortPassword shortPassword
      = SubmitOutcome.registered "ann" shortPassword := by
  decide

/-! ## The grocery list of a date range -/

/-- C26 at the failing input: "Egg" twice in the plan of one week and once in the plan of
the next.  The lists of the two plans are `["Egg (needed 2 times)"]` and `["Egg"]`; the
route counts these two lines as two different keys and returns both, while the rule
applied once to the three ingredient strings gives `["Egg (needed 3 times)"]`. -/
theorem groceryListRoute_recounts_lines :
    getGroceryList asciiRuntime firstWeekPlan (some jan1) (some jan8)
      = ["Egg (needed 2 times)"] ∧
    getGroceryList asciiRuntime secondWeekPlan (some jan1) (some jan8) = ["Egg"] ∧
    groceryListRoute asciiRuntime [firstWeekPlan, secondWeekPlan] jan1 jan8
      = ["Egg (needed 2 times)", "Egg"] ∧
    combinedGroceryList asciiRuntime [firstWeekPlan, secondWeekPlan] jan1 jan8
      = ["Egg (needed 3 times)"] := by
  decide

/-! ## The weekly total as the sum of the days -/

theorem nutritionByDate_fields (p : MealPlan) (d : Date) :
    (getNutritionByDate p (some d)).calories
      = ((p.meals.filter (fun m => decide (m.dateString = dateKey d))).map
          (entryField Nutrition.calories)).sum ∧
    (getNutritionByDate p (some d)).protein
      = ((p.meals.filter (fun m => decide (m.dateString = dateKey d))).map
          (entryField Nutrition.protein)).sum ∧
    (getNutritionByDate p (some d)).fat
      = ((p.meals.filter (fun m => decide (m.dateString = dateKey d))).map
          (entryField Nutrition.fat)).sum ∧
    (getNutritionByDate p (some d)).carbs
      = ((p.meals.filter (fun m => decide (m.dateString = dateKey d))).map
          (entryField Nutrition.carbs)).sum := by
  have hf : p.meals.filter (fun meal => meal.dateString == dateKey d)
      = p.meals.filter (fun m => decide (m.dateString = dateKey d)) := by
    apply List.filter_congr
    intro m _
    rfl
  simp only [getNutritionByDate, foldl_nutrition, hf, zero_add, and_self]

theorem nutritionOfPlan_fields (p : MealPlan) :
    (getNutritionByDate p none).calories = (p.meals.map (entryField Nutrition.calories)).sum ∧
    (getNutritionByDate p none).protein = (p.meals.map (entryField Nutrition.protein)).sum ∧
    (getNutritionByDate p none).fat = (p.meals.map (entryField Nutrition.fat)).sum ∧
    (getNutritionByDate p none).carbs = (p.meals.map (entryField Nutrition.carbs)).sum := by
  simp only [getNutritionByDate, foldl_nutrition, zero_add, and_self]

theorem sum_indicator (ks : List String) (x : String) (c : Int) (hn : ks.Nodup)
    (hx : x ∈ ks) : (ks.map (fun k => if x = k then c else 0)).sum = c := by
  induction ks with
  | nil => simp at hx
  | cons k ks ih =>
    rw [List.nodup_cons] at hn
    rw [List.map_cons, List.sum_cons]
    by_cases hk : x = k
    · have hz : (ks.map (fun k => if x = k then c else 0)).sum = 0 := by
        apply List.sum_eq_zero
        intro y hy
        obtain ⟨k2, hk2, rfl⟩ := List.mem_map.1 hy
        have : x ≠ k2 := by
          intro h
          rw [hk] at h
          rw [h] at hn
          exact hn.1 hk2
        rw [if_neg this]
      rw [if_pos hk, hz, add_zero]
    · rw [if_neg hk, zero_add]
      apply ih hn.2
      rcases List.mem_cons.1 hx with h | h
      · exact absurd h hk
      · exact h

theorem sum_by_key (ks : List String) (hn : ks.Nodup) (f : MealEntry → Int) :
    ∀ meals : List MealEntry, (∀ m ∈ meals, m.dateString ∈ ks) →
    (ks.map (fun k => ((meals.filter (fun m => decide (m.dateString = k))).map f).sum)).sum
      = (meals.map f).sum := by
  intro meals
  induction meals with
  | nil =>
    intro _
    simp
  | cons m ms ih =>
    intro h
    have hstep : ∀ k, (((m :: ms).filter (fun m => decide (m.dateString = k))).map f).sum
        = (if m.dateString = k then f m else 0)
          + ((ms.filter (fun m => decide (m.dateString = k))).map f).sum := by
      intro k
      by_cases hk : m.dateString = k
      · simp [List.filter_cons, hk]
      · simp [List.filter_cons, hk]
    simp only [hstep]
    rw [List.sum_map_add, sum_indicator ks _ _ hn (h m (List.mem_cons_self _ _)),
      ih (fun x hx => h x (List.mem_cons_of_mem _ hx)), List.map_cons, List.sum_cons]

/-- C27. When every entry's `dateString` is one of the seven date keys of the week that
starts at `weekStartDate`, and these seven keys are pairwise distinct, the seven daily
records of `getWeeklyNutritionSummary` add up, field by field, to its `weeklyTotal`. -/
theorem weeklyTotal_is_sum_of_days (zone : Int) (p : MealPlan)
    (hscope : ∀ m ∈ p.meals, m.dateString ∈ weekKeys p.weekStartDate)
    (hdistinct : (weekKeys p.weekStartDate).Nodup) :
    (getWeeklyNutritionSummary zone p).dailyNutrition.length = 7 ∧
    ((getWeeklyNutritionSummary zone p).dailyNutrition.map (fun r => r.nutrition.calories)).sum
      = (getWeeklyNutritionSummary zone p).weeklyTotal.calories ∧
    ((getWeeklyNutritionSummary zone p).dailyNutrition.map (fun r => r.nutrition.protein)).sum
      = (getWeeklyNutritionSummary zone p).weeklyTotal.protein ∧
    ((getWeeklyNutritionSummary zone p).dailyNutrition.map (fun r => r.nutrition.fat)).sum
      = (getWeeklyNutritionSummary zone p).weeklyTotal.fat ∧
    ((getWeeklyNutritionSummary zone p).dailyNutrition.map (fun r => r.nutrition.carbs)).sum
      = (getWeeklyNutritionSummary zone p).weeklyTotal.carbs := by
  have hdaily : ∀ g : NutritionTotals → Int,
      (getWeeklyNutritionSummary zone p).dailyNutrition.map (fun r => g r.nutrition)
        = (List.range 7).map (fun (i : Nat) =>
            g (getNutritionByDate p (some ⟨p.weekStartDate.time + (i : Int) * msPerDay⟩))) := by
    intro g
    unfold getWeeklyNutritionSummary
    simp only [weekDates_loop, List.map_map]
    rfl
  have hkeys : ∀ f : MealEntry → Int,
      ((List.range 7).map (fun (i : Nat) =>
        ((p.meals.filter (fun m => decide (m.dateString
          = dateKey ⟨p.weekStartDate.time + (i : Int) * msPerDay⟩))).map f).sum)).sum
      = (p.meals.map f).sum := by
    intro f
    have h := sum_by_key (weekKeys p.weekStartDate) hdistinct f p.meals hscope
    unfold weekKeys at h
    rw [List.map_map] at h
    exact h
  have hlen : (getWeeklyNutritionSummary zone p).dailyNutrition.length = 7 := by
    have h := congrArg List.length (hdaily (fun n => n.calories))
    simpa using h
  have htotal : (getWeeklyNutritionSummary zone p).weeklyTotal = getNutritionByDate p none := rfl
  have hp := nutritionOfPlan_fields p
  refine ⟨hlen, ?_, ?_, ?_, ?_⟩
  · rw [hdaily (fun n => n.calories), htotal, hp.1, ← hkeys]
    congr 1
    apply List.map_congr_left
    intro i _
    exact (nutritionByDate_fields p _).1
  · rw [hdaily (fun n => n.protein), htotal, hp.2.1, ← hkeys]
    congr 1
    apply List.map_congr_left
    intro i _
    exact (nutritionByDate_fields p _).2.1
  · rw [hdaily (fun n => n.fat), htotal, hp.2.2.1, ← hkeys]
    congr 1
    apply List.map_congr_left
    intro i _
    exact (nutritionByDate_fields p _).2.2.1
  · rw [hdaily (fun n => n.carbs), htotal, hp.2.2.2, ← hkeys]
    congr 1
    apply List.map_congr_left
    intro i _
    exact (nutritionByDate_fields p _).2.2.2

/-- C27 on the plan of scenario 2: the days give 0 + 800 + 400 + 0 + 0 + 0 + 0 calories
and the weekly total is 1200. -/
theorem weeklyTotal_is_sum_of_days_witness :
    (∀ m ∈ (runOps emptyPlan scenario2).meals,
      m.dateString ∈ weekKeys (runOps emptyPlan scenario2).weekStartDate) ∧
    (weekKeys (runOps emptyPlan scenario2).weekStartDate).Nodup ∧
    ((getWeeklyNutritionSummary 0 (runOps emptyPlan scenario2)).dailyNutrition.map
      (fun r => r.nutrition.calories)).sum = 1200 ∧
    (getWeeklyNutritionSummary 0 (runOps emptyPlan scenario2)).weeklyTotal.calories = 1200 :=
  ⟨by decide, by decide,
   ((weeklyTotal_is_sum_of_days 0 (runOps emptyPlan scenario2) (by decide) (by decide)).2.1).trans
     (by decide),
   by decide⟩

/-! ## Week identifiers of different weeks -/

theorem digitsValue_snoc (ds : List Char) (c : Char) :
    digitsValue (ds ++ [c]) = 10 * digitsValue ds + (c.toNat - 48) := by
  unfold digitsValue
  rw [List.foldl_append]
  rfl

theorem toDigitsCore_digits : ∀ (fuel n : Nat) (ds : List Char), n < fuel →
    ∃ pre : List Char, Nat.toDigitsCore 10 fuel n ds = pre ++ ds ∧ pre ≠ [] ∧
      (∀ c ∈ pre, 48 ≤ c.toNat ∧ c.toNat ≤ 57) ∧ digitsValue pre = n := by
  intro fuel
  induction fuel with
  | zero => intro n ds h; omega
  | succ f ih =>
    intro n ds h
    have hd := digitChar_toNat (n % 10) (Nat.mod_lt _ (by norm_num))
    unfold Nat.toDigitsCore
    by_cases h0 : n / 10 = 0
    · simp only [h0, if_true]
      refine ⟨[Nat.digitChar (n % 10)], rfl, by simp, ?_, ?_⟩
      · intro c hc
        rw [List.mem_singleton] at hc
        rw [hc, hd]
        omega
      · simp only [digitsValue, List.foldl_cons, List.foldl_nil, hd]
        omega
    · simp only [h0, if_false]
      obtain ⟨pre, h1, _, h3, h4⟩ := ih (n / 10) (Nat.digitChar (n % 10) :: ds) (by omega)
      refine ⟨pre ++ [Nat.digitChar (n % 10)], ?_, by simp, ?_, ?_⟩
      · rw [h1]
        simp
      · intro c hc
        rcases List.mem_append.1 hc with hc | hc
        · exact h3 c hc
        · rw [List.mem_singleton] at hc
          rw [hc, hd]
          omega
      · rw [digitsValue_snoc, h4, hd]
        omega

theorem repr_digits (n : Nat) :
    (Nat.repr n).data ≠ [] ∧ (∀ c ∈ (Nat.repr n).data, 48 ≤ c.toNat ∧ c.toNat ≤ 57) ∧
    digitsValue (Nat.repr n).data = n := by
  obtain ⟨pre, h1, h2, h3, h4⟩ := toDigitsCore_digits (n + 1) n [] (by omega)
  have hr : (Nat.repr n).data = pre := by
    unfold Nat.repr Nat.toDigits
    rw [h1]
    simp [List.asString]
  rw [hr]
  exact ⟨h2, h3, h4⟩

theorem digits_split : ∀ (a b s1 s2 : List Char),
    (∀ c ∈ a, 48 ≤ c.toNat ∧ c.toNat ≤ 57) → (∀ c ∈ b, 48 ≤ c.toNat ∧ c.toNat ≤ 57) →
    a ++ '-' :: s1 = b ++ '-' :: s2 → a = b ∧ s1 = s2 := by
  intro a
  induction a with
  | nil =>
    intro b s1 s2 _ hb h
    cases b with
    | nil => simpa using h
    | cons c cs =>
      exfalso
      simp only [List.nil_append, List.cons_append, List.cons.injEq] at h
      have := hb c (List.mem_cons_self _ _)
      rw [← h.1] at this
      revert this
      decide
  | cons x xs ih =>
    intro b s1 s2 ha hb h
    cases b with
    | nil =>
      exfalso
      simp only [List.nil_append, List.cons_append, List.cons.injEq] at h
      have := ha x (List.mem_cons_self _ _)
      rw [h.1] at this
      revert this
      decide
    | cons c cs =>
      simp only [List.cons_append, List.cons.injEq] at h
      obtain ⟨h1, h2⟩ := ih cs s1 s2 (fun y hy => ha y (List.mem_cons_of_mem _ hy))
        (fun y hy => hb y (List.mem_cons_of_mem _ hy)) h.2
      exact ⟨by rw [h.1, h1], h2⟩

theorem numberToString_data (n : Int) :
    (n < 0 ∧ (numberToString n).data = '-' :: (Nat.repr (-n).toNat).data) ∨
    (0 ≤ n ∧ (numberToString n).data = (Nat.repr n.toNat).data) := by
  unfold numberToString
  by_cases h : n < 0
  · left
    rw [if_pos h]
    exact ⟨h, rfl⟩
  · right
    rw [if_neg h]
    exact ⟨by omega, rfl⟩

theorem numeral_split (y1 y2 : Int) (s1 s2 : List Char)
    (h : (numberToString y1).data ++ '-' :: s1 = (numberToString y2).data ++ '-' :: s2) :
    y1 = y2 ∧ s1 = s2 := by
  rcases numberToString_data y1 with ⟨n1, e1⟩ | ⟨n1, e1⟩ <;>
    rcases numberToString_data y2 with ⟨n2, e2⟩ | ⟨n2, e2⟩
  · rw [e1, e2] at h
    simp only [List.cons_append, List.cons.injEq, true_and] at h
    obtain ⟨g1, g2⟩ := digits_split _ _ _ _ (repr_digits _).2.1 (repr_digits _).2.1 h
    have hv := congrArg digitsValue g1
    rw [(repr_digits _).2.2, (repr_digits _).2.2] at hv
    exact ⟨by omega, g2⟩
  · exfalso
    rw [e1, e2] at h
    have hne := (repr_digits y2.toNat).1
    have hd := (repr_digits y2.toNat).2.1
    cases hr : (Nat.repr y2.toNat).data with
    | nil => exact hne hr
    | cons c cs =>
      rw [hr] at h hd
      simp only [List.cons_append, List.cons.injEq] at h
      have := hd c (List.mem_cons_self _ _)
      rw [← h.1] at this
      revert this
      decide
  · exfalso
    rw [e1, e2] at h
    have hne := (repr_digits y1.toNat).1
    have hd := (repr_digits y1.toNat).2.1
    cases hr : (Nat.repr y1.toNat).data with
    | nil => exact hne hr
    | cons c cs =>
      rw [hr] at h hd
      simp only [List.cons_append, List.cons.injEq] at h
      have := hd c (List.mem_cons_self _ _)
      rw [h.1] at this
      revert this
      decide
  · rw [e1, e2] at h
    obtain ⟨g1, g2⟩ := digits_split _ _ _ _ (repr_digits _).2.1 (repr_digits _).2.1 h
    have hv := congrArg digitsValue g1
    rw [(repr_digits _).2.2, (repr_digits _).2.2] at hv
    exact ⟨by omega, g2⟩

theorem utf16_length_ge (cs : List Char) : cs.length ≤ (utf16 cs).length := by
  induction cs with
  | nil => simp [utf16]
  | cons c cs ih =>
    have step : utf16 (c :: cs)
        = if c.toNat < 0x10000 then c.toNat :: utf16 cs
          else (0xD800 + (c.toNat - 0x10000) / 0x400) ::
            (0xDC00 + (c.toNat - 0x10000) % 0x400) :: utf16 cs := rfl
    rw [step]
    split <;> simp <;> omega

theorem digitsValue_zeros (k : Nat) (ds : List Char) :
    digitsValue (List.replicate k '0' ++ ds) = digitsValue ds := by
  unfold digitsValue
  rw [List.foldl_append]
  congr 1
  induction k with
  | zero => rfl
  | succ k ih =>
    rw [List.replicate_succ, List.foldl_cons]
    exact ih

theorem numeralValue_digits (cs : List Char) (h : ∀ c ∈ cs, 48 ≤ c.toNat ∧ c.toNat ≤ 57) :
    numeralValue cs = (digitsValue cs : Int) := by
  cases cs with
  | nil => rfl
  | cons c cs =>
    have hc := h c (List.mem_cons_self _ _)
    have hne : c ≠ '-' := by
      intro he
      rw [he] at hc
      revert hc
      decide
    unfold numeralValue
    split
    · next ds heq =>
      exfalso
      apply hne
      exact (List.cons.inj heq).1
    · rfl

theorem padStart_value (w : Int) :
    numeralValue (padStart 2 '0' (numberToString w)).data = w := by
  unfold padStart
  simp only []
  rcases numberToString_data w with ⟨hneg, e⟩ | ⟨hpos, e⟩
  · have hlen : 2 ≤ (utf16 (numberToString w).data).length := by
      have h1 := utf16_length_ge (numberToString w).data
      have h2 : (Nat.repr (-w).toNat).data.length ≠ 0 := by
        intro h0
        exact (repr_digits (-w).toNat).1 (List.length_eq_zero.1 h0)
      rw [e] at h1 ⊢
      simp only [List.length_cons] at h1
      omega
    have hz : 2 - (utf16 (numberToString w).data).length = 0 := by omega
    rw [hz, e]
    simp only [List.replicate_zero, List.nil_append]
    unfold numeralValue
    simp only []
    rw [(repr_digits _).2.2]
    omega
  · rw [e]
    rw [numeralValue_digits, digitsValue_zeros, (repr_digits _).2.2]
    · omega
    · intro c hc
      rcases List.mem_append.1 hc with hc | hc
      · rw [List.eq_of_mem_replicate hc]
        decide
      · exact (repr_digits _).2.1 c hc

/-- The year and the week number can be read back from a weekId. -/
theorem weekId_parts (y1 y2 w1 w2 : Int)
    (h : numberToString y1 ++ "-" ++ padStart 2 '0' (numberToString w1)
      = numberToString y2 ++ "-" ++ padStart 2 '0' (numberToString w2)) :
    y1 = y2 ∧ w1 = w2 := by
  have hd := congrArg String.data h
  simp only [String.data_append, List.append_assoc] at hd
  simp only [List.singleton_append] at hd
  obtain ⟨g1, g2⟩ := numeral_split _ _ _ _ hd
  refine ⟨g1, ?_⟩
  have hv := congrArg numeralValue g2
  rw [padStart_value, padStart_value] at hv
  exact hv

theorem sunday_week_numbers (zone : Int) (a b : Date) (ha : getDay zone a = 0)
    (hb : getDay zone b = 0) (hy : getFullYear zone a = getFullYear zone b)
    (hw : generatedWeekNumber zone a = generatedWeekNumber zone b) :
    Day (LocalTime zone a.time) = Day (LocalTime zone b.time) := by
  unfold generatedWeekNumber at hw
  simp only [] at hw
  rw [ha, hb, hy] at hw
  unfold newDate UTC at hw
  simp only [] at hw
  generalize MakeDay (if 0 ≤ getFullYear zone b ∧ getFullYear zone b ≤ 99
    then 1900 + getFullYear zone b else getFullYear zone b) 0 1 = j at hw
  unfold getDay WeekDay at ha hb
  unfold ceilDiv at hw
  unfold Day LocalTime msPerDay at *
  omega

/-- C28. `generateWeekId` is injective on week starts: two Sundays (of the local
calendar, in a zone with a constant offset) on different calendar days have different
weekIds, so the plans `findOrCreateWeekPlan` returns for them, found or created, are
different plans. -/
theorem generateWeekId_injective_on_sundays (zone : Int) (a b : Date)
    (ha : getDay zone a = 0) (hb : getDay zone b = 0)
    (hne : Day (LocalTime zone a.time) ≠ Day (LocalTime zone b.time)) :
    generateWeekId zone a ≠ generateWeekId zone b ∧
    ∀ (store1 store2 : List MealPlan) (userId : String),
      (findOrCreateWeekPlan zone store1 userId a).1.weekId = generateWeekId zone a ∧
      (findOrCreateWeekPlan zone store2 userId b).1.weekId = generateWeekId zone b ∧
      (findOrCreateWeekPlan zone store1 userId a).1
        ≠ (findOrCreateWeekPlan zone store2 userId b).1 := by
  have hid : generateWeekId zone a ≠ generateWeekId zone b := by
    intro h
    have hparts := weekId_parts (getFullYear zone a) (getFullYear zone b)
      (generatedWeekNumber zone a) (generatedWeekNumber zone b) h
    exact hne (sunday_week_numbers zone a b ha hb hparts.1 hparts.2)
  have hweek : ∀ (store : List MealPlan) (userId : String) (d : Date),
      (findOrCreateWeekPlan zone store userId d).1.weekId = generateWeekId zone d := by
    intro store userId d
    unfold findOrCreateWeekPlan
    simp only []
    cases hf : findOne store userId (generateWeekId zone d) with
    | none => rfl
    | some plan =>
      simp only []
      unfold findOne at hf
      have := List.find?_some hf
      simp only [Bool.and_eq_true, beq_iff_eq] at this
      exact this.2
  refine ⟨hid, ?_⟩
  intro store1 store2 userId
  refine ⟨hweek _ _ _, hweek _ _ _, ?_⟩
  intro h
  apply hid
  rw [← hweek store1 userId a, ← hweek store2 userId b, h]

/-- C28 on Sunday 2023-12-31 and Sunday 2024-01-07, local time = UTC: the weekIds are
"2023-53" and "2024-01". -/
theorem generateWeekId_injective_on_sundays_witness :
    getDay 0 ⟨1703980800000⟩ = 0 ∧ getDay 0 jan7 = 0 ∧
    generateWeekId 0 ⟨1703980800000⟩ = "2023-53" ∧ generateWeekId 0 jan7 = "2024-01" ∧
    generateWeekId 0 ⟨1703980800000⟩ ≠ generateWeekId 0 jan7 :=
  ⟨by decide, by decide, by decide, by decide,
   (generateWeekId_injective_on_sundays 0 ⟨1703980800000⟩ jan7 (by decide) (by decide)
      (by decide)).1⟩

/-! ## The two normalizers -/

theorem filter_foldl_diet (tokens : List String) : ∀ diet : List String,
    (tokens.foldl (fun diet tag =>
      if dietAllowList.contains tag then
        if !diet.contains tag then diet ++ [tag] else diet
      else diet) diet).filter (fun t => serviceDietAllowList.contains t)
    = tokens.foldl (fun diet tag =>
      if serviceDietAllowList.contains tag then
        if !diet.contains tag then diet ++ [tag] else diet
      else diet) (diet.filter (fun t => serviceDietAllowList.contains t)) := by
  induction tokens with
  | nil => intro diet; rfl
  | cons t ts ih =>
    intro diet
    rw [List.foldl_cons, List.foldl_cons, ih]
    congr 1
    have hsub : t ∈ serviceDietAllowList → t ∈ dietAllowList := by
      intro h
      simp only [serviceDietAllowList, dietAllowList, List.mem_cons, List.mem_singleton,
        List.mem_nil_iff, or_false] at h ⊢
      tauto
    by_cases hs : t ∈ serviceDietAllowList
    · have ha := hsub hs
      by_cases hd : t ∈ diet
      · simp [hs, ha, hd]
      · simp [hs, ha, hd, List.filter_append, List.filter_cons]
    · by_cases ha : t ∈ dietAllowList
      · by_cases hd : t ∈ diet
        · simp [hs, ha, hd]
        · simp [hs, ha, hd, List.filter_append, List.filter_cons]
      · simp [hs, ha]

/-- Where the two normalizers agree: the ingredient list and the estimated nutrition are
the same for every payload, and the diet tags of `convertToRecipe` are those of
`createFromTheMealDB` without "Low-Carb" and "High-Protein". -/
theorem convertToRecipe_agreement (rt : JsRuntime) (meal : MealData) :
    (convertToRecipe rt meal).ingredients = (createFromTheMealDB rt meal).ingredients ∧
    (convertToRecipe rt meal).nutrition = (createFromTheMealDB rt meal).nutrition ∧
    (convertToRecipe rt meal).diet
      = (createFromTheMealDB rt meal).diet.filter (fun t => serviceDietAllowList.contains t) := by
  refine ⟨rfl, rfl, ?_⟩
  simp only [convertToRecipe, createFromTheMealDB, convertToRecipe_diet, createFromTheMealDB_diet]
  have hbase : ∀ base : List String, (∀ x ∈ base, x = "Vegetarian" ∨ x = "Vegan") →
      base.filter (fun t => serviceDietAllowList.contains t) = base := by
    intro base hb
    rw [List.filter_eq_self]
    intro x hx
    rcases hb x hx with h | h <;> subst h <;> decide
  have hcat : ((if meal.strCategory = some "Vegan" then
      (if meal.strCategory = some "Vegetarian" then ([] : List String) ++ ["Vegetarian"]
        else []) ++ ["Vegan"]
      else (if meal.strCategory = some "Vegetarian" then ([] : List String) ++ ["Vegetarian"]
        else []))).filter (fun t => serviceDietAllowList.contains t)
      = (if meal.strCategory = some "Vegan" then
      (if meal.strCategory = some "Vegetarian" then ([] : List String) ++ ["Vegetarian"]
        else []) ++ ["Vegan"]
      else (if meal.strCategory = some "Vegetarian" then ([] : List String) ++ ["Vegetarian"]
        else [])) := by
    apply hbase
    intro x hx
    split_ifs at hx <;> simp at hx <;> tauto
  cases hT : meal.strTags with
  | none => simp only []; rw [hcat]
  | some strTags =>
    simp only []
    by_cases he : (strTags != "") = true
    · rw [if_pos he, if_pos he, filter_foldl_diet, hcat]
    · rw [if_neg he, if_neg he, hcat]

/-- C29 at the failing input: for the payload with the tags "Low-Carb,Keto" the two
normalizers give the same ingredients and the same nutrition, and the diet tags
`["Low-Carb", "Keto"]` (`createFromTheMealDB`) and `["Keto"]` (`convertToRecipe`). -/
theorem normalizers_differ_on_diet :
    (createFromTheMealDB asciiRuntime lowCarbMeal).ingredients
      = (convertToRecipe asciiRuntime lowCarbMeal).ingredients ∧
    (createFromTheMealDB asciiRuntime lowCarbMeal).nutrition
      = (convertToRecipe asciiRuntime lowCarbMeal).nutrition ∧
    (createFromTheMealDB asciiRuntime lowCarbMeal).diet = ["Low-Carb", "Keto"] ∧
    (convertToRecipe asciiRuntime lowCarbMeal).diet = ["Keto"] := by
  refine ⟨rfl, rfl, ?_, ?_⟩ <;> decide

/-! ## Date keys of a local week -/

theorem getWeekDates_eq (zone : Int) (d : Date) :
    getWeekDates zone d
      = (List.range 7).map (fun (i : Nat) =>
          (⟨d.time - getDay zone d * msPerDay + (i : Int) * msPerDay⟩ : Date)) := by
  have hr : List.range 7 = [0, 1, 2, 3, 4, 5, 6] := by decide
  unfold getWeekDates
  rw [hr]
  simp only [List.foldl_cons, List.foldl_nil, setDate_add, List.nil_append,
    List.cons_append, List.map_cons, List.map_nil, getWeekStart_time]

/-- Where the claim C30 holds: when the UTC calendar day of `d` is its local calendar
day (as in the zone UTC), the seven dates of `getWeekDates(d)` have the same calendar
day in UTC and in local time, and the days their date keys name run from Sunday to
Saturday. -/
theorem week_keys_when_days_agree (zone : Int) (d : Date)
    (h : Day (LocalTime zone d.time) = Day d.time) :
    (∀ x ∈ getWeekDates zone d, Day x.time = Day (LocalTime zone x.time)) ∧
    (getWeekDates zone d).map (fun x => WeekDay (Day x.time)) = [0, 1, 2, 3, 4, 5, 6] := by
  have hb := getDay_bounds zone d
  have hg : getDay zone d = (Day (LocalTime zone d.time) + 4) % 7 := rfl
  rw [getWeekDates_eq]
  have hr : List.range 7 = [0, 1, 2, 3, 4, 5, 6] := by decide
  rw [hr]
  generalize getDay zone d = g at *
  constructor
  · intro x hx
    simp only [List.map_cons, List.map_nil, List.mem_cons, List.mem_singleton,
      List.not_mem_nil, or_false] at hx
    unfold Day LocalTime msPerDay at *
    rcases hx with rfl | rfl | rfl | rfl | rfl | rfl | rfl <;> simp only [] <;> omega
  · simp only [List.map_cons, List.map_nil, List.cons.injEq, and_true]
    unfold WeekDay Day LocalTime msPerDay at *
    refine ⟨?_, ?_, ?_, ?_, ?_, ?_, ?_⟩ <;> omega

/-- C30 at the failing input: in the zone UTC-5, for Sunday 2024-01-07 at 20:00 local
time, `getWeekStart` returns that same instant, a Sunday of the local calendar, and
`formatDateString` names 2024-01-08, a Monday; the seven keys of
`createWeekMealPlanStructure` run from 2024-01-08 to 2024-01-14 under the day names
"Sun" to "Sat", while the local week runs from 2024-01-07 to 2024-01-13. -/
theorem week_keys_name_the_next_day :
    getWeekStart utcMinus5 sundayEvening = sundayEvening ∧
    getDay utcMinus5 (getWeekStart utcMinus5 sundayEvening) = 0 ∧
    isoDate (Day (LocalTime utcMinus5 (getWeekStart utcMinus5 sundayEvening).time))
      = "2024-01-07" ∧
    formatDateString (getWeekStart utcMinus5 sundayEvening) = "2024-01-08" ∧
    (parseDate (formatDateString (getWeekStart utcMinus5 sundayEvening))).map
      (fun x => WeekDay (Day x.time)) = some 1 ∧
    (createWeekMealPlanStructure utcMinus5 sundayEvening).map (fun kv => (kv.1, kv.2.dayName))
      = [("2024-01-08", "Sun"), ("2024-01-09", "Mon"), ("2024-01-10", "Tue"),
         ("2024-01-11", "Wed"), ("2024-01-12", "Thu"), ("2024-01-13", "Fri"),
         ("2024-01-14", "Sat")] ∧
    (getWeekDates utcMinus5 sundayEvening).map (fun x => isoDate (Day (LocalTime utcMinus5 x.time)))
      = ["2024-01-07", "2024-01-08", "2024-01-09", "2024-01-10", "2024-01-11", "2024-01-12",
         "2024-01-13"] := by
  decide

end MealPlanner
